import Mathlib

/-!
# protoc-gen-go-setters: the setter generator of `main.go`

A shallow embedding of `fieldGoType`, `generateMessageSetters`, the four text
templates and `ExecuteTemplate`, followed by the Go meaning of the four
generated method bodies.

The descriptor tree is built by `protogen` and only read by the generator.
Pointers to messages (`field.Message`, `field.Parent`) are identifiers resolved
in an environment, so fields may name their own message or each other's; the
declaration nesting `message.Messages` is a finite tree. A Go run-time panic
(nil dereference, index out of range) and running out of recursion fuel are
the three ways a call can fail to return.
-/

namespace GoSetters

/-! ## Descriptor tree (the parts of `protogen` and `protoreflect` that are read) -/

/-- The type `protogen.GoIdent`: a Go name and the import path of its package. -/
structure GoIdent where
  GoName : String
  GoImportPath : String
deriving DecidableEq, Repr

/-- The valid values of `protoreflect.Kind`. -/
inductive Kind
  | BoolKind | EnumKind | Int32Kind | Sint32Kind | Uint32Kind | Int64Kind
  | Sint64Kind | Uint64Kind | Sfixed32Kind | Fixed32Kind | FloatKind
  | Sfixed64Kind | Fixed64Kind | DoubleKind | StringKind | BytesKind
  | MessageKind | GroupKind
deriving DecidableEq, Repr

/-- The shape of a field: `IsList` and `IsMap` of `protoreflect.FieldDescriptor`
exclude each other, a field that is neither is singular. -/
inductive Label
  | singular | list | map
deriving DecidableEq, Repr

/-- The methods of `field.Desc` (`protoreflect.FieldDescriptor`) the generator calls. -/
structure FieldDescriptor where
  IsWeak : Bool
  HasPresence : Bool
  HasOptionalKeyword : Bool
  Kind : Kind
  label : Label
deriving DecidableEq, Repr

/-- The method `IsList` of the field descriptor. -/
def FieldDescriptor.IsList (d : FieldDescriptor) : Bool :=
  d.label == Label.list

/-- The method `IsMap` of the field descriptor. -/
def FieldDescriptor.IsMap (d : FieldDescriptor) : Bool :=
  d.label == Label.map

/-- The type `protogen.Enum`, of which `GoIdent` is read. -/
structure Enum where
  GoIdent : GoIdent
deriving DecidableEq, Repr

/-- What is read through the pointer `field.Oneof`: the oneof's `GoName`. -/
structure OneofRef where
  GoName : String
deriving DecidableEq, Repr

/-- Identity of a message definition: what a `*protogen.Message` points to. -/
abbrev MsgId := Nat

/-- The type `protogen.Field`. `Parent` and `Message` are pointers to messages,
`Enum`, `Message` and `Oneof` are nil (`none`) when the field has none. -/
structure Field where
  GoName : String
  GoIdent : GoIdent
  Parent : MsgId
  Oneof : Option OneofRef
  Enum : Option Enum
  Message : Option MsgId
  Desc : FieldDescriptor
deriving DecidableEq, Repr

/-- The type `protogen.Oneof`: its name and its member fields in declaration order. -/
structure Oneof where
  GoName : String
  Fields : List Field
deriving DecidableEq, Repr

/-- The type `protogen.Message`: identifier, `Desc.IsMapEntry()`, fields, oneofs and
the messages declared inside it. -/
inductive Message where
  | mk (GoIdent : GoIdent) (IsMapEntry : Bool) (Fields : List Field)
      (Oneofs : List Oneof) (Messages : List Message)

namespace Message

/-- Field `GoIdent` of a message. -/
def GoIdent : Message → GoIdent
  | mk i _ _ _ _ => i

/-- The result of `message.Desc.IsMapEntry()`. -/
def IsMapEntry : Message → Bool
  | mk _ b _ _ _ => b

/-- Field `Fields` of a message. -/
def Fields : Message → List Field
  | mk _ _ fs _ _ => fs

/-- Field `Oneofs` of a message. -/
def Oneofs : Message → List Oneof
  | mk _ _ _ os _ => os

/-- Field `Messages` of a message: the nested declarations. -/
def Messages : Message → List Message
  | mk _ _ _ _ ms => ms

end Message

/-- The heap of message definitions: what each message pointer refers to. -/
abbrev Env := MsgId → Message

/-- Why a call does not return: the two Go panics the generator can raise, and
the recursion budget of the embedding running out. -/
inductive Failure
  | nilDereference
  | indexOutOfRange
  | fuelExhausted
deriving DecidableEq, Repr

/-- Dereference of a pointer that may be nil. -/
def deref {α : Type} : Option α → Except Failure α
  | some a => .ok a
  | none => .error Failure.nilDereference

/-- Slice indexing `xs[i]`, which panics when `i` is out of range. -/
def index {α : Type} (xs : List α) (i : Nat) : Except Failure α :=
  match xs.get? i with
  | some a => .ok a
  | none => .error Failure.indexOutOfRange

/-- The type `protogen.GeneratedFile`: the naming function behind
`QualifiedGoIdent` (a parameter, it belongs to `protogen`) and the arguments of
the calls of `P` so far, oldest first. -/
structure GeneratedFile where
  QualifiedGoIdent : GoIdent → String
  buf : List String

/-- The method `P` of the generated file: appends one printed item. -/
def GeneratedFile.P (g : GeneratedFile) (s : String) : GeneratedFile :=
  { g with buf := g.buf ++ [s] }

/-! ## fieldGoType -/

/-- The first `switch` of `fieldGoType`: the base type name and the pointer flag
after the kind was looked at, starting from `pointer = HasPresence()`. -/
def baseGoType (env : Env) (g : GeneratedFile) (field : Field) :
    Except Failure (String × Bool) :=
  let pointer := field.Desc.HasPresence
  match field.Desc.Kind with
  | .BoolKind => .ok ("bool", pointer)
  | .EnumKind =>
    match deref field.Enum with
    | .error e => .error e
    | .ok en =>
      if en.GoIdent.GoImportPath ≠ (env field.Parent).GoIdent.GoImportPath then
        .ok (g.QualifiedGoIdent en.GoIdent, pointer)
      else
        .ok (en.GoIdent.GoName, pointer)
  | .Int32Kind | .Sint32Kind | .Sfixed32Kind => .ok ("int32", pointer)
  | .Uint32Kind | .Fixed32Kind => .ok ("uint32", pointer)
  | .Int64Kind | .Sint64Kind | .Sfixed64Kind => .ok ("int64", pointer)
  | .Uint64Kind | .Fixed64Kind => .ok ("uint64", pointer)
  | .FloatKind => .ok ("float32", pointer)
  | .DoubleKind => .ok ("float64", pointer)
  | .StringKind => .ok ("string", pointer)
  | .BytesKind => .ok ("[]byte", false)
  | .MessageKind | .GroupKind =>
    match deref field.Message with
    | .error e => .error e
    | .ok m =>
      if (env m).GoIdent.GoImportPath ≠ (env field.Parent).GoIdent.GoImportPath then
        .ok ("*" ++ g.QualifiedGoIdent (env m).GoIdent, false)
      else
        .ok ("*" ++ (env m).GoIdent.GoName, false)

/-- The function `fieldGoType`: the Go type name of a field and whether the
setter takes it through a pointer. Every call costs one unit of fuel. -/
def fieldGoType (env : Env) (g : GeneratedFile) : Nat → Field → Except Failure (String × Bool)
  | 0, _ => .error Failure.fuelExhausted
  | fuel + 1, field =>
    if field.Desc.IsWeak then .ok ("struct\x7b\x7d", false)
    else
      match baseGoType env g field with
      | .error e => .error e
      | .ok (goType, pointer) =>
        if field.Desc.IsList then .ok ("[]" ++ goType, false)
        else if field.Desc.IsMap then
          match deref field.Message with
          | .error e => .error e
          | .ok m =>
            match index (env m).Fields 0 with
            | .error e => .error e
            | .ok keyField =>
              match fieldGoType env g fuel keyField with
              | .error e => .error e
              | .ok (keyType, _) =>
                match index (env m).Fields 1 with
                | .error e => .error e
                | .ok valField =>
                  match fieldGoType env g fuel valField with
                  | .error e => .error e
                  | .ok (valType, _) => .ok ("map[" ++ keyType ++ "]" ++ valType, false)
        else .ok (goType, pointer)

/-! ## Templates -/

/-- Data of the plain setter and of the append mutator. -/
structure SetterTemplate where
  MessageName : String
  FieldName : String
  FieldType : String
deriving DecidableEq, Repr

/-- Data of the oneof-case setter. -/
structure OneOfSetterTemplate where
  MessageName : String
  StructFieldName : String
  InputWrapperName : String
  FieldName : String
  FieldType : String
deriving DecidableEq, Repr

/-- Data of the map-entry setter. -/
structure MapSetterTemplate where
  MessageName : String
  FieldName : String
  KeyType : String
  ValueType : String
deriving DecidableEq, Repr

/-- The template `tpl`: the plain setter, as the text it expands to. -/
def tpl (d : SetterTemplate) : String :=
  "\n\nfunc (x *" ++ d.MessageName ++ " ) Set" ++ d.FieldName ++ "(in " ++ d.FieldType ++
    " )\x7b\n\tx." ++ d.FieldName ++ " = in\n\x7d\n\n"

/-- The template `appendArrayTpl`: the append mutator. -/
def appendArrayTpl (d : SetterTemplate) : String :=
  "\n\nfunc (x *" ++ d.MessageName ++ " ) Append" ++ d.FieldName ++ "(in " ++ d.FieldType ++
    " ) \x7b\n\tx." ++ d.FieldName ++ " = append(x." ++ d.FieldName ++ ", in...)\n\x7d\n\n"

/-- The template `oneofTpl`: the oneof-case setter. -/
def oneofTpl (d : OneOfSetterTemplate) : String :=
  "\n\nfunc (x *" ++ d.MessageName ++ " ) Set" ++ d.FieldName ++ "(in " ++ d.FieldType ++
    " ) \x7b\n\tx." ++ d.StructFieldName ++ " = " ++ d.InputWrapperName ++ "\x7b " ++
    d.FieldName ++ ":in \x7d\n\x7d\n\n"

/-- The template `mapSetTpl`: the map-entry setter. -/
def mapSetTpl (d : MapSetterTemplate) : String :=
  "\n\nfunc (x *" ++ d.MessageName ++ " ) Set" ++ d.FieldName ++ "Key(key " ++ d.KeyType ++
    ", val " ++ d.ValueType ++ " )\x7b\n\tx." ++ d.FieldName ++ "[key] = val\n\x7d\n\n"

/-- The function `ExecuteTemplate`: expands a template on its data. None of the
four templates fails to parse or to execute on the data it is given. -/
def ExecuteTemplate {δ : Type} (tplate : δ → String) (data : δ) : String :=
  tplate data

/-- Replacement of the first occurrence of a non-empty `old`, on characters. -/
def replaceFirst (old new : List Char) : List Char → List Char
  | [] => []
  | c :: cs =>
    if old.isPrefixOf (c :: cs) then new ++ (c :: cs).drop old.length
    else c :: replaceFirst old new cs

/-- The call `strings.Replace(s, old, new, 1)` for a non-empty `old`. -/
def stringsReplace1 (s old new : String) : String :=
  String.mk (replaceFirst old.data new.data s.data)

/-! ## generateMessageSetters -/

/-- A `for _, x := range xs` loop whose body may panic. -/
def forRange {α σ : Type} (body : σ → α → Except Failure σ) : σ → List α → Except Failure σ
  | s, [] => .ok s
  | s, x :: rest =>
    match body s x with
    | .error e => .error e
    | .ok s1 => forRange body s1 rest

/-- Body of the inner loop over `oneof.Fields`. -/
def oneofFieldBody (env : Env) (fuel : Nat) (newFile : GeneratedFile) (field : Field) :
    Except Failure GeneratedFile :=
  if field.Desc.HasOptionalKeyword then .ok newFile
  else
    match fieldGoType env newFile fuel field with
    | .error e => .error e
    | .ok (goType, _) =>
      let inputWrapperName := "&" ++ field.GoIdent.GoName
      match deref field.Oneof with
      | .error e => .error e
      | .ok oneof =>
        let info : OneOfSetterTemplate :=
          { MessageName := (env field.Parent).GoIdent.GoName
            StructFieldName := oneof.GoName
            InputWrapperName := inputWrapperName
            FieldName := field.GoName
            FieldType := goType }
        let content := ExecuteTemplate oneofTpl info
        .ok (newFile.P content)

/-- Body of the loop over `message.Oneofs`. -/
def oneofBody (env : Env) (fuel : Nat) (newFile : GeneratedFile) (oneof : Oneof) :
    Except Failure GeneratedFile :=
  forRange (oneofFieldBody env fuel) newFile oneof.Fields

/-- Body of the loop over `message.Fields`. -/
def fieldBody (env : Env) (fuel : Nat) (messageName : String) (newFile : GeneratedFile)
    (field : Field) : Except Failure GeneratedFile :=
  if field.Oneof.isSome && !field.Desc.HasOptionalKeyword then .ok newFile
  else
    match fieldGoType env newFile fuel field with
    | .error e => .error e
    | .ok (goType, pointer) =>
      let fieldType := if pointer then "*" ++ goType else goType
      let fieldName := field.GoName
      let info : SetterTemplate :=
        { MessageName := messageName, FieldName := field.GoName, FieldType := fieldType }
      let content := ExecuteTemplate tpl info
      let newFile := newFile.P content
      let newFile :=
        if field.Desc.IsList then
          let info := { info with FieldType := stringsReplace1 info.FieldType "[]" "..." }
          let arrayAddition := ExecuteTemplate appendArrayTpl info
          newFile.P arrayAddition
        else newFile
      if field.Desc.IsMap then
        match deref field.Message with
        | .error e => .error e
        | .ok m =>
          match index (env m).Fields 0 with
          | .error e => .error e
          | .ok keyField =>
            match fieldGoType env newFile fuel keyField with
            | .error e => .error e
            | .ok (keyType, _) =>
              match index (env m).Fields 1 with
              | .error e => .error e
              | .ok valField =>
                match fieldGoType env newFile fuel valField with
                | .error e => .error e
                | .ok (valType, _) =>
                  let ms : MapSetterTemplate :=
                    { MessageName := messageName, FieldName := fieldName
                      KeyType := keyType, ValueType := valType }
                  let mapSetKey := ExecuteTemplate mapSetTpl ms
                  .ok (newFile.P mapSetKey)
      else .ok newFile

mutual

/-- The function `generateMessageSetters`: first the nested messages, then the
oneof members, then the fields. The plugin argument `gen` is not used by the
source and is left out; `fuel` is the budget of each `fieldGoType` call. -/
def generateMessageSetters (env : Env) (fuel : Nat) :
    GeneratedFile → Message → Except Failure GeneratedFile
  | newFile, .mk goIdent _ fields oneofs messages =>
    let messageName := goIdent.GoName
    match generateNested env fuel newFile messages with
    | .error e => .error e
    | .ok newFile =>
      match forRange (oneofBody env fuel) newFile oneofs with
      | .error e => .error e
      | .ok newFile => forRange (fieldBody env fuel messageName) newFile fields

/-- The first loop of `generateMessageSetters`, over `message.Messages`. -/
def generateNested (env : Env) (fuel : Nat) :
    GeneratedFile → List Message → Except Failure GeneratedFile
  | newFile, [] => .ok newFile
  | newFile, v :: rest =>
    if v.IsMapEntry then generateNested env fuel newFile rest
    else
      match generateMessageSetters env fuel newFile v with
      | .error e => .error e
      | .ok newFile => generateNested env fuel newFile rest

end

/-! ## main -/

/-- The type `protogen.File`, as far as `main` reads it. -/
structure File where
  Generate : Bool
  Messages : List Message
  GeneratedFilenamePrefix : String
  GoPackageName : String

/-- The type `protogen.Plugin`: the input files, and for every output file name
the naming function of the file `NewGeneratedFile` creates (a parameter, it
belongs to `protogen`). -/
structure Plugin where
  Files : List File
  QualifiedGoIdent : String → GoIdent → String

/-- The method `NewGeneratedFile`: an empty output file of the given name. Its
second argument, the import path `"."`, only reaches the naming function. -/
def Plugin.NewGeneratedFile (gen : Plugin) (filename : String) : GeneratedFile :=
  { QualifiedGoIdent := gen.QualifiedGoIdent filename, buf := [] }

/-- Body of the loop of `main` over `gen.Files`; `out` are the output files
created so far, by name. -/
def fileBody (env : Env) (fuel : Nat) (gen : Plugin) (out : List (String × GeneratedFile))
    (file : File) : Except Failure (List (String × GeneratedFile)) :=
  if !file.Generate || file.Messages.length == 0 then .ok out
  else
    let filename := file.GeneratedFilenamePrefix ++ ".pb.setters.go"
    let newFile := gen.NewGeneratedFile filename
    let newFile := newFile.P "// Code generated by protoc-gen-go-setters. DO NOT EDIT."
    let newFile := newFile.P ("// source: " ++ file.GeneratedFilenamePrefix ++ ".proto")
    let newFile := newFile.P ("package " ++ file.GoPackageName)
    match forRange (generateMessageSetters env fuel) newFile file.Messages with
    | .error e => .error e
    | .ok newFile => .ok (out ++ [(filename, newFile)])

/-- The callback `main` passes to `protogen.Options.Run`: the output files it
creates, in order, unless a panic aborts the run. -/
def main (env : Env) (fuel : Nat) (gen : Plugin) : Except Failure (List (String × GeneratedFile)) :=
  forRange (fileBody env fuel gen) [] gen.Files

/-! ## Meaning of the generated method bodies

The four templates expand to Go methods with one statement each. The
statements are given their Go meaning on a struct whose fields hold nil, a
slice, an allocated map, a oneof wrapper or some other value. -/

/-- A Go value stored in a struct field or passed as the argument `in`. The
elements of slices, the keys and values of maps are of an arbitrary type `α`. -/
inductive GoValue (α : Type) where
  | nil
  | scalar (a : α)
  | slice (elems : List α)
  | map (entries : α → Option α)
  | wrapper (typ : String) (field : String) (payload : GoValue α)

/-- A struct value `*x`: the value of each field, by field name. -/
abbrev Struct (α : Type) := String → GoValue α

/-- A message whose collection, pointer and interface fields are all nil. -/
def Struct.fresh {α : Type} : Struct α :=
  fun _ => GoValue.nil

/-- The assignment `x.f = v`. -/
def Struct.set {α : Type} (x : Struct α) (f : String) (v : GoValue α) : Struct α :=
  fun n => if n = f then v else x n

/-- A stored sequence: absent (the nil slice) or a slice with the given elements. -/
def GoValue.ofSeq {α : Type} : Option (List α) → GoValue α
  | none => GoValue.nil
  | some l => GoValue.slice l

/-- The elements of a stored sequence; the nil slice has none. -/
def GoValue.elems {α : Type} : GoValue α → List α
  | GoValue.slice l => l
  | _ => []

/-- Modelled from the spec: the case view of a oneof member, the getter that
`protoc-gen-go` generates for it and that is not part of the generator. For the
wrapper type `w` of the member it reports the payload when the stored oneof
value is a wrapper of type `w`, and unset otherwise. -/
def GoValue.caseView {α : Type} (w : String) : GoValue α → Option (GoValue α)
  | GoValue.wrapper t _ p => if t = w then some p else none
  | _ => none

/-- The map with the single entry `k ↦ v`. -/
def singletonMap {α : Type} [DecidableEq α] (k v : α) : α → Option α :=
  fun a => if a = k then some v else none

/-- The map `m` with the entry at `k` inserted or overwritten. -/
def updateMap {α : Type} [DecidableEq α] (m : α → Option α) (k v : α) : α → Option α :=
  fun a => if a = k then some v else m a

/-- Why a generated method does not return normally. -/
inductive RunError
  | assignmentToEntryInNilMap
  | illTyped
deriving DecidableEq, Repr

/-- The Go builtin `append(s, in...)`: with nothing to append it returns `s`
itself, a nil `s` included. -/
def goAppend {α : Type} : GoValue α → List α → Except RunError (GoValue α)
  | GoValue.nil, [] => .ok GoValue.nil
  | GoValue.nil, a :: as => .ok (GoValue.slice (a :: as))
  | GoValue.slice l, as => .ok (GoValue.slice (l ++ as))
  | _, _ => .error RunError.illTyped

/-- The statement forms of the four template bodies. -/
inductive Body
  | assign (f : String)
  | appendTo (f : String)
  | assignWrapper (s w f : String)
  | assignEntry (f : String)
deriving DecidableEq, Repr

/-- The Go text of a body statement. -/
def Body.text : Body → String
  | Body.assign f => "x." ++ f ++ " = in"
  | Body.appendTo f => "x." ++ f ++ " = append(x." ++ f ++ ", in...)"
  | Body.assignWrapper s w f => "x." ++ s ++ " = " ++ w ++ "\x7b " ++ f ++ ":in \x7d"
  | Body.assignEntry f => "x." ++ f ++ "[key] = val"

/-- The statement of the method `tpl` expands to. -/
def tplBody (d : SetterTemplate) : Body :=
  Body.assign d.FieldName

/-- The statement of the method `appendArrayTpl` expands to. -/
def appendArrayTplBody (d : SetterTemplate) : Body :=
  Body.appendTo d.FieldName

/-- The statement of the method `oneofTpl` expands to. -/
def oneofTplBody (d : OneOfSetterTemplate) : Body :=
  Body.assignWrapper d.StructFieldName d.InputWrapperName d.FieldName

/-- The statement of the method `mapSetTpl` expands to. -/
def mapSetTplBody (d : MapSetterTemplate) : Body :=
  Body.assignEntry d.FieldName

/-- The arguments of a call of a generated method: `Set<F>(in)`,
`Append<F>(in...)` or `Set<F>Key(key, val)`. -/
inductive Call (α : Type) where
  | set (v : GoValue α)
  | append (vs : List α)
  | setKey (key val : α)

/-- Execution of a generated method body on the receiver `x`. Writing an entry
of a nil map is a Go run-time panic. -/
def Body.exec {α : Type} [DecidableEq α] : Body → Struct α → Call α → Except RunError (Struct α)
  | Body.assign f, x, Call.set v => .ok (x.set f v)
  | Body.appendTo f, x, Call.append vs =>
    match goAppend (x f) vs with
    | .error e => .error e
    | .ok s => .ok (x.set f s)
  | Body.assignWrapper s w f, x, Call.set v => .ok (x.set s (GoValue.wrapper w f v))
  | Body.assignEntry f, x, Call.setKey key val =>
    match x f with
    | GoValue.map m => .ok (x.set f (GoValue.map (updateMap m key val)))
    | GoValue.nil => .error RunError.assignmentToEntryInNilMap
    | _ => .error RunError.illTyped
  | _, _, _ => .error RunError.illTyped

/-- Two calls in sequence; the second runs only if the first returned. -/
def Body.execThen {α : Type} [DecidableEq α] (r : Except RunError (Struct α)) (b : Body)
    (c : Call α) : Except RunError (Struct α) :=
  match r with
  | .error e => .error e
  | .ok x => b.exec x c

/-! ## What the walker prints for one message -/

/-- The field carries the descriptors its kind requires: `protogen` sets `Enum`
for enum fields and `Message` for message and group fields. -/
def Field.Typed (field : Field) : Prop :=
  (field.Desc.Kind = Kind.EnumKind → field.Enum.isSome = true) ∧
  (field.Desc.Kind = Kind.MessageKind ∨ field.Desc.Kind = Kind.GroupKind →
    field.Message.isSome = true)

instance (field : Field) : Decidable field.Typed := by
  unfold Field.Typed
  exact inferInstance


/-- The file after the items `items` were printed, in order. -/
def GeneratedFile.emit (g : GeneratedFile) (items : List String) : GeneratedFile :=
  { g with buf := g.buf ++ items }

/-- The type `fieldGoType` returns for a field, when it returns. -/
def resolvedType (env : Env) (g : GeneratedFile) (fuel : Nat) (field : Field) : String × Bool :=
  match fieldGoType env g fuel field with
  | .ok r => r
  | .error _ => ("", false)

/-- The field is a oneof member without the `optional` keyword: the fields the
oneof loop serves and the field loop skips. -/
def Field.isOneofCase (field : Field) : Bool :=
  field.Oneof.isSome && !field.Desc.HasOptionalKeyword

/-- The name of the enclosing oneof, through the pointer `field.Oneof`. -/
def Field.oneofGoName (field : Field) : String :=
  match field.Oneof with
  | some o => o.GoName
  | none => ""

/-- The data the oneof loop fills in for a member whose type name is `goType`. -/
def oneofInfo (env : Env) (goType : String) (field : Field) : OneOfSetterTemplate :=
  { MessageName := (env field.Parent).GoIdent.GoName
    StructFieldName := field.oneofGoName
    InputWrapperName := "&" ++ field.GoIdent.GoName
    FieldName := field.GoName
    FieldType := goType }

/-- The oneof-case setter of a field whose type name is `goType`. -/
def oneofSetter (env : Env) (goType : String) (field : Field) : String :=
  ExecuteTemplate oneofTpl (oneofInfo env goType field)

/-- The parameter type of the plain setter: the type name, behind `*` when the
pointer flag is set. -/
def paramType (r : String × Bool) : String :=
  if r.2 then "*" ++ r.1 else r.1

/-- The plain setter of a field of the message `messageName`, body `x.F = in`. -/
def plainSetter (messageName : String) (r : String × Bool) (field : Field) : String :=
  ExecuteTemplate tpl
    { MessageName := messageName, FieldName := field.GoName, FieldType := paramType r }

/-- The one function `Set<FieldName>` a field is owed: the oneof-case setter for
a oneof member without the `optional` keyword, the plain setter otherwise. -/
def expectedSetter (env : Env) (messageName : String) (ty : Field → String × Bool)
    (field : Field) : String :=
  if field.isOneofCase then oneofSetter env (ty field).1 field
  else plainSetter messageName (ty field) field

/-- What the oneof loop prints for one member. -/
def oneofItems (env : Env) (ty : Field → String × Bool) (field : Field) : List String :=
  if field.Desc.HasOptionalKeyword then [] else [oneofSetter env (ty field).1 field]

/-- What the field loop prints after the plain setter: the append mutator of a
list field, the map-entry setter of a map field. -/
def fieldExtras (env : Env) (messageName : String) (ty : Field → String × Bool)
    (field : Field) : List String :=
  (if field.Desc.IsList then
    [ExecuteTemplate appendArrayTpl
      { MessageName := messageName, FieldName := field.GoName,
        FieldType := stringsReplace1 (paramType (ty field)) "[]" "..." }]
  else []) ++
  (if field.Desc.IsMap then
    match field.Message with
    | none => []
    | some m =>
      match (env m).Fields with
      | keyField :: valField :: _ =>
        [ExecuteTemplate mapSetTpl
          { MessageName := messageName, FieldName := field.GoName,
            KeyType := (ty keyField).1, ValueType := (ty valField).1 }]
      | _ => []
  else [])

/-- What the field loop prints for one field. -/
def fieldItems (env : Env) (messageName : String) (ty : Field → String × Bool)
    (field : Field) : List String :=
  if field.isOneofCase then []
  else plainSetter messageName (ty field) field :: fieldExtras env messageName ty field

/-- The append mutators and map-entry setters the field loop prints for a field. -/
def extraItems (env : Env) (messageName : String) (ty : Field → String × Bool)
    (field : Field) : List String :=
  if field.isOneofCase then [] else fieldExtras env messageName ty field

mutual

/-- Everything `generateMessageSetters` prints for a message, given the
resolved type `ty` of every field: the nested messages, then the oneof members,
then the fields. -/
def messageItems (env : Env) (ty : Field → String × Bool) : Message → List String
  | .mk goIdent _ fields oneofs messages =>
    nestedItems env ty messages ++
      (oneofs.flatMap (fun o => o.Fields.flatMap (oneofItems env ty)) ++
        fields.flatMap (fieldItems env goIdent.GoName ty))

/-- What the loop over the nested messages prints: map entries are skipped. -/
def nestedItems (env : Env) (ty : Field → String × Bool) : List Message → List String
  | [] => []
  | v :: rest =>
    (if v.IsMapEntry then [] else messageItems env ty v) ++ nestedItems env ty rest

end

/-- A field as `protogen` builds it: typed, and if it is a map its map-entry
message has exactly a key and a value field, both typed and neither a map. -/
def Field.WellFormed (env : Env) (field : Field) : Prop :=
  field.Typed ∧
  (field.Desc.IsMap = true →
    ∃ m keyField valField, field.Message = some m ∧ (env m).Fields = [keyField, valField] ∧
      keyField.Typed ∧ valField.Typed ∧ keyField.Desc.IsMap = false ∧
      valField.Desc.IsMap = false)

mutual

/-- A message as `protogen` builds it: its fields are well formed, the member
lists of its oneofs hold, each once, exactly the fields that have an enclosing
oneof, and the messages declared inside it that are walked are well formed. -/
def Message.WellFormed (env : Env) : Message → Prop
  | .mk _ _ fields oneofs messages =>
    (∀ f ∈ fields, f.WellFormed env) ∧
    List.Perm (oneofs.flatMap Oneof.Fields) (fields.filter (fun f => f.Oneof.isSome)) ∧
    Message.WellFormedList env messages

/-- Well-formedness of the nested declarations that are not map entries. -/
def Message.WellFormedList (env : Env) : List Message → Prop
  | [] => True
  | v :: rest => (v.IsMapEntry = false → Message.WellFormed env v) ∧
    Message.WellFormedList env rest

end

/-! ## The messages the walker visits -/

/-- The second and third loop of `generateMessageSetters`: what it does for the
message itself once the nested messages are done. -/
def ownSetters (env : Env) (fuel : Nat) (newFile : GeneratedFile) (message : Message) :
    Except Failure GeneratedFile :=
  match forRange (oneofBody env fuel) newFile message.Oneofs with
  | .error e => .error e
  | .ok newFile => forRange (fieldBody env fuel message.GoIdent.GoName) newFile message.Fields

mutual

/-- The messages `generateMessageSetters` visits from a message, in the order
in which it prints for them: the nested messages that are not map entries,
each with what is nested in it, then the message itself. -/
def Message.walked : Message → List Message
  | .mk goIdent isMapEntry fields oneofs messages =>
    Message.walkedList messages ++ [Message.mk goIdent isMapEntry fields oneofs messages]

/-- The messages visited from a list of nested declarations. -/
def Message.walkedList : List Message → List Message
  | [] => []
  | v :: rest => (if v.IsMapEntry then [] else Message.walked v) ++ Message.walkedList rest

end

mutual

/-- Every message definition declared in a message: the message itself and,
at any depth, the messages nested in it, map entries included. -/
def Message.declared : Message → List Message
  | .mk goIdent isMapEntry fields oneofs messages =>
    Message.mk goIdent isMapEntry fields oneofs messages :: Message.declaredList messages

/-- The message definitions declared in a list of messages. -/
def Message.declaredList : List Message → List Message
  | [] => []
  | v :: rest => Message.declared v ++ Message.declaredList rest

end

/-- What the oneof loop and the field loop print for a message itself. -/
def ownItems (env : Env) (ty : Field → String × Bool) (message : Message) : List String :=
  message.Oneofs.flatMap (fun o => o.Fields.flatMap (oneofItems env ty)) ++
    message.Fields.flatMap (fieldItems env message.GoIdent.GoName ty)

/-! ## Well-formedness of descriptors and an example schema -/

namespace Sample

/-- Naming function of the example output file. -/
def qualify : GoIdent → String :=
  fun i => "other." ++ i.GoName

/-- The example output file before anything is printed. -/
def newFile : GeneratedFile :=
  { QualifiedGoIdent := qualify, buf := [] }

/-- Field `string name`. -/
def name : Field :=
  { GoName := "Name", GoIdent := ⟨"Sample_Name", "example"⟩, Parent := 0, Oneof := none,
    Enum := none, Message := none, Desc := ⟨false, false, false, Kind.StringKind, Label.singular⟩ }

/-- Field `optional int64 count`, with explicit presence and its synthetic oneof. -/
def count : Field :=
  { GoName := "Count", GoIdent := ⟨"Sample_Count", "example"⟩, Parent := 0,
    Oneof := some ⟨"XCount"⟩, Enum := none, Message := none,
    Desc := ⟨false, true, true, Kind.Int64Kind, Label.singular⟩ }

/-- Field `repeated bytes tags`. -/
def tags : Field :=
  { GoName := "Tags", GoIdent := ⟨"Sample_Tags", "example"⟩, Parent := 0, Oneof := none,
    Enum := none, Message := none, Desc := ⟨false, false, false, Kind.BytesKind, Label.list⟩ }

/-- Key field of the map entry of `attrs`. -/
def attrsKey : Field :=
  { GoName := "Key", GoIdent := ⟨"Sample_AttrsEntry_Key", "example"⟩, Parent := 1, Oneof := none,
    Enum := none, Message := none, Desc := ⟨false, false, false, Kind.StringKind, Label.singular⟩ }

/-- Value field of the map entry of `attrs`. -/
def attrsValue : Field :=
  { GoName := "Value", GoIdent := ⟨"Sample_AttrsEntry_Value", "example"⟩, Parent := 1,
    Oneof := none, Enum := none, Message := none,
    Desc := ⟨false, false, false, Kind.Int32Kind, Label.singular⟩ }

/-- Field `map<string, int32> attrs`. -/
def attrs : Field :=
  { GoName := "Attrs", GoIdent := ⟨"Sample_Attrs", "example"⟩, Parent := 0, Oneof := none,
    Enum := none, Message := some 1, Desc := ⟨false, false, false, Kind.MessageKind, Label.map⟩ }

/-- Member `int32 a` of the oneof `choice`. -/
def a : Field :=
  { GoName := "A", GoIdent := ⟨"Sample_A", "example"⟩, Parent := 0, Oneof := some ⟨"Choice"⟩,
    Enum := none, Message := none, Desc := ⟨false, true, false, Kind.Int32Kind, Label.singular⟩ }

/-- Member `string b` of the oneof `choice`. -/
def b : Field :=
  { GoName := "B", GoIdent := ⟨"Sample_B", "example"⟩, Parent := 0, Oneof := some ⟨"Choice"⟩,
    Enum := none, Message := none, Desc := ⟨false, true, false, Kind.StringKind, Label.singular⟩ }

/-- Field `optional Sample next`: a message field naming its own message. -/
def next : Field :=
  { GoName := "Next", GoIdent := ⟨"Sample_Next", "example"⟩, Parent := 0, Oneof := none,
    Enum := none, Message := some 0, Desc := ⟨false, true, false, Kind.MessageKind, Label.singular⟩ }

/-- Field `optional bytes blob`, declared with explicit presence. -/
def blob : Field :=
  { GoName := "Blob", GoIdent := ⟨"Sample_Blob", "example"⟩, Parent := 0, Oneof := none,
    Enum := none, Message := none, Desc := ⟨false, true, false, Kind.BytesKind, Label.singular⟩ }

/-- A weak map field. -/
def weakAttrs : Field :=
  { attrs with GoName := "WeakAttrs", Desc := ⟨true, true, false, Kind.MessageKind, Label.map⟩ }

/-- The synthetic map-entry message of `attrs`. -/
def attrsEntry : Message :=
  Message.mk ⟨"Sample_AttrsEntry", "example"⟩ true [attrsKey, attrsValue] [] []

/-- The message `Sample`. -/
def sample : Message :=
  Message.mk ⟨"Sample", "example"⟩ false [name, count, tags, attrs, a, b]
    [⟨"Choice", [a, b]⟩, ⟨"XCount", [count]⟩] [attrsEntry]

/-- The heap of the example: `0` is `Sample`, `1` its map entry. -/
def env : Env :=
  fun i => if i = 1 then attrsEntry else sample

end Sample

/-! ## Further example schemas -/

namespace Malformed

/-- A third field of a map entry, which no schema compiler produces. -/
def attrsExtra : Field :=
  { GoName := "Extra", GoIdent := ⟨"Wide_AttrsEntry_Extra", "example"⟩, Parent := 1,
    Oneof := none, Enum := none, Message := none,
    Desc := ⟨false, false, false, Kind.BoolKind, Label.singular⟩ }

/-- A map field whose map-entry message is message `1` of the heap. -/
def attrs : Field :=
  { GoName := "Attrs", GoIdent := ⟨"Wide_Attrs", "example"⟩, Parent := 0, Oneof := none,
    Enum := none, Message := some 1, Desc := ⟨false, false, false, Kind.MessageKind, Label.map⟩ }

/-- A map-entry message with three fields. -/
def wideEntry : Message :=
  Message.mk ⟨"Wide_AttrsEntry", "example"⟩ true
    [Sample.attrsKey, Sample.attrsValue, attrsExtra] [] []

/-- A message whose map field has the three-field map entry. -/
def wide : Message :=
  Message.mk ⟨"Wide", "example"⟩ false [attrs] [] [wideEntry]

/-- The heap in which the map entry has three fields. -/
def wideEnv : Env :=
  fun i => if i = 1 then wideEntry else wide

/-- A map-entry message with the key field only. -/
def narrowEntry : Message :=
  Message.mk ⟨"Narrow_AttrsEntry", "example"⟩ true [Sample.attrsKey] [] []

/-- A message whose map field has the one-field map entry. -/
def narrow : Message :=
  Message.mk ⟨"Narrow", "example"⟩ false [Sample.name, attrs] [] [narrowEntry]

/-- The heap in which the map entry has one field. -/
def narrowEnv : Env :=
  fun i => if i = 1 then narrowEntry else narrow

end Malformed

/-! ## What `main` produces -/

/-- The file passes the test of `main`: it is flagged for generation and has a
top-level message. -/
def File.eligible (file : File) : Bool :=
  file.Generate && file.Messages.length != 0

/-- The name of the output unit of a file. -/
def File.outputName (file : File) : String :=
  file.GeneratedFilenamePrefix ++ ".pb.setters.go"

/-- The three lines `main` prints before the setters. -/
def File.header (file : File) : List String :=
  ["// Code generated by protoc-gen-go-setters. DO NOT EDIT.",
   "// source: " ++ file.GeneratedFilenamePrefix ++ ".proto",
   "package " ++ file.GoPackageName]

/-- The output unit of a file whose messages are well formed: the header, then
what the walker prints for each top-level message. -/
def fileOutput (env : Env) (fuel : Nat) (gen : Plugin) (file : File) : GeneratedFile :=
  (gen.NewGeneratedFile file.outputName).emit
    (file.header ++ file.Messages.flatMap
      (messageItems env (resolvedType env (gen.NewGeneratedFile file.outputName) fuel)))

/-- The top-level messages of a file as `protogen` builds them: well formed, not
map entries, and no map entry below them has nested declarations. -/
def File.WellFormed (env : Env) (file : File) : Prop :=
  ∀ message ∈ file.Messages, message.WellFormed env ∧ message.IsMapEntry = false ∧
    ∀ d ∈ message.declared, d.IsMapEntry = true → d.Messages = []

namespace Library

/-- Field `string title` of `Shelf.Book`. -/
def title : Field :=
  { GoName := "Title", GoIdent := ⟨"Shelf_Book_Title", "library"⟩, Parent := 1, Oneof := none,
    Enum := none, Message := none, Desc := ⟨false, false, false, Kind.StringKind, Label.singular⟩ }

/-- Field `Shelf.Book sequel` of `Shelf.Book`: a field of the type of its own message. -/
def sequel : Field :=
  { GoName := "Sequel", GoIdent := ⟨"Shelf_Book_Sequel", "library"⟩, Parent := 1, Oneof := none,
    Enum := none, Message := some 1,
    Desc := ⟨false, true, false, Kind.MessageKind, Label.singular⟩ }

/-- Field `Shelf shelf` of `Shelf.Book`: `Shelf` and `Shelf.Book` name each other. -/
def shelf : Field :=
  { GoName := "Shelf", GoIdent := ⟨"Shelf_Book_Shelf", "library"⟩, Parent := 1, Oneof := none,
    Enum := none, Message := some 0,
    Desc := ⟨false, true, false, Kind.MessageKind, Label.singular⟩ }

/-- Field `repeated Shelf.Book books` of `Shelf`. -/
def books : Field :=
  { GoName := "Books", GoIdent := ⟨"Shelf_Books", "library"⟩, Parent := 0, Oneof := none,
    Enum := none, Message := some 1, Desc := ⟨false, false, false, Kind.MessageKind, Label.list⟩ }

/-- Field `Shelf.Book book` of `Loan`: a reference to a message nested elsewhere. -/
def book : Field :=
  { GoName := "Book", GoIdent := ⟨"Loan_Book", "library"⟩, Parent := 2, Oneof := none,
    Enum := none, Message := some 1,
    Desc := ⟨false, true, false, Kind.MessageKind, Label.singular⟩ }

/-- The message `Shelf.Book`, nested in `Shelf`. -/
def bookMessage : Message :=
  Message.mk ⟨"Shelf_Book", "library"⟩ false [title, sequel, shelf] [] []

/-- The message `Shelf`. -/
def shelfMessage : Message :=
  Message.mk ⟨"Shelf", "library"⟩ false [books] [] [bookMessage]

/-- The message `Loan`, which refers to `Shelf.Book` by a field. -/
def loanMessage : Message :=
  Message.mk ⟨"Loan", "library"⟩ false [book] [] []

/-- The heap of the library schema. -/
def env : Env :=
  fun i => if i = 1 then bookMessage else if i = 2 then loanMessage else shelfMessage

/-- The file `library.proto`, flagged for generation. -/
def file : File :=
  { Generate := true, Messages := [shelfMessage, loanMessage],
    GeneratedFilenamePrefix := "library", GoPackageName := "library" }

/-- An imported file that is not flagged for generation. -/
def imported : File :=
  { Generate := false, Messages := [loanMessage],
    GeneratedFilenamePrefix := "imported", GoPackageName := "imported" }

/-- A flagged file without messages. -/
def empty : File :=
  { Generate := true, Messages := [],
    GeneratedFilenamePrefix := "empty", GoPackageName := "empty" }

/-- The plugin run over the three files. -/
def gen : Plugin :=
  { Files := [imported, file, empty], QualifiedGoIdent := fun _ => Sample.qualify }

end Library

/-! ## Method declarations and their names -/

/-- The text `e` declares a method called `name` on the receiver type `*r`. -/
def declaresMethod (r name e : String) : Prop :=
  ∃ rest, e = "\n\nfunc (x *" ++ r ++ " ) " ++ name ++ "(" ++ rest

/-- The names of the methods the walker prints for one field, in order. -/
def fieldMethodNames (field : Field) : List String :=
  ("Set" ++ field.GoName) ::
    (if field.isOneofCase then []
     else (if field.Desc.IsList then ["Append" ++ field.GoName] else []) ++
       (if field.Desc.IsMap then ["Set" ++ field.GoName ++ "Key"] else []))

/-- The names of the methods the oneof loop and the field loop print for a
message, in the order of `ownItems`. -/
def ownMethodNames (message : Message) : List String :=
  message.Oneofs.flatMap (fun o => o.Fields.flatMap
      (fun f => if f.Desc.HasOptionalKeyword then [] else ["Set" ++ f.GoName])) ++
    message.Fields.flatMap (fun f => if f.isOneofCase then [] else fieldMethodNames f)

namespace Clash

/-- Field `map<string, int32> foo`. -/
def foo : Field :=
  { GoName := "Foo", GoIdent := ⟨"Clash_Foo", "example"⟩, Parent := 0, Oneof := none,
    Enum := none, Message := some 1, Desc := ⟨false, false, false, Kind.MessageKind, Label.map⟩ }

/-- Field `string foo_key`. -/
def fooKey : Field :=
  { GoName := "FooKey", GoIdent := ⟨"Clash_FooKey", "example"⟩, Parent := 0, Oneof := none,
    Enum := none, Message := none, Desc := ⟨false, false, false, Kind.StringKind, Label.singular⟩ }

/-- The map entry of `foo`. -/
def fooEntry : Message :=
  Message.mk ⟨"Clash_FooEntry", "example"⟩ true [Sample.attrsKey, Sample.attrsValue] [] []

/-- The message `Clash` with the fields `foo` and `foo_key`. -/
def clash : Message :=
  Message.mk ⟨"Clash", "example"⟩ false [foo, fooKey] [] [fooEntry]

/-- The heap of the example: `0` is `Clash`, `1` the map entry of `foo`. -/
def env : Env :=
  fun i => if i = 1 then fooEntry else clash

end Clash

/-! ## Depth of map entries -/

/-- The chain from a field through the fields of its map entry, and on through
theirs, is at most `n` map fields long. Depth `0` is a field that is not a map;
a map field built by a schema compiler has depth `1`. -/
def Field.mapDepthLe (env : Env) : Nat → Field → Prop
  | 0, field => field.Desc.IsMap = false
  | n + 1, field =>
    field.Desc.IsMap = true → ∀ m, field.Message = some m →
      ∀ k ∈ (env m).Fields, Field.mapDepthLe env n k

namespace Loop

/-- A map field whose map entry is message `1` of the heap. -/
def loop : Field :=
  { GoName := "Loop", GoIdent := ⟨"Knot_Loop", "example"⟩, Parent := 0, Oneof := none,
    Enum := none, Message := some 1, Desc := ⟨false, false, false, Kind.MessageKind, Label.map⟩ }

/-- A map-entry message whose value field is the map field it is the entry of. -/
def loopEntry : Message :=
  Message.mk ⟨"Knot_LoopEntry", "example"⟩ true [Sample.attrsKey, loop] [] []

/-- The message `Knot` with the map field `loop`. -/
def knot : Message :=
  Message.mk ⟨"Knot", "example"⟩ false [loop] [] [loopEntry]

/-- The heap of the example: `0` is `Knot`, `1` the map entry of `loop`. -/
def env : Env :=
  fun i => if i = 1 then loopEntry else knot

end Loop

namespace Grid

/-- The value field of the outer map entry: itself a map, with entry `2`. -/
def row : Field :=
  { GoName := "Value", GoIdent := ⟨"Grid_CellsEntry_Value", "example"⟩, Parent := 1,
    Oneof := none, Enum := none, Message := some 2,
    Desc := ⟨false, false, false, Kind.MessageKind, Label.map⟩ }

/-- The map field `cells`, a map of maps, with entry `1`. -/
def cells : Field :=
  { GoName := "Cells", GoIdent := ⟨"Grid_Cells", "example"⟩, Parent := 0, Oneof := none,
    Enum := none, Message := some 1, Desc := ⟨false, false, false, Kind.MessageKind, Label.map⟩ }

/-- Field `Grid parent` of `Grid`: a field of the type of its own message. -/
def parent : Field :=
  { GoName := "Parent", GoIdent := ⟨"Grid_Parent", "example"⟩, Parent := 0, Oneof := none,
    Enum := none, Message := some 0,
    Desc := ⟨false, true, false, Kind.MessageKind, Label.singular⟩ }

/-- The map entry of `cells`. -/
def cellsEntry : Message :=
  Message.mk ⟨"Grid_CellsEntry", "example"⟩ true [Sample.attrsKey, row] [] []

/-- The map entry of the inner map. -/
def rowEntry : Message :=
  Message.mk ⟨"Grid_RowEntry", "example"⟩ true [Sample.attrsKey, Sample.attrsValue] [] []

/-- The message `Grid`. -/
def grid : Message :=
  Message.mk ⟨"Grid", "example"⟩ false [cells, parent] [] [cellsEntry]

/-- The heap of the example: `0` is `Grid`, `1` and `2` the two map entries. -/
def env : Env :=
  fun i => if i = 1 then cellsEntry else if i = 2 then rowEntry else grid

end Grid

/-! ## The printed methods with their names -/

/-- The extras of a field, each with the name of the method it declares. -/
def fieldExtraPairs (env : Env) (messageName : String) (ty : Field → String × Bool)
    (field : Field) : List (String × String) :=
  (if field.Desc.IsList then
    [(ExecuteTemplate appendArrayTpl
      { MessageName := messageName, FieldName := field.GoName,
        FieldType := stringsReplace1 (paramType (ty field)) "[]" "..." },
      "Append" ++ field.GoName)]
  else []) ++
  (if field.Desc.IsMap then
    match field.Message with
    | none => []
    | some m =>
      match (env m).Fields with
      | keyField :: valField :: _ =>
        [(ExecuteTemplate mapSetTpl
          { MessageName := messageName, FieldName := field.GoName,
            KeyType := (ty keyField).1, ValueType := (ty valField).1 },
          "Set" ++ field.GoName ++ "Key")]
      | _ => []
  else [])

/-- What the oneof loop and the field loop print for a message itself, in
order, each item with the name of the method it declares. -/
def ownPairs (env : Env) (ty : Field → String × Bool) (message : Message) :
    List (String × String) :=
  message.Oneofs.flatMap (fun o => o.Fields.flatMap (fun f =>
      if f.Desc.HasOptionalKeyword then []
      else [(oneofSetter env (ty f).1 f, "Set" ++ f.GoName)])) ++
    message.Fields.flatMap (fun f =>
      if f.isOneofCase then []
      else (plainSetter message.GoIdent.GoName (ty f) f, "Set" ++ f.GoName) ::
        fieldExtraPairs env message.GoIdent.GoName ty f)

namespace Twin

/-- A field with the Go name `Id`. -/
def first : Field :=
  { GoName := "Id", GoIdent := ⟨"Twin_Id", "example"⟩, Parent := 0, Oneof := none,
    Enum := none, Message := none, Desc := ⟨false, false, false, Kind.StringKind, Label.singular⟩ }

/-- A second field with the Go name `Id`. -/
def second : Field :=
  { GoName := "Id", GoIdent := ⟨"Twin_Id", "example"⟩, Parent := 0, Oneof := none,
    Enum := none, Message := none, Desc := ⟨false, false, false, Kind.Int32Kind, Label.singular⟩ }

/-- A message with two fields of the same Go name. -/
def twin : Message :=
  Message.mk ⟨"Twin", "example"⟩ false [first, second] [] []

/-- The heap of the example. -/
def env : Env :=
  fun _ => twin

end Twin

/-! ## Lemmas on `fieldGoType` -/

/-- A typed field always has a base type: the kind switch does not panic. -/
theorem baseGoType_ok_of_typed (env : Env) (g : GeneratedFile) (field : Field)
    (htyped : field.Typed) : ∃ B p, baseGoType env g field = .ok (B, p) := by
  obtain ⟨henum, hmsg⟩ := htyped
  unfold baseGoType
  cases hk : field.Desc.Kind <;> simp only [hk] at henum hmsg ⊢
  case EnumKind =>
    cases he : field.Enum with
    | none => simp [he] at henum
    | some en =>
      simp only [deref]
      split <;> exact ⟨_, _, rfl⟩
  case MessageKind =>
    cases hm : field.Message with
    | none => simp [hm] at hmsg
    | some m =>
      simp only [deref]
      split <;> exact ⟨_, _, rfl⟩
  case GroupKind =>
    cases hm : field.Message with
    | none => simp [hm] at hmsg
    | some m =>
      simp only [deref]
      split <;> exact ⟨_, _, rfl⟩
  all_goals exact ⟨_, _, rfl⟩

/-- The base type name does not depend on the presence flag. -/
theorem baseGoType_fst_presence (env : Env) (g : GeneratedFile) (field : Field) (b : Bool) :
    (baseGoType env g { field with Desc := { field.Desc with HasPresence := b } }).map Prod.fst =
      (baseGoType env g field).map Prod.fst := by
  unfold baseGoType
  cases hk : field.Desc.Kind <;> simp only [hk] <;> try rfl
  case EnumKind =>
    cases he : field.Enum with
    | none => rfl
    | some en => simp only [deref]; split <;> rfl

/-- The file is used by `fieldGoType` only through its naming function. -/
theorem fieldGoType_congr (env : Env) (g g1 : GeneratedFile)
    (hq : g.QualifiedGoIdent = g1.QualifiedGoIdent) (fuel : Nat) (field : Field) :
    fieldGoType env g fuel field = fieldGoType env g1 fuel field := by
  have hbase : ∀ f, baseGoType env g f = baseGoType env g1 f := by
    intro f
    unfold baseGoType
    rw [hq]
  induction fuel generalizing field with
  | zero => rfl
  | succ n ih =>
    unfold fieldGoType
    simp only [hbase, ih]

/-- More fuel does not change a result that was returned. -/
theorem fieldGoType_mono (env : Env) (g : GeneratedFile) (fuel : Nat) (field : Field)
    (r : String × Bool) (h : fieldGoType env g fuel field = .ok r) :
    fieldGoType env g (fuel + 1) field = .ok r := by
  induction fuel generalizing field r with
  | zero => simp [fieldGoType] at h
  | succ n ih =>
    unfold fieldGoType at h ⊢
    split
    · rename_i hw
      simpa [hw] using h
    · rename_i hw
      simp only [hw] at h
      cases hb : baseGoType env g field with
      | error e => simp [hb] at h
      | ok bp =>
        obtain ⟨goType, pointer⟩ := bp
        simp only [hb] at h ⊢
        split
        · rename_i hl
          simpa [hl] using h
        · rename_i hl
          simp only [hl] at h
          split
          · rename_i hm
            simp only [hm, if_true] at h
            cases hd : deref field.Message with
            | error e => simp [hd] at h
            | ok m =>
              simp only [hd] at h ⊢
              cases hi0 : index (env m).Fields 0 with
              | error e => simp [hi0] at h
              | ok keyField =>
                simp only [hi0] at h ⊢
                cases hk : fieldGoType env g n keyField with
                | error e => simp [hk] at h
                | ok kr =>
                  obtain ⟨keyType, kp⟩ := kr
                  simp only [hk] at h
                  rw [ih keyField _ hk]
                  cases hi1 : index (env m).Fields 1 with
                  | error e => simp [hi1] at h
                  | ok valField =>
                    simp only [hi1] at h ⊢
                    cases hv : fieldGoType env g n valField with
                    | error e => simp [hv] at h
                    | ok vr =>
                      obtain ⟨valType, vp⟩ := vr
                      simp only [hv] at h
                      rw [ih valField _ hv]
                      exact h
          · rename_i hm
            simpa [hm] using h

/-! ## Claims on the type resolver -/

/-- C2: for a non-weak singular field of kind bool, an integer kind, float,
double, string or enum, `fieldGoType` returns the pointer flag `HasPresence()`,
and the plain setter emitted for such a field takes `"*" ++ goType` exactly when
the flag is set. -/
theorem fieldGoType_pointer_eq_presence (env : Env) (g : GeneratedFile) (fuel : Nat)
    (messageName : String) (field : Field)
    (hweak : field.Desc.IsWeak = false) (hsing : field.Desc.label = Label.singular)
    (hkind : field.Desc.Kind ≠ Kind.BytesKind ∧ field.Desc.Kind ≠ Kind.MessageKind ∧
      field.Desc.Kind ≠ Kind.GroupKind)
    (htyped : field.Typed) :
    ∃ goType, fieldGoType env g (fuel + 1) field = .ok (goType, field.Desc.HasPresence) ∧
      ((field.Oneof.isSome && !field.Desc.HasOptionalKeyword) = false →
        fieldBody env (fuel + 1) messageName g field =
          .ok (g.P (ExecuteTemplate tpl
            { MessageName := messageName, FieldName := field.GoName,
              FieldType := if field.Desc.HasPresence = true then "*" ++ goType else goType }))) := by
  obtain ⟨h1, h2, h3⟩ := hkind
  have hb : ∃ goType, baseGoType env g field = .ok (goType, field.Desc.HasPresence) := by
    obtain ⟨B, p, hB⟩ := baseGoType_ok_of_typed env g field htyped
    refine ⟨B, ?_⟩
    rw [hB]
    unfold baseGoType at hB
    cases hk : field.Desc.Kind <;> simp only [hk] at hB h1 h2 h3 <;>
      first
      | exact absurd rfl h1
      | exact absurd rfl h2
      | exact absurd rfl h3
      | (cases hB; rfl)
      | skip
    cases he : field.Enum with
    | none => simp [he, deref] at hB
    | some en =>
      simp only [he, deref] at hB
      split at hB <;> (cases hB; rfl)
  obtain ⟨goType, hb⟩ := hb
  refine ⟨goType, ?_, ?_⟩
  · simp [fieldGoType, hweak, hb, FieldDescriptor.IsList, FieldDescriptor.IsMap, hsing]
  · intro hplain
    simp [fieldBody, hplain, fieldGoType, hweak, hb, FieldDescriptor.IsList,
      FieldDescriptor.IsMap, hsing]

/-- Witness of C2 on the field `optional int64 count`. -/
theorem fieldGoType_pointer_eq_presence_witness :
    ∃ goType, fieldGoType Sample.env Sample.newFile 1 Sample.count =
        .ok (goType, Sample.count.Desc.HasPresence) ∧
      ((Sample.count.Oneof.isSome && !Sample.count.Desc.HasOptionalKeyword) = false →
        fieldBody Sample.env 1 "Sample" Sample.newFile Sample.count =
          .ok (Sample.newFile.P (ExecuteTemplate tpl
            { MessageName := "Sample", FieldName := Sample.count.GoName,
              FieldType := if Sample.count.Desc.HasPresence = true then "*" ++ goType
                else goType }))) :=
  fieldGoType_pointer_eq_presence Sample.env Sample.newFile 0 "Sample" Sample.count
    (by decide) (by decide) (by decide) (by decide)

/-- C3: for a non-weak list field `fieldGoType` returns `"[]" ++ B` and no
pointer, `B` being the base type name of the kind switch; the presence flag has
no influence, a list of bytes is `[][]byte` and a list of messages `M` of the
same package is `[]*M`. -/
theorem fieldGoType_list (env : Env) (g : GeneratedFile) (fuel : Nat) (field : Field)
    (hweak : field.Desc.IsWeak = false) (hlist : field.Desc.IsList = true)
    (htyped : field.Typed) :
    (∃ B p, baseGoType env g field = .ok (B, p) ∧
      fieldGoType env g (fuel + 1) field = .ok ("[]" ++ B, false)) ∧
    (∀ b, fieldGoType env g (fuel + 1)
        { field with Desc := { field.Desc with HasPresence := b } } =
      fieldGoType env g (fuel + 1) field) ∧
    (field.Desc.Kind = Kind.BytesKind →
      fieldGoType env g (fuel + 1) field = .ok ("[][]byte", false)) ∧
    (∀ m, field.Desc.Kind = Kind.MessageKind → field.Message = some m →
      (env m).GoIdent.GoImportPath = (env field.Parent).GoIdent.GoImportPath →
      fieldGoType env g (fuel + 1) field = .ok ("[]*" ++ (env m).GoIdent.GoName, false)) := by
  have hstep : ∀ f : Field, f.Desc.IsWeak = false → f.Desc.IsList = true →
      ∀ B p, baseGoType env g f = .ok (B, p) →
      fieldGoType env g (fuel + 1) f = .ok ("[]" ++ B, false) := by
    intro f hw hl B p hB
    simp [fieldGoType, hw, hB, hl]
  refine ⟨?_, ?_, ?_, ?_⟩
  · obtain ⟨B, p, hB⟩ := baseGoType_ok_of_typed env g field htyped
    exact ⟨B, p, hB, hstep field hweak hlist B p hB⟩
  · intro b
    obtain ⟨B, p, hB⟩ := baseGoType_ok_of_typed env g field htyped
    have hfst := baseGoType_fst_presence env g field b
    rw [hB] at hfst
    cases hB2 : baseGoType env g { field with Desc := { field.Desc with HasPresence := b } } with
    | error e => rw [hB2] at hfst; cases hfst
    | ok r =>
      obtain ⟨B2, p2⟩ := r
      rw [hB2] at hfst
      have hBB : B2 = B := by
        simpa [Except.map] using hfst
      subst hBB
      rw [hstep field hweak hlist B2 p hB]
      exact hstep { field with Desc := { field.Desc with HasPresence := b } } hweak hlist B2 p2 hB2
  · intro hk
    have hB : baseGoType env g field = .ok ("[]byte", false) := by
      simp [baseGoType, hk]
    rw [hstep field hweak hlist _ _ hB]
    rfl
  · intro m hk hm hpath
    have hB : baseGoType env g field = .ok ("*" ++ (env m).GoIdent.GoName, false) := by
      simp [baseGoType, hk, hm, deref, hpath]
    rw [hstep field hweak hlist _ _ hB, ← String.append_assoc]
    rfl

/-- Witness of C3 on the field `repeated bytes tags`. -/
theorem fieldGoType_list_witness :
    fieldGoType Sample.env Sample.newFile 1 Sample.tags = .ok ("[][]byte", false) :=
  (fieldGoType_list Sample.env Sample.newFile 0 Sample.tags (by decide) (by decide)
    (by decide)).2.2.1 (by decide)

/-- C4: for a non-weak map field whose map-entry message has exactly the two
fields `keyField` and `valField`, `fieldGoType` returns
`"map[" ++ K ++ "]" ++ V` and no pointer, `K` and `V` being the type names it
returns for `keyField` and `valField`; their pointer flags are dropped. -/
theorem fieldGoType_map (env : Env) (g : GeneratedFile) (fuel : Nat) (field : Field)
    (m : MsgId) (keyField valField : Field) (K V : String) (pk pv : Bool)
    (hweak : field.Desc.IsWeak = false) (hmap : field.Desc.IsMap = true)
    (htyped : field.Typed) (hm : field.Message = some m)
    (hfields : (env m).Fields = [keyField, valField])
    (hk : fieldGoType env g fuel keyField = .ok (K, pk))
    (hv : fieldGoType env g fuel valField = .ok (V, pv)) :
    fieldGoType env g (fuel + 1) field = .ok ("map[" ++ K ++ "]" ++ V, false) := by
  obtain ⟨B, p, hB⟩ := baseGoType_ok_of_typed env g field htyped
  have hl : field.Desc.IsList = false := by
    simp only [FieldDescriptor.IsMap, FieldDescriptor.IsList] at hmap ⊢
    cases hlab : field.Desc.label <;> simp_all
  simp [fieldGoType, hweak, hB, hl, hmap, hm, deref, index, hfields, hk, hv]

/-- Witness of C4 on the field `map<string, int32> attrs`. -/
theorem fieldGoType_map_witness :
    fieldGoType Sample.env Sample.newFile 2 Sample.attrs = .ok ("map[string]int32", false) :=
  fieldGoType_map Sample.env Sample.newFile 1 Sample.attrs 1 Sample.attrsKey Sample.attrsValue
    "string" "int32" false false (by decide) (by decide) (by decide) rfl rfl rfl rfl

/-- C5: for a non-weak singular field of kind bytes, message or group the
pointer flag is false whatever the presence flag is; a bytes field resolves to
`[]byte` and a message or group field whose target is in the package of the
field to `"*"` followed by the target name. -/
theorem fieldGoType_bytes_message_not_pointer (env : Env) (g : GeneratedFile) (fuel : Nat)
    (field : Field) (hweak : field.Desc.IsWeak = false)
    (hsing : field.Desc.label = Label.singular) (htyped : field.Typed)
    (hkind : field.Desc.Kind = Kind.BytesKind ∨ field.Desc.Kind = Kind.MessageKind ∨
      field.Desc.Kind = Kind.GroupKind) :
    (∃ goType, fieldGoType env g (fuel + 1) field = .ok (goType, false)) ∧
    (field.Desc.Kind = Kind.BytesKind →
      fieldGoType env g (fuel + 1) field = .ok ("[]byte", false)) ∧
    (∀ m, field.Message = some m →
      field.Desc.Kind = Kind.MessageKind ∨ field.Desc.Kind = Kind.GroupKind →
      (env m).GoIdent.GoImportPath = (env field.Parent).GoIdent.GoImportPath →
      fieldGoType env g (fuel + 1) field = .ok ("*" ++ (env m).GoIdent.GoName, false)) := by
  have hstep : ∀ B p, baseGoType env g field = .ok (B, p) →
      fieldGoType env g (fuel + 1) field = .ok (B, p) := by
    intro B p hB
    simp [fieldGoType, hweak, hB, FieldDescriptor.IsList, FieldDescriptor.IsMap, hsing]
  refine ⟨?_, ?_, ?_⟩
  · obtain ⟨B, p, hB⟩ := baseGoType_ok_of_typed env g field htyped
    refine ⟨B, ?_⟩
    rw [hstep B p hB]
    have hp : p = false := by
      unfold baseGoType at hB
      rcases hkind with hk | hk | hk <;> simp only [hk] at hB
      · cases hB; rfl
      · cases hmm : field.Message with
        | none => simp [hmm, deref] at hB
        | some m =>
          simp only [hmm, deref] at hB
          split at hB <;> (cases hB; rfl)
      · cases hmm : field.Message with
        | none => simp [hmm, deref] at hB
        | some m =>
          simp only [hmm, deref] at hB
          split at hB <;> (cases hB; rfl)
    rw [hp]
  · intro hk
    exact hstep _ _ (by simp [baseGoType, hk])
  · intro m hm hk hpath
    apply hstep
    rcases hk with hk | hk <;> simp [baseGoType, hk, hm, deref, hpath]

/-- Witness of C5 on the field `optional Sample next`, which has presence. -/
theorem fieldGoType_bytes_message_not_pointer_witness :
    Sample.next.Desc.HasPresence = true ∧
      fieldGoType Sample.env Sample.newFile 1 Sample.next = .ok ("*Sample", false) :=
  ⟨rfl, (fieldGoType_bytes_message_not_pointer Sample.env Sample.newFile 0 Sample.next
    (by decide) (by decide) (by decide) (by decide)).2.2 0 rfl (by decide) rfl⟩

/-- C6: for a non-weak singular field the type name is fixed by the scalar kind. -/
theorem fieldGoType_scalar_name (env : Env) (g : GeneratedFile) (fuel : Nat) (field : Field)
    (hweak : field.Desc.IsWeak = false) (hsing : field.Desc.label = Label.singular) :
    (field.Desc.Kind = Kind.BoolKind →
      (fieldGoType env g (fuel + 1) field).map Prod.fst = .ok "bool") ∧
    (field.Desc.Kind = Kind.Int32Kind ∨ field.Desc.Kind = Kind.Sint32Kind ∨
        field.Desc.Kind = Kind.Sfixed32Kind →
      (fieldGoType env g (fuel + 1) field).map Prod.fst = .ok "int32") ∧
    (field.Desc.Kind = Kind.Uint32Kind ∨ field.Desc.Kind = Kind.Fixed32Kind →
      (fieldGoType env g (fuel + 1) field).map Prod.fst = .ok "uint32") ∧
    (field.Desc.Kind = Kind.Int64Kind ∨ field.Desc.Kind = Kind.Sint64Kind ∨
        field.Desc.Kind = Kind.Sfixed64Kind →
      (fieldGoType env g (fuel + 1) field).map Prod.fst = .ok "int64") ∧
    (field.Desc.Kind = Kind.Uint64Kind ∨ field.Desc.Kind = Kind.Fixed64Kind →
      (fieldGoType env g (fuel + 1) field).map Prod.fst = .ok "uint64") ∧
    (field.Desc.Kind = Kind.FloatKind →
      (fieldGoType env g (fuel + 1) field).map Prod.fst = .ok "float32") ∧
    (field.Desc.Kind = Kind.DoubleKind →
      (fieldGoType env g (fuel + 1) field).map Prod.fst = .ok "float64") ∧
    (field.Desc.Kind = Kind.StringKind →
      (fieldGoType env g (fuel + 1) field).map Prod.fst = .ok "string") ∧
    (field.Desc.Kind = Kind.BytesKind →
      (fieldGoType env g (fuel + 1) field).map Prod.fst = .ok "[]byte") := by
  have hstep : ∀ B p, baseGoType env g field = .ok (B, p) →
      (fieldGoType env g (fuel + 1) field).map Prod.fst = .ok B := by
    intro B p hB
    simp [fieldGoType, hweak, hB, FieldDescriptor.IsList, FieldDescriptor.IsMap, hsing,
      Except.map]
  refine ⟨?_, ?_, ?_, ?_, ?_, ?_, ?_, ?_, ?_⟩
  · intro hk; exact hstep _ field.Desc.HasPresence (by simp [baseGoType, hk])
  · intro hk
    rcases hk with hk | hk | hk <;>
      exact hstep _ field.Desc.HasPresence (by simp [baseGoType, hk])
  · intro hk
    rcases hk with hk | hk <;>
      exact hstep _ field.Desc.HasPresence (by simp [baseGoType, hk])
  · intro hk
    rcases hk with hk | hk | hk <;>
      exact hstep _ field.Desc.HasPresence (by simp [baseGoType, hk])
  · intro hk
    rcases hk with hk | hk <;>
      exact hstep _ field.Desc.HasPresence (by simp [baseGoType, hk])
  · intro hk; exact hstep _ field.Desc.HasPresence (by simp [baseGoType, hk])
  · intro hk; exact hstep _ field.Desc.HasPresence (by simp [baseGoType, hk])
  · intro hk; exact hstep _ field.Desc.HasPresence (by simp [baseGoType, hk])
  · intro hk; exact hstep _ false (by simp [baseGoType, hk])

/-- Witness of C6 on the value field of the map entry, of kind int32. -/
theorem fieldGoType_scalar_name_witness :
    (fieldGoType Sample.env Sample.newFile 1 Sample.attrsValue).map Prod.fst = .ok "int32" :=
  (fieldGoType_scalar_name Sample.env Sample.newFile 0 Sample.attrsValue (by decide)
    (by decide)).2.1 (Or.inl rfl)

/-- C7: for a weak field `fieldGoType` returns the empty struct type and no
pointer, whatever the kind, the label and the presence flag are. -/
theorem fieldGoType_weak (env : Env) (g : GeneratedFile) (fuel : Nat) (field : Field)
    (hweak : field.Desc.IsWeak = true) :
    fieldGoType env g (fuel + 1) field = .ok ("struct\x7b\x7d", false) := by
  simp [fieldGoType, hweak]

/-- Witness of C7 on a weak map field with presence. -/
theorem fieldGoType_weak_witness :
    Sample.weakAttrs.Desc.label = Label.map ∧ Sample.weakAttrs.Desc.HasPresence = true ∧
      fieldGoType Sample.env Sample.newFile 1 Sample.weakAttrs =
        .ok ("struct\x7b\x7d", false) :=
  ⟨rfl, rfl, fieldGoType_weak Sample.env Sample.newFile 0 Sample.weakAttrs rfl⟩

/-! ## Lemmas on the walker -/

theorem resolvedType_eq (env : Env) (g : GeneratedFile) (fuel : Nat) (field : Field)
    (h : ∃ r, fieldGoType env g fuel field = .ok r) :
    fieldGoType env g fuel field = .ok (resolvedType env g fuel field) := by
  obtain ⟨r, hr⟩ := h
  simp [resolvedType, hr]

/-- A typed field that is not a map is resolved by a single call. -/
theorem fieldGoType_ok_of_not_map (env : Env) (g : GeneratedFile) (fuel : Nat) (field : Field)
    (htyped : field.Typed) (hmap : field.Desc.IsMap = false) :
    ∃ r, fieldGoType env g (fuel + 1) field = .ok r := by
  obtain ⟨B, p, hB⟩ := baseGoType_ok_of_typed env g field htyped
  unfold fieldGoType
  split
  · exact ⟨_, rfl⟩
  · simp only [hB, hmap]
    split <;> exact ⟨_, rfl⟩

/-- A well-formed field is resolved within two nested calls. -/
theorem fieldGoType_ok_of_wellFormed (env : Env) (g : GeneratedFile) (fuel : Nat)
    (field : Field) (hwf : field.WellFormed env) :
    ∃ r, fieldGoType env g (fuel + 2) field = .ok r := by
  obtain ⟨htyped, hentry⟩ := hwf
  cases hmap : field.Desc.IsMap with
  | false => exact fieldGoType_ok_of_not_map env g (fuel + 1) field htyped hmap
  | true =>
    obtain ⟨m, keyField, valField, hm, hfields, hkt, hvt, hkm, hvm⟩ := hentry hmap
    obtain ⟨B, p, hB⟩ := baseGoType_ok_of_typed env g field htyped
    obtain ⟨⟨K, pk⟩, hk⟩ := fieldGoType_ok_of_not_map env g fuel keyField hkt hkm
    obtain ⟨⟨V, pv⟩, hv⟩ := fieldGoType_ok_of_not_map env g fuel valField hvt hvm
    cases hw : field.Desc.IsWeak with
    | true => exact ⟨("struct\x7b\x7d", false), by simp [fieldGoType, hw]⟩
    | false =>
      cases hl : field.Desc.IsList with
      | true => exact ⟨("[]" ++ B, false), by simp [fieldGoType, hw, hB, hl]⟩
      | false =>
        refine ⟨("map[" ++ K ++ "]" ++ V, false), ?_⟩
        rw [fieldGoType]
        simp [hw, hB, hl, hmap, hm, deref, index, hfields, hk, hv]

/-- A loop whose body prints `items x` for every element prints their
concatenation. -/
theorem forRange_emit {α : Type} (q : GoIdent → String)
    (body : GeneratedFile → α → Except Failure GeneratedFile) (items : α → List String)
    (xs : List α)
    (h : ∀ g x, x ∈ xs → g.QualifiedGoIdent = q → body g x = .ok (g.emit (items x))) :
    ∀ g, g.QualifiedGoIdent = q → forRange body g xs = .ok (g.emit (xs.flatMap items)) := by
  induction xs with
  | nil =>
    intro g _
    simp [forRange, GeneratedFile.emit]
  | cons x rest ih =>
    intro g hg
    have hx := h g x (List.mem_cons_self x rest) hg
    have hrest := ih (fun g1 y hy hg1 => h g1 y (List.mem_cons_of_mem x hy) hg1)
      (g.emit (items x)) hg
    simp only [forRange, hx, hrest, List.flatMap_cons]
    simp [GeneratedFile.emit, List.append_assoc]

theorem emit_nil (g : GeneratedFile) : g.emit [] = g := by
  simp [GeneratedFile.emit]

theorem emit_emit (g : GeneratedFile) (xs ys : List String) :
    (g.emit xs).emit ys = g.emit (xs ++ ys) := by
  simp [GeneratedFile.emit, List.append_assoc]

theorem P_eq_emit (g : GeneratedFile) (s : String) : g.P s = g.emit [s] := rfl

/-- The oneof loop body prints `oneofItems` for a member that is resolved and
has its enclosing oneof. -/
theorem oneofFieldBody_emit (env : Env) (g : GeneratedFile) (fuel : Nat) (field : Field)
    (hty : ∃ r, fieldGoType env g fuel field = .ok r) (hone : field.Oneof.isSome = true) :
    ∀ g1, g1.QualifiedGoIdent = g.QualifiedGoIdent →
      oneofFieldBody env fuel g1 field =
        .ok (g1.emit (oneofItems env (resolvedType env g fuel) field)) := by
  intro g1 hg1
  have hr := resolvedType_eq env g fuel field hty
  rw [← fieldGoType_congr env g1 g hg1] at hr
  cases ho : field.Oneof with
  | none => simp [ho] at hone
  | some o =>
    cases hopt : field.Desc.HasOptionalKeyword with
    | true => simp [oneofFieldBody, oneofItems, hopt, emit_nil]
    | false =>
      simp [oneofFieldBody, oneofItems, hopt, hr, deref, ho, oneofSetter, oneofInfo,
        Field.oneofGoName,
        P_eq_emit]

/-- The field loop body prints `fieldItems` for a well-formed field. -/
theorem fieldBody_emit (env : Env) (g : GeneratedFile) (fuel : Nat) (messageName : String)
    (field : Field) (hwf : field.WellFormed env) :
    ∀ g1, g1.QualifiedGoIdent = g.QualifiedGoIdent →
      fieldBody env (fuel + 2) messageName g1 field =
        .ok (g1.emit (fieldItems env messageName (resolvedType env g (fuel + 2)) field)) := by
  intro g1 hg1
  have hcg : ∀ g2 : GeneratedFile, g2.QualifiedGoIdent = g.QualifiedGoIdent → ∀ f,
      fieldGoType env g2 (fuel + 2) f = fieldGoType env g (fuel + 2) f :=
    fun g2 h2 f => fieldGoType_congr env g2 g h2 (fuel + 2) f
  have hr := resolvedType_eq env g (fuel + 2) field
    (fieldGoType_ok_of_wellFormed env g fuel field hwf)
  cases hcase : field.isOneofCase with
  | true =>
    have hcase2 : (field.Oneof.isSome && !field.Desc.HasOptionalKeyword) = true := hcase
    simp [fieldBody, fieldItems, hcase, hcase2, emit_nil]
  | false =>
    have hcase2 : (field.Oneof.isSome && !field.Desc.HasOptionalKeyword) = false := hcase
    unfold fieldBody
    rw [hcase2, hcg g1 hg1, hr]
    cases hmap : field.Desc.IsMap with
    | false =>
      cases hl : field.Desc.IsList <;>
        simp [fieldItems, fieldExtras, hcase, hmap, hl, plainSetter, paramType, P_eq_emit,
          emit_emit]
    | true =>
      obtain ⟨m, keyField, valField, hm, hfields, hkt, hvt, hkm, hvm⟩ := hwf.2 hmap
      have hk := resolvedType_eq env g (fuel + 2) keyField
        (fieldGoType_ok_of_not_map env g (fuel + 1) keyField hkt hkm)
      have hv := resolvedType_eq env g (fuel + 2) valField
        (fieldGoType_ok_of_not_map env g (fuel + 1) valField hvt hvm)
      have hl : field.Desc.IsList = false := by
        simp only [FieldDescriptor.IsMap, FieldDescriptor.IsList] at hmap ⊢
        cases hlab : field.Desc.label <;> simp_all
      have he : ∀ xs f, fieldGoType env (g1.emit xs) (fuel + 2) f =
          fieldGoType env g (fuel + 2) f := fun xs f => hcg (g1.emit xs) hg1 f
      simp [fieldItems, fieldExtras, hcase, hmap, hl, hm, hfields, plainSetter, paramType,
        P_eq_emit, emit_emit, deref, index, he, hk, hv]

mutual

/-- On a well-formed message the walker returns, having printed `messageItems`. -/
theorem generateMessageSetters_emit (env : Env) (g : GeneratedFile) (fuel : Nat) :
    ∀ (m : Message), m.WellFormed env → ∀ g1, g1.QualifiedGoIdent = g.QualifiedGoIdent →
      generateMessageSetters env (fuel + 2) g1 m =
        .ok (g1.emit (messageItems env (resolvedType env g (fuel + 2)) m))
  | .mk goIdent b fields oneofs messages, hwf, g1, hg1 => by
    simp only [Message.WellFormed] at hwf
    obtain ⟨hfields, hperm, hnested⟩ := hwf
    have hn := generateNested_emit env g fuel messages hnested g1 hg1
    have hmem : ∀ o ∈ oneofs, ∀ f ∈ o.Fields, f ∈ fields ∧ f.Oneof.isSome = true := by
      intro o ho f hf
      have h1 : f ∈ oneofs.flatMap Oneof.Fields := List.mem_flatMap.mpr ⟨o, ho, hf⟩
      have h2 := hperm.subset h1
      simpa using h2
    have hone : ∀ g2, g2.QualifiedGoIdent = g.QualifiedGoIdent →
        forRange (oneofBody env (fuel + 2)) g2 oneofs =
          .ok (g2.emit (oneofs.flatMap
            (fun o => o.Fields.flatMap (oneofItems env (resolvedType env g (fuel + 2)))))) := by
      apply forRange_emit
      intro g2 o ho hg2
      unfold oneofBody
      apply forRange_emit g.QualifiedGoIdent _ _ _ _ g2 hg2
      intro g3 f hf hg3
      exact oneofFieldBody_emit env g (fuel + 2) f
        (fieldGoType_ok_of_wellFormed env g fuel f (hfields f (hmem o ho f hf).1))
        (hmem o ho f hf).2 g3 hg3
    have hfl : ∀ g2, g2.QualifiedGoIdent = g.QualifiedGoIdent →
        forRange (fieldBody env (fuel + 2) goIdent.GoName) g2 fields =
          .ok (g2.emit (fields.flatMap
            (fieldItems env goIdent.GoName (resolvedType env g (fuel + 2))))) := by
      apply forRange_emit
      intro g2 f hf hg2
      exact fieldBody_emit env g fuel goIdent.GoName f (hfields f hf) g2 hg2
    simp only [generateMessageSetters, hn, messageItems]
    rw [hone (g1.emit _) hg1]
    simp only []
    rw [hfl ((g1.emit _).emit _) hg1, emit_emit, emit_emit]
theorem generateNested_emit (env : Env) (g : GeneratedFile) (fuel : Nat) :
    ∀ (ms : List Message), Message.WellFormedList env ms →
      ∀ g1, g1.QualifiedGoIdent = g.QualifiedGoIdent →
      generateNested env (fuel + 2) g1 ms =
        .ok (g1.emit (nestedItems env (resolvedType env g (fuel + 2)) ms))
  | [], _, g1, _ => by
    simp [generateNested, nestedItems, emit_nil]
  | v :: rest, hwf, g1, hg1 => by
    simp only [Message.WellFormedList] at hwf
    obtain ⟨hv, hrest⟩ := hwf
    cases hme : v.IsMapEntry with
    | true =>
      have hr := generateNested_emit env g fuel rest hrest g1 hg1
      simp [generateNested, nestedItems, hme, hr]
    | false =>
      have h1 := generateMessageSetters_emit env g fuel v (hv hme) g1 hg1
      have hr := generateNested_emit env g fuel rest hrest
        (g1.emit (messageItems env (resolvedType env g (fuel + 2)) v)) hg1
      simp [generateNested, nestedItems, hme, h1, hr, emit_emit]

end

/-- Up to order, the oneof loop and the field loop print one setter per field
and the extras of the fields that get a plain setter. -/
theorem own_items_perm (env : Env) (messageName : String) (ty : Field → String × Bool)
    (fields : List Field) :
    List.Perm
      ((fields.filter (fun f => f.Oneof.isSome)).flatMap (oneofItems env ty) ++
        fields.flatMap (fieldItems env messageName ty))
      (fields.map (expectedSetter env messageName ty) ++
        fields.flatMap (extraItems env messageName ty)) := by
  induction fields with
  | nil => simp
  | cons f fs ih =>
    cases hsome : f.Oneof.isSome with
    | true =>
      cases hopt : f.Desc.HasOptionalKeyword with
      | false =>
        have hcase : f.isOneofCase = true := by simp [Field.isOneofCase, hsome, hopt]
        simp only [List.filter_cons, hsome, if_true, List.flatMap_cons, List.map_cons,
          oneofItems, hopt, fieldItems, extraItems, expectedSetter, hcase, Bool.false_eq_true,
          if_false, List.nil_append, List.cons_append, List.singleton_append]
        exact List.Perm.cons _ ih
      | true =>
        have hcase : f.isOneofCase = false := by simp [Field.isOneofCase, hsome, hopt]
        simp only [List.filter_cons, hsome, if_true, List.flatMap_cons, List.map_cons,
          oneofItems, hopt, fieldItems, extraItems, expectedSetter, hcase, Bool.false_eq_true,
          if_false, List.nil_append, List.cons_append]
        refine List.perm_middle.trans (List.Perm.cons _ ?_)
        refine (List.perm_append_comm_assoc _ _ _).trans ?_
        refine (List.Perm.append_left _ ih).trans ?_
        exact List.perm_append_comm_assoc _ _ _
    | false =>
      have hcase : f.isOneofCase = false := by simp [Field.isOneofCase, hsome]
      simp only [List.filter_cons, hsome, List.flatMap_cons, List.map_cons,
        fieldItems, extraItems, expectedSetter, hcase, Bool.false_eq_true,
        if_false, List.cons_append]
      refine List.perm_middle.trans (List.Perm.cons _ ?_)
      refine (List.perm_append_comm_assoc _ _ _).trans ?_
      refine (List.Perm.append_left _ ih).trans ?_
      exact List.perm_append_comm_assoc _ _ _

/-- Every extra item is the append mutator of a list field or the map-entry
setter of a map field, for a field that gets a plain setter. -/
theorem extraItems_shape (env : Env) (messageName : String) (ty : Field → String × Bool)
    (fields : List Field) :
    ∀ e ∈ fields.flatMap (extraItems env messageName ty),
      ∃ f ∈ fields, f.isOneofCase = false ∧
        ((f.Desc.IsList = true ∧ ∃ t, e = ExecuteTemplate appendArrayTpl
            { MessageName := messageName, FieldName := f.GoName, FieldType := t }) ∨
          (f.Desc.IsMap = true ∧ ∃ k v, e = ExecuteTemplate mapSetTpl
            { MessageName := messageName, FieldName := f.GoName, KeyType := k,
              ValueType := v })) := by
  intro e he
  obtain ⟨f, hf, hef⟩ := List.mem_flatMap.mp he
  unfold extraItems at hef
  split at hef
  · simp at hef
  · rename_i hcase
    refine ⟨f, hf, by simpa using hcase, ?_⟩
    unfold fieldExtras at hef
    rcases List.mem_append.mp hef with h | h
    · split at h
      · rename_i hl
        exact Or.inl ⟨hl, _, List.mem_singleton.mp h⟩
      · simp at h
    · split at h
      · rename_i hm
        split at h
        · simp at h
        · split at h
          · exact Or.inr ⟨hm, _, _, List.mem_singleton.mp h⟩
          · simp at h
      · simp at h

/-! ## The example message -/

/-- The example message is well formed. -/
theorem Sample.sample_wellFormed : Message.WellFormed Sample.env Sample.sample := by
  simp only [Sample.sample, Message.WellFormed, Message.WellFormedList]
  refine ⟨?_, by decide, ?_⟩
  · intro f hf
    have htyped : f.Typed := by
      revert f
      decide
    refine ⟨htyped, ?_⟩
    intro hmap
    have hf2 : f = Sample.attrs := by
      revert f
      decide
    subst hf2
    exact ⟨1, Sample.attrsKey, Sample.attrsValue, rfl, rfl, by decide, by decide, rfl, rfl⟩
  · exact ⟨fun h => by simp [Sample.attrsEntry, Message.IsMapEntry] at h, trivial⟩

/-! ## Lemmas on the generated bodies -/

theorem Struct.set_set {α : Type} (x : Struct α) (f : String) (v w : GoValue α) :
    (x.set f v).set f w = x.set f w := by
  funext n
  simp only [Struct.set]
  split <;> rfl

theorem Struct.set_same {α : Type} (x : Struct α) (f : String) (v : GoValue α) :
    (x.set f v) f = v := by
  simp [Struct.set]

theorem Struct.set_self {α : Type} (x : Struct α) (f : String) : x.set f (x f) = x := by
  funext n
  simp only [Struct.set]
  split
  · rename_i h; rw [h]
  · rfl

/-- The method text of `tpl` ends in its body statement. -/
theorem tpl_text (d : SetterTemplate) :
    tpl d = "\n\nfunc (x *" ++ d.MessageName ++ " ) Set" ++ d.FieldName ++ "(in " ++
      d.FieldType ++ " )\x7b\n\t" ++ (tplBody d).text ++ "\n\x7d\n\n" := by
  simp only [tpl, tplBody, Body.text, String.append_assoc]
  rfl

theorem appendArrayTpl_text (d : SetterTemplate) :
    appendArrayTpl d = "\n\nfunc (x *" ++ d.MessageName ++ " ) Append" ++ d.FieldName ++ "(in " ++
      d.FieldType ++ " ) \x7b\n\t" ++ (appendArrayTplBody d).text ++ "\n\x7d\n\n" := by
  simp only [appendArrayTpl, appendArrayTplBody, Body.text, String.append_assoc]
  rfl

theorem oneofTpl_text (d : OneOfSetterTemplate) :
    oneofTpl d = "\n\nfunc (x *" ++ d.MessageName ++ " ) Set" ++ d.FieldName ++ "(in " ++
      d.FieldType ++ " ) \x7b\n\t" ++ (oneofTplBody d).text ++ "\n\x7d\n\n" := by
  simp only [oneofTpl, oneofTplBody, Body.text, String.append_assoc]
  rfl

theorem mapSetTpl_text (d : MapSetterTemplate) :
    mapSetTpl d = "\n\nfunc (x *" ++ d.MessageName ++ " ) Set" ++ d.FieldName ++ "Key(key " ++
      d.KeyType ++ ", val " ++ d.ValueType ++ " )\x7b\n\t" ++ (mapSetTplBody d).text ++
      "\n\x7d\n\n" := by
  simp only [mapSetTpl, mapSetTplBody, Body.text, String.append_assoc]
  rfl

theorem string_append_left_cancel (p a b : String) (h : p ++ a = p ++ b) : a = b := by
  have h2 : (p ++ a).data = (p ++ b).data := by rw [h]
  simp only [String.data_append] at h2
  exact String.ext (List.append_cancel_left h2)

theorem updateMap_empty {α : Type} [DecidableEq α] (k v : α) :
    updateMap (fun _ => none) k v = singletonMap k v := rfl

/-! ## Claims on the generated methods -/

/-- C8, the claim as stated fails: for the map field `attrs` of the example the
walker prints the map-entry setter of `mapSetTpl`, whose body on a fresh
message fails with the panic of writing an entry of a nil map. -/
theorem mapSetTpl_fresh_panics :
    (generateMessageSetters Sample.env 2 Sample.newFile Sample.sample).map
        (fun g => g.buf.contains
          (ExecuteTemplate mapSetTpl ⟨"Sample", "Attrs", "string", "int32"⟩)) = .ok true ∧
    (mapSetTplBody ⟨"Sample", "Attrs", "string", "int32"⟩).exec (Struct.fresh : Struct String)
        (Call.setKey "k" "v") = .error RunError.assignmentToEntryInNilMap ∧
    ¬ ∃ x1, (mapSetTplBody ⟨"Sample", "Attrs", "string", "int32"⟩).exec
        (Struct.fresh : Struct String) (Call.setKey "k" "v") = .ok x1 :=
  ⟨rfl, rfl, fun ⟨_, h⟩ => by cases h⟩

/-- C8, amended: the map-entry setter writes the entry without allocating. On a
stored mapping that exists it returns and leaves the mapping with the entry at
`key` inserted or overwritten, which on an empty mapping is the single entry
`key ↦ val`; on a mapping that does not yet exist, as in a fresh message, it
fails. -/
theorem mapSetTpl_exec {α : Type} [DecidableEq α] (d : MapSetterTemplate) (x : Struct α)
    (m : α → Option α) (key val : α) :
    mapSetTpl d = "\n\nfunc (x *" ++ d.MessageName ++ " ) Set" ++ d.FieldName ++ "Key(key " ++
      d.KeyType ++ ", val " ++ d.ValueType ++ " )\x7b\n\t" ++ (mapSetTplBody d).text ++
      "\n\x7d\n\n" ∧
    (mapSetTplBody d).exec (x.set d.FieldName (GoValue.map m)) (Call.setKey key val) =
      .ok (x.set d.FieldName (GoValue.map (updateMap m key val))) ∧
    (mapSetTplBody d).exec (x.set d.FieldName (GoValue.map (fun _ => none)))
        (Call.setKey key val) =
      .ok (x.set d.FieldName (GoValue.map (singletonMap key val))) ∧
    (mapSetTplBody d).exec (x.set d.FieldName GoValue.nil) (Call.setKey key val) =
      .error RunError.assignmentToEntryInNilMap ∧
    (mapSetTplBody d).exec (Struct.fresh : Struct α) (Call.setKey key val) =
      .error RunError.assignmentToEntryInNilMap := by
  refine ⟨mapSetTpl_text d, ?_, ?_, ?_, ?_⟩
  · simp only [mapSetTplBody, Body.exec, Struct.set_same, Struct.set_set]
  · simp only [mapSetTplBody, Body.exec, Struct.set_same, Struct.set_set, updateMap_empty]
  · simp only [mapSetTplBody, Body.exec, Struct.set_same]
  · simp only [mapSetTplBody, Body.exec, Struct.fresh]

/-- C9: the append mutator concatenates onto the stored sequence `s`, absent or
not, in call order: with no argument the message is unchanged, `Append(a, b)`
then `Append(c)` leaves the elements of `s` followed by `a, b, c`, and on an
absent sequence the result is exactly the appended elements. -/
theorem appendArrayTpl_exec {α : Type} [DecidableEq α] (d : SetterTemplate) (x : Struct α)
    (s : Option (List α)) (a b c : α) (vs : List α) :
    appendArrayTpl d = "\n\nfunc (x *" ++ d.MessageName ++ " ) Append" ++ d.FieldName ++
      "(in " ++ d.FieldType ++ " ) \x7b\n\t" ++ (appendArrayTplBody d).text ++ "\n\x7d\n\n" ∧
    (appendArrayTplBody d).exec (x.set d.FieldName (GoValue.ofSeq s)) (Call.append []) =
      .ok (x.set d.FieldName (GoValue.ofSeq s)) ∧
    Body.execThen
        ((appendArrayTplBody d).exec (x.set d.FieldName (GoValue.ofSeq s)) (Call.append [a, b]))
        (appendArrayTplBody d) (Call.append [c]) =
      .ok (x.set d.FieldName (GoValue.slice ((GoValue.ofSeq s).elems ++ [a, b, c]))) ∧
    (∃ x1, (appendArrayTplBody d).exec (x.set d.FieldName (GoValue.ofSeq s)) (Call.append vs) =
        .ok x1 ∧ (x1 d.FieldName).elems = (GoValue.ofSeq s).elems ++ vs ∧
        ∀ n, n ≠ d.FieldName → x1 n = x n) ∧
    (appendArrayTplBody d).exec (x.set d.FieldName (GoValue.ofSeq none)) (Call.append (a :: vs)) =
      .ok (x.set d.FieldName (GoValue.slice (a :: vs))) := by
  refine ⟨appendArrayTpl_text d, ?_, ?_, ?_, ?_⟩
  · cases s with
    | none => simp [appendArrayTplBody, Body.exec, Struct.set_same, Struct.set_set,
        GoValue.ofSeq, goAppend]
    | some l => simp [appendArrayTplBody, Body.exec, Struct.set_same, Struct.set_set,
        GoValue.ofSeq, goAppend]
  · cases s with
    | none => simp [appendArrayTplBody, Body.exec, Body.execThen, Struct.set_same,
        Struct.set_set, GoValue.ofSeq, goAppend, GoValue.elems]
    | some l => simp [appendArrayTplBody, Body.exec, Body.execThen, Struct.set_same,
        Struct.set_set, GoValue.ofSeq, goAppend, GoValue.elems]
  · have hother : ∀ (v : GoValue α) (n : String), n ≠ d.FieldName →
        ((x.set d.FieldName (GoValue.ofSeq s)).set d.FieldName v) n = x n := by
      intro v n hn
      simp [Struct.set, hn]
    cases s with
    | none =>
      cases vs with
      | nil =>
        exact ⟨_, by simp [appendArrayTplBody, Body.exec, Struct.set_same, GoValue.ofSeq,
          goAppend]; rfl, by simp [Struct.set_same, GoValue.elems, GoValue.ofSeq], hother _⟩
      | cons v vs =>
        exact ⟨_, by simp [appendArrayTplBody, Body.exec, Struct.set_same, GoValue.ofSeq,
          goAppend]; rfl, by simp [Struct.set_same, GoValue.elems, GoValue.ofSeq], hother _⟩
    | some l =>
      exact ⟨_, by simp [appendArrayTplBody, Body.exec, Struct.set_same, GoValue.ofSeq,
        goAppend]; rfl, by simp [Struct.set_same, GoValue.elems, GoValue.ofSeq], hother _⟩
  · simp [appendArrayTplBody, Body.exec, Struct.set_same, Struct.set_set, GoValue.ofSeq,
      goAppend]

/-- C10: for two members `A` and `B` of one oneof, neither with the `optional`
keyword and with different wrapper types, the walker prints the oneof-case
setters of `oneofTpl`, and running `SetA(x)` then `SetB(y)` on any message leaves
the oneof field holding the wrapper of `B` with payload `y`: the case view of
`B` reports `y` and the case view of `A` reports unset. -/
theorem oneofTpl_exec_exclusive {α : Type} [DecidableEq α] (env : Env)
    (ty : Field → String × Bool) (A B : Field) (o : OneofRef) (st : Struct α)
    (x y : GoValue α)
    (hA : A.Oneof = some o) (hB : B.Oneof = some o)
    (hoptA : A.Desc.HasOptionalKeyword = false) (hoptB : B.Desc.HasOptionalKeyword = false)
    (hne : A.GoIdent.GoName ≠ B.GoIdent.GoName) :
    oneofItems env ty A = [ExecuteTemplate oneofTpl (oneofInfo env (ty A).1 A)] ∧
    oneofItems env ty B = [ExecuteTemplate oneofTpl (oneofInfo env (ty B).1 B)] ∧
    oneofTpl (oneofInfo env (ty B).1 B) =
      "\n\nfunc (x *" ++ (env B.Parent).GoIdent.GoName ++ " ) Set" ++ B.GoName ++ "(in " ++
        (ty B).1 ++ " ) \x7b\n\t" ++ (oneofTplBody (oneofInfo env (ty B).1 B)).text ++
        "\n\x7d\n\n" ∧
    ∃ st2,
      Body.execThen ((oneofTplBody (oneofInfo env (ty A).1 A)).exec st (Call.set x))
        (oneofTplBody (oneofInfo env (ty B).1 B)) (Call.set y) = .ok st2 ∧
      st2 o.GoName = GoValue.wrapper ("&" ++ B.GoIdent.GoName) B.GoName y ∧
      (st2 o.GoName).caseView ("&" ++ B.GoIdent.GoName) = some y ∧
      (st2 o.GoName).caseView ("&" ++ A.GoIdent.GoName) = none ∧
      ∀ n, n ≠ o.GoName → st2 n = st n := by
  have hne2 : ¬ ("&" ++ B.GoIdent.GoName = "&" ++ A.GoIdent.GoName) :=
    fun h => hne (string_append_left_cancel _ _ _ h).symm
  refine ⟨by simp [oneofItems, hoptA, oneofSetter], by simp [oneofItems, hoptB, oneofSetter],
    oneofTpl_text _, ?_⟩
  refine ⟨(st.set o.GoName (GoValue.wrapper ("&" ++ A.GoIdent.GoName) A.GoName x)).set o.GoName
    (GoValue.wrapper ("&" ++ B.GoIdent.GoName) B.GoName y), ?_, ?_, ?_, ?_, ?_⟩
  · simp [Body.execThen, Body.exec, oneofTplBody, oneofInfo, Field.oneofGoName, hA, hB]
  · simp [Struct.set_same]
  · simp [Struct.set_same, GoValue.caseView]
  · simp [Struct.set_same, GoValue.caseView, hne2]
  · intro n hn
    simp [Struct.set, hn]

/-- Witness of C10 on the members `a` and `b` of the oneof `choice`. -/
theorem oneofTpl_exec_exclusive_witness :
    ∃ st2 : Struct String,
      Body.execThen
        ((oneofTplBody (oneofInfo Sample.env "int32" Sample.a)).exec
          (Struct.fresh.set "Choice" (GoValue.wrapper "&Sample_B" "B" (GoValue.scalar "old")))
          (Call.set (GoValue.scalar "5")))
        (oneofTplBody (oneofInfo Sample.env "string" Sample.b))
        (Call.set (GoValue.scalar "z")) = .ok st2 ∧
      st2 "Choice" = GoValue.wrapper "&Sample_B" "B" (GoValue.scalar "z") ∧
      (st2 "Choice").caseView "&Sample_B" = some (GoValue.scalar "z") ∧
      (st2 "Choice").caseView "&Sample_A" = none :=
  match (oneofTpl_exec_exclusive Sample.env (resolvedType Sample.env Sample.newFile 2) Sample.a
    Sample.b ⟨"Choice"⟩
    (Struct.fresh.set "Choice" (GoValue.wrapper "&Sample_B" "B" (GoValue.scalar "old")))
    (GoValue.scalar "5") (GoValue.scalar "z") rfl rfl rfl rfl (by decide)).2.2.2 with
  | ⟨st2, h1, h2, h3, h4, _⟩ => ⟨st2, h1, h2, h3, h4⟩

/-- C11: for a singular field that is not a oneof case the field loop prints
the plain setter alone, and the setter stores its argument: reading the field
after `Set(v)` gives `v`, `Set(v1)` then `Set(v2)` leaves what `Set(v2)` alone
leaves, and `Set(v)` twice leaves what `Set(v)` once leaves. -/
theorem tpl_exec_overwrite {α : Type} [DecidableEq α] (env : Env) (messageName : String)
    (ty : Field → String × Bool) (field : Field) (x : Struct α) (v v1 v2 : GoValue α)
    (hsing : field.Desc.label = Label.singular) (hcase : field.isOneofCase = false) :
    fieldItems env messageName ty field =
      [ExecuteTemplate tpl
        { MessageName := messageName, FieldName := field.GoName,
          FieldType := paramType (ty field) }] ∧
    tpl { MessageName := messageName, FieldName := field.GoName,
          FieldType := paramType (ty field) } =
      "\n\nfunc (x *" ++ messageName ++ " ) Set" ++ field.GoName ++ "(in " ++
        paramType (ty field) ++ " )\x7b\n\t" ++ (Body.assign field.GoName).text ++
        "\n\x7d\n\n" ∧
    (∃ x1, (Body.assign field.GoName).exec x (Call.set v) = .ok x1 ∧ x1 field.GoName = v ∧
      ∀ n, n ≠ field.GoName → x1 n = x n) ∧
    Body.execThen ((Body.assign field.GoName).exec x (Call.set v1)) (Body.assign field.GoName)
        (Call.set v2) = (Body.assign field.GoName).exec x (Call.set v2) ∧
    Body.execThen ((Body.assign field.GoName).exec x (Call.set v)) (Body.assign field.GoName)
        (Call.set v) = (Body.assign field.GoName).exec x (Call.set v) := by
  refine ⟨?_, tpl_text _, ⟨x.set field.GoName v, rfl, Struct.set_same _ _ _, ?_⟩, ?_, ?_⟩
  · simp [fieldItems, hcase, fieldExtras, FieldDescriptor.IsList, FieldDescriptor.IsMap, hsing,
      plainSetter]
  · intro n hn
    simp [Struct.set, hn]
  · simp [Body.execThen, Body.exec, Struct.set_set]
  · simp [Body.execThen, Body.exec, Struct.set_set]

/-- Witness of C11 on the field `string name`. -/
theorem tpl_exec_overwrite_witness :
    fieldItems Sample.env "Sample" (resolvedType Sample.env Sample.newFile 2) Sample.name =
      ["\n\nfunc (x *Sample ) SetName(in string )\x7b\n\tx.Name = in\n\x7d\n\n"] ∧
    ∃ x1 : Struct String,
      (Body.assign "Name").exec Struct.fresh (Call.set (GoValue.scalar "abcdefg")) = .ok x1 ∧
      x1 "Name" = GoValue.scalar "abcdefg" :=
  match tpl_exec_overwrite Sample.env "Sample" (resolvedType Sample.env Sample.newFile 2)
    Sample.name (Struct.fresh : Struct String) (GoValue.scalar "abcdefg")
    (GoValue.scalar "a") (GoValue.scalar "b") rfl rfl with
  | ⟨h1, _, ⟨x1, h2, h3, _⟩, _, _⟩ => ⟨h1, x1, h2, h3⟩

/-! ## Lemmas on loops and on the visited messages -/

theorem forRange_append {α σ : Type} (body : σ → α → Except Failure σ) (xs ys : List α) :
    ∀ s, forRange body s (xs ++ ys) =
      match forRange body s xs with
      | .error e => .error e
      | .ok s1 => forRange body s1 ys := by
  induction xs with
  | nil => intro s; rfl
  | cons x rest ih =>
    intro s
    simp only [List.cons_append, forRange]
    cases body s x with
    | error e => rfl
    | ok s1 => exact ih s1

theorem forRange_singleton {α σ : Type} (body : σ → α → Except Failure σ) (x : α) (s : σ) :
    forRange body s [x] = body s x := by
  simp only [forRange]
  cases body s x <;> rfl

/-- A loop fails when its body fails on one of the elements, whatever the state. -/
theorem forRange_error_of_mem {α σ : Type} (body : σ → α → Except Failure σ) (x : α)
    (xs : List α) (hx : x ∈ xs) (h : ∀ s, ∃ e, body s x = .error e) :
    ∀ s, ∃ e, forRange body s xs = .error e := by
  induction xs with
  | nil => cases hx
  | cons y rest ih =>
    intro s
    simp only [forRange]
    cases hy : body s y with
    | error e => exact ⟨e, rfl⟩
    | ok s1 =>
      rcases List.mem_cons.mp hx with hxy | hxr
      · subst hxy
        obtain ⟨e, he⟩ := h s
        rw [he] at hy
        cases hy
      · exact ih hxr s1

/-- A loop does not run out of fuel when its body never does. -/
theorem forRange_ne_fuelExhausted {α σ : Type} (body : σ → α → Except Failure σ)
    (xs : List α) (h : ∀ s, ∀ x ∈ xs, body s x ≠ .error Failure.fuelExhausted) :
    ∀ s, forRange body s xs ≠ .error Failure.fuelExhausted := by
  induction xs with
  | nil => intro s hs; cases hs
  | cons y rest ih =>
    intro s
    simp only [forRange]
    cases hy : body s y with
    | error e =>
      intro he
      exact h s y (List.mem_cons_self y rest) (hy.trans he)
    | ok s1 => exact ih (fun s2 x hx => h s2 x (List.mem_cons_of_mem y hx)) s1

mutual

/-- The walker is a loop over the visited messages that runs, for each, the
oneof loop and the field loop. -/
theorem generateMessageSetters_eq_forRange (env : Env) (fuel : Nat) :
    ∀ (m : Message) (g : GeneratedFile),
      generateMessageSetters env fuel g m = forRange (ownSetters env fuel) g m.walked
  | .mk goIdent b fields oneofs messages, g => by
    have hn := generateNested_eq_forRange env fuel messages g
    simp only [generateMessageSetters, Message.walked, forRange_append, forRange_singleton, hn]
    cases forRange (ownSetters env fuel) g (Message.walkedList messages) with
    | error e => rfl
    | ok g1 => rfl
theorem generateNested_eq_forRange (env : Env) (fuel : Nat) :
    ∀ (ms : List Message) (g : GeneratedFile),
      generateNested env fuel g ms = forRange (ownSetters env fuel) g (Message.walkedList ms)
  | [], g => rfl
  | v :: rest, g => by
    simp only [generateNested, Message.walkedList, forRange_append]
    cases hme : v.IsMapEntry with
    | true =>
      simp only [if_true]
      exact generateNested_eq_forRange env fuel rest g
    | false =>
      simp only [Bool.false_eq_true, if_false]
      rw [generateMessageSetters_eq_forRange env fuel v g]
      cases forRange (ownSetters env fuel) g v.walked with
      | error e => rfl
      | ok g1 => exact generateNested_eq_forRange env fuel rest g1

end

mutual

theorem messageItems_eq_walked (env : Env) (ty : Field → String × Bool) :
    ∀ (m : Message), messageItems env ty m = m.walked.flatMap (ownItems env ty)
  | .mk goIdent b fields oneofs messages => by
    simp only [messageItems, Message.walked, List.flatMap_append, List.flatMap_cons,
      List.flatMap_nil, List.append_nil, nestedItems_eq_walked env ty messages, ownItems,
      Message.Oneofs, Message.Fields, Message.GoIdent]
theorem nestedItems_eq_walked (env : Env) (ty : Field → String × Bool) :
    ∀ (ms : List Message), nestedItems env ty ms = (Message.walkedList ms).flatMap (ownItems env ty)
  | [] => rfl
  | v :: rest => by
    simp only [nestedItems, Message.walkedList, List.flatMap_append,
      nestedItems_eq_walked env ty rest]
    cases hme : v.IsMapEntry with
    | true => simp
    | false => simp [messageItems_eq_walked env ty v]

end

/-! ## Lemmas on malformed map entries -/

/-- The field loop fails on a map field whose map entry has fewer than two
fields, whatever the budget and the file. -/
theorem fieldBody_error_of_short_entry (env : Env) (fuel : Nat) (messageName : String)
    (field : Field) (m : MsgId) (hmap : field.Desc.IsMap = true)
    (hcase : field.isOneofCase = false) (hm : field.Message = some m)
    (hlen : (env m).Fields.length < 2) :
    ∀ g, ∃ e, fieldBody env fuel messageName g field = .error e := by
  intro g
  have hcase2 : (field.Oneof.isSome && !field.Desc.HasOptionalKeyword) = false := hcase
  unfold fieldBody
  rw [hcase2]
  simp only [Bool.false_eq_true, if_false]
  cases hty : fieldGoType env g fuel field with
  | error e => exact ⟨e, rfl⟩
  | ok r =>
    obtain ⟨goType, pointer⟩ := r
    simp only [hmap, if_true, hm, deref]
    cases hfs : (env m).Fields with
    | nil => exact ⟨Failure.indexOutOfRange, by simp [index]⟩
    | cons k rest =>
      cases rest with
      | nil =>
        simp only [index, List.get?_cons_zero]
        split
        · exact ⟨_, rfl⟩
        · exact ⟨Failure.indexOutOfRange, by simp⟩
      | cons v rest2 =>
        rw [hfs] at hlen
        simp only [List.length_cons] at hlen
        omega

theorem Message.mem_walked_self : ∀ (m : Message), m ∈ m.walked
  | .mk _ _ _ _ _ => by simp [Message.walked]

/-- The walker fails on a message that has, among the fields the field loop
serves, a map field whose map entry has fewer than two fields. -/
theorem generateMessageSetters_error_of_short_entry (env : Env) (fuel : Nat)
    (message : Message) (field : Field) (m : MsgId) (hmem : field ∈ message.Fields)
    (hmap : field.Desc.IsMap = true) (hcase : field.isOneofCase = false)
    (hm : field.Message = some m) (hlen : (env m).Fields.length < 2) :
    ∀ g, ∃ e, generateMessageSetters env fuel g message = .error e := by
  intro g
  rw [generateMessageSetters_eq_forRange]
  apply forRange_error_of_mem _ message _ message.mem_walked_self
  intro g1
  unfold ownSetters
  cases forRange (oneofBody env fuel) g1 message.Oneofs with
  | error e => exact ⟨e, rfl⟩
  | ok g2 =>
    exact forRange_error_of_mem _ field _ hmem
      (fieldBody_error_of_short_entry env fuel _ field m hmap hcase hm hlen) g2

/-- The run fails when a file that is generated has such a message at top level. -/
theorem main_error_of_short_entry (env : Env) (fuel : Nat) (gen : Plugin) (file : File)
    (message : Message) (field : Field) (m : MsgId) (hfile : file ∈ gen.Files)
    (hgen : file.Generate = true) (hmsg : message ∈ file.Messages)
    (hmem : field ∈ message.Fields) (hmap : field.Desc.IsMap = true)
    (hcase : field.isOneofCase = false) (hm : field.Message = some m)
    (hlen : (env m).Fields.length < 2) :
    ∃ e, main env fuel gen = .error e := by
  unfold main
  apply forRange_error_of_mem _ file _ hfile
  intro out
  have hne : file.Messages.length ≠ 0 := by
    intro h0
    have := List.length_pos_of_mem hmsg
    omega
  obtain ⟨e, he⟩ := forRange_error_of_mem (generateMessageSetters env fuel) message _ hmsg
    (generateMessageSetters_error_of_short_entry env fuel message field m hmem hmap hcase hm hlen)
    ((((gen.NewGeneratedFile (file.GeneratedFilenamePrefix ++ ".pb.setters.go")).P
      "// Code generated by protoc-gen-go-setters. DO NOT EDIT.").P
      ("// source: " ++ file.GeneratedFilenamePrefix ++ ".proto")).P
      ("package " ++ file.GoPackageName))
  refine ⟨e, ?_⟩
  simp [fileBody, hgen, hne, he]

/-- A non-weak map field whose map entry has at least two fields resolves to
the map of the types of the first two. -/
theorem fieldGoType_of_long_entry (env : Env) (g : GeneratedFile) (fuel : Nat) (field : Field)
    (m : MsgId) (k v : Field) (rest : List Field) (K V : String) (pk pv : Bool)
    (hweak : field.Desc.IsWeak = false) (hmap : field.Desc.IsMap = true)
    (htyped : field.Typed) (hm : field.Message = some m)
    (hfields : (env m).Fields = k :: v :: rest)
    (hk : fieldGoType env g fuel k = .ok (K, pk))
    (hv : fieldGoType env g fuel v = .ok (V, pv)) :
    fieldGoType env g (fuel + 1) field = .ok ("map[" ++ K ++ "]" ++ V, false) := by
  obtain ⟨B, p, hB⟩ := baseGoType_ok_of_typed env g field htyped
  have hl : field.Desc.IsList = false := by
    simp only [FieldDescriptor.IsMap, FieldDescriptor.IsList] at hmap ⊢
    cases hlab : field.Desc.label <;> simp_all
  rw [fieldGoType]
  simp [hweak, hB, hl, hmap, hm, deref, index, hfields, hk, hv]

/-- On such a field the field loop prints the plain setter and the map-entry
setter, computed from the fields at positions 0 and 1. -/
theorem fieldBody_of_long_entry (env : Env) (g : GeneratedFile) (fuel : Nat)
    (messageName : String) (field : Field)
    (m : MsgId) (k v : Field) (rest : List Field) (K V : String) (pk pv : Bool)
    (hweak : field.Desc.IsWeak = false) (hmap : field.Desc.IsMap = true)
    (hcase : field.isOneofCase = false)
    (htyped : field.Typed) (hm : field.Message = some m)
    (hfields : (env m).Fields = k :: v :: rest)
    (hk : fieldGoType env g fuel k = .ok (K, pk))
    (hv : fieldGoType env g fuel v = .ok (V, pv)) :
    fieldBody env (fuel + 1) messageName g field =
      .ok (g.emit
        [ExecuteTemplate tpl
          { MessageName := messageName, FieldName := field.GoName,
            FieldType := "map[" ++ K ++ "]" ++ V },
         ExecuteTemplate mapSetTpl
          { MessageName := messageName, FieldName := field.GoName, KeyType := K,
            ValueType := V }]) := by
  have hcase2 : (field.Oneof.isSome && !field.Desc.HasOptionalKeyword) = false := hcase
  have hty := fieldGoType_of_long_entry env g fuel field m k v rest K V pk pv hweak hmap htyped
    hm hfields hk hv
  have hl : field.Desc.IsList = false := by
    simp only [FieldDescriptor.IsMap, FieldDescriptor.IsList] at hmap ⊢
    cases hlab : field.Desc.label <;> simp_all
  have he : ∀ xs n f, fieldGoType env (g.emit xs) n f = fieldGoType env g n f :=
    fun xs n f => fieldGoType_congr env (g.emit xs) g rfl n f
  have hk1 := fieldGoType_mono env g fuel k _ hk
  have hv1 := fieldGoType_mono env g fuel v _ hv
  unfold fieldBody
  rw [hcase2, hty]
  simp [hl, hmap, hm, hfields, P_eq_emit, emit_emit, deref, index, he, hk1, hv1]
/-- With enough fuel the failure on a short map entry is the Go panic of an
index out of range. -/
theorem fieldBody_short_entry_panics (env : Env) (g : GeneratedFile) (fuel : Nat)
    (messageName : String) (field : Field) (m : MsgId) (hmap : field.Desc.IsMap = true)
    (hcase : field.isOneofCase = false) (hm : field.Message = some m)
    (hlen : (env m).Fields.length < 2) (htyped : field.Typed)
    (hentry : ∀ k ∈ (env m).Fields, k.Typed ∧ k.Desc.IsMap = false) :
    fieldBody env (fuel + 2) messageName g field = .error Failure.indexOutOfRange := by
  have hcase2 : (field.Oneof.isSome && !field.Desc.HasOptionalKeyword) = false := hcase
  obtain ⟨B, p, hB⟩ := baseGoType_ok_of_typed env g field htyped
  have hl : field.Desc.IsList = false := by
    simp only [FieldDescriptor.IsMap, FieldDescriptor.IsList] at hmap ⊢
    cases hlab : field.Desc.label <;> simp_all
  have he : ∀ xs n f, fieldGoType env (g.emit xs) n f = fieldGoType env g n f :=
    fun xs n f => fieldGoType_congr env (g.emit xs) g rfl n f
  cases hfs : (env m).Fields with
  | nil =>
    cases hw : field.Desc.IsWeak with
    | true =>
      have hty : fieldGoType env g (fuel + 2) field = .ok ("struct\x7b\x7d", false) := by
        simp [fieldGoType, hw]
      unfold fieldBody
      rw [hcase2, hty]
      simp [hl, hmap, hm, hfs, deref, index]
    | false =>
      have hty : fieldGoType env g (fuel + 2) field = .error Failure.indexOutOfRange := by
        rw [fieldGoType]
        simp [hw, hB, hl, hmap, hm, hfs, deref, index]
      unfold fieldBody
      rw [hcase2, hty]
      rfl
  | cons k rest =>
    cases rest with
    | cons v rest2 =>
      rw [hfs] at hlen
      simp only [List.length_cons] at hlen
      omega
    | nil =>
      obtain ⟨hkt, hkm⟩ := hentry k (by simp [hfs])
      obtain ⟨⟨K, pk⟩, hk⟩ := fieldGoType_ok_of_not_map env g fuel k hkt hkm
      have hk1 := fieldGoType_mono env g (fuel + 1) k _ hk
      cases hw : field.Desc.IsWeak with
      | true =>
        have hty : fieldGoType env g (fuel + 2) field = .ok ("struct\x7b\x7d", false) := by
          simp [fieldGoType, hw]
        unfold fieldBody
        rw [hcase2, hty]
        simp [hl, hmap, hm, hfs, deref, index, P_eq_emit, he, hk1]
      | false =>
        have hty : fieldGoType env g (fuel + 2) field = .error Failure.indexOutOfRange := by
          rw [fieldGoType]
          simp [hw, hB, hl, hmap, hm, hfs, deref, index, hk]
        unfold fieldBody
        rw [hcase2, hty]
        rfl

/-! ## Claims on malformed map entries -/

/-- C12, the claim as stated fails: the map entry of the field `attrs` has three
fields, and the walker returns all the same, with the plain setter and the
map-entry setter computed from the fields at positions 0 and 1. -/
theorem mapEntry_three_fields_generates :
    Malformed.attrs.Desc.IsMap = true ∧ Malformed.attrs.Message = some 1 ∧
    (Malformed.wideEnv 1).Fields.length = 3 ∧
    (generateMessageSetters Malformed.wideEnv 2 Sample.newFile Malformed.wide).map
        (fun g => g.buf) =
      .ok ["\n\nfunc (x *Wide ) SetAttrs(in map[string]int32 )\x7b\n\tx.Attrs = in\n\x7d\n\n",
        "\n\nfunc (x *Wide ) SetAttrsKey(key string, val int32 )\x7b\n\tx.Attrs[key] = val\n\x7d\n\n"] :=
  ⟨rfl, rfl, rfl, rfl⟩

/-- C12, amended: for a map field served by the field loop, when its map entry
has fewer than two fields the field loop, the walker and the whole run fail
(with enough fuel and typed fields: by the panic of an index out of range), so
nothing is emitted; when the map entry has two fields or more, generation does
not fail and the plain setter and the map-entry setter are computed from the
fields at positions 0 and 1. -/
theorem mapEntry_arity (env : Env) (fuel : Nat) (messageName : String) (field : Field)
    (m : MsgId) (hmap : field.Desc.IsMap = true) (hcase : field.isOneofCase = false)
    (hm : field.Message = some m) :
    ((env m).Fields.length < 2 →
      (∀ g, ∃ e, fieldBody env fuel messageName g field = .error e) ∧
      (∀ g, field.Typed → (∀ k ∈ (env m).Fields, k.Typed ∧ k.Desc.IsMap = false) →
        fieldBody env (fuel + 2) messageName g field = .error Failure.indexOutOfRange) ∧
      (∀ g message, field ∈ message.Fields →
        ∃ e, generateMessageSetters env fuel g message = .error e) ∧
      (∀ gen file message, file ∈ gen.Files → file.Generate = true →
        message ∈ file.Messages → field ∈ message.Fields →
        ∃ e, main env fuel gen = .error e)) ∧
    (∀ g k v rest K V pk pv, (env m).Fields = k :: v :: rest →
      field.Desc.IsWeak = false → field.Typed →
      fieldGoType env g fuel k = .ok (K, pk) → fieldGoType env g fuel v = .ok (V, pv) →
      fieldBody env (fuel + 1) messageName g field =
        .ok (g.emit
          [ExecuteTemplate tpl
            { MessageName := messageName, FieldName := field.GoName,
              FieldType := "map[" ++ K ++ "]" ++ V },
           ExecuteTemplate mapSetTpl
            { MessageName := messageName, FieldName := field.GoName, KeyType := K,
              ValueType := V }])) := by
  refine ⟨fun hlen => ⟨?_, ?_, ?_, ?_⟩, ?_⟩
  · exact fieldBody_error_of_short_entry env fuel messageName field m hmap hcase hm hlen
  · intro g htyped hentry
    exact fieldBody_short_entry_panics env g fuel messageName field m hmap hcase hm hlen htyped
      hentry
  · intro g message hmem
    exact generateMessageSetters_error_of_short_entry env fuel message field m hmem hmap hcase
      hm hlen g
  · intro gen file message hfile hgen hmsg hmem
    exact main_error_of_short_entry env fuel gen file message field m hfile hgen hmsg hmem hmap
      hcase hm hlen
  · intro g k v rest K V pk pv hfields hweak htyped hk hv
    exact fieldBody_of_long_entry env g fuel messageName field m k v rest K V pk pv hweak hmap
      hcase htyped hm hfields hk hv

/-- Witness of C12 on the map field whose map entry has the key field only. -/
theorem mapEntry_arity_witness :
    (Malformed.narrowEnv 1).Fields.length = 1 ∧
    fieldBody Malformed.narrowEnv 2 "Narrow" Sample.newFile Malformed.attrs =
      .error Failure.indexOutOfRange ∧
    ∃ e, generateMessageSetters Malformed.narrowEnv 2 Sample.newFile Malformed.narrow =
      .error e :=
  ⟨rfl,
    ((mapEntry_arity Malformed.narrowEnv 0 "Narrow" Malformed.attrs 1 rfl rfl rfl).1
      (by decide)).2.1 Sample.newFile (by decide)
      (fun k hk => by
        have hk2 : k = Sample.attrsKey := by simpa [Malformed.narrowEnv, Malformed.narrowEntry,
          Message.Fields] using hk
        subst hk2
        exact ⟨by decide, rfl⟩),
    ((mapEntry_arity Malformed.narrowEnv 2 "Narrow" Malformed.attrs 1 rfl rfl rfl).1
      (by decide)).2.2.1 Sample.newFile Malformed.narrow (by decide)⟩

/-! ## Lemmas on `main` -/

theorem fileBody_not_eligible (env : Env) (fuel : Nat) (gen : Plugin)
    (out : List (String × GeneratedFile)) (file : File) (h : file.eligible = false) :
    fileBody env fuel gen out file = .ok out := by
  have h2 : (!file.Generate || file.Messages.length == 0) = true := by
    unfold File.eligible at h
    cases hg : file.Generate <;> cases hl : file.Messages.length == 0 <;> simp_all
  simp only [fileBody, h2, if_true]

theorem fileBody_eligible (env : Env) (fuel : Nat) (gen : Plugin)
    (out : List (String × GeneratedFile)) (file : File) (h : file.eligible = true) :
    fileBody env fuel gen out file =
      match forRange (generateMessageSetters env fuel)
        ((gen.NewGeneratedFile file.outputName).emit file.header) file.Messages with
      | .error e => .error e
      | .ok newFile => .ok (out ++ [(file.outputName, newFile)]) := by
  have h2 : (!file.Generate || file.Messages.length == 0) = false := by
    unfold File.eligible at h
    cases hg : file.Generate <;> cases hl : file.Messages.length == 0 <;> simp_all
  simp only [fileBody, h2, Bool.false_eq_true, if_false]
  rfl

/-- The names of the output units do not depend on what the walker does. -/
theorem forRange_fileBody_names (env : Env) (fuel : Nat) (gen : Plugin) (files : List File) :
    ∀ out outs, forRange (fileBody env fuel gen) out files = .ok outs →
      outs.map Prod.fst =
        out.map Prod.fst ++ (files.filter File.eligible).map File.outputName := by
  induction files with
  | nil =>
    intro out outs h
    simp only [forRange] at h
    cases h
    simp
  | cons file rest ih =>
    intro out outs h
    simp only [forRange] at h
    cases hel : file.eligible with
    | false =>
      rw [fileBody_not_eligible env fuel gen out file hel] at h
      simp only [List.filter_cons, hel]
      exact ih out outs h
    | true =>
      rw [fileBody_eligible env fuel gen out file hel] at h
      cases hw : forRange (generateMessageSetters env fuel)
          ((gen.NewGeneratedFile file.outputName).emit file.header) file.Messages with
      | error e => simp [hw] at h
      | ok newFile =>
        simp only [hw] at h
        have := ih _ outs h
        simp only [List.filter_cons, hel, if_true, List.map_cons, this, List.map_append,
          List.map_nil, List.append_assoc, List.singleton_append]

/-- On well-formed files the run returns one unit per eligible file, in order. -/
theorem forRange_fileBody_ok (env : Env) (fuel : Nat) (gen : Plugin) (files : List File)
    (hwf : ∀ file ∈ files, file.eligible = true →
      ∀ message ∈ file.Messages, message.WellFormed env) :
    ∀ out, forRange (fileBody env (fuel + 2) gen) out files =
      .ok (out ++ (files.filter File.eligible).map
        (fun f => (f.outputName, fileOutput env (fuel + 2) gen f))) := by
  induction files with
  | nil => intro out; simp [forRange]
  | cons file rest ih =>
    intro out
    have ihr := ih (fun f hf => hwf f (List.mem_cons_of_mem file hf))
    simp only [forRange]
    cases hel : file.eligible with
    | false =>
      rw [fileBody_not_eligible env _ gen out file hel]
      simp only [List.filter_cons, hel]
      exact ihr out
    | true =>
      rw [fileBody_eligible env _ gen out file hel]
      have hw := forRange_emit (gen.NewGeneratedFile file.outputName).QualifiedGoIdent
        (generateMessageSetters env (fuel + 2))
        (messageItems env (resolvedType env (gen.NewGeneratedFile file.outputName) (fuel + 2)))
        file.Messages
        (fun g m hm hg => generateMessageSetters_emit env (gen.NewGeneratedFile file.outputName)
          fuel m (hwf file (List.mem_cons_self file rest) hel m hm) g hg)
        ((gen.NewGeneratedFile file.outputName).emit file.header) rfl
      rw [hw]
      simp only [emit_emit]
      rw [ihr]
      simp [List.filter_cons, hel, fileOutput, List.append_assoc]

theorem Message.mem_declared_self : ∀ (m : Message), m ∈ m.declared
  | .mk _ _ _ _ _ => by simp [Message.declared]

theorem Message.declared_eq : ∀ (m : Message),
    m.declared = m :: Message.declaredList m.Messages
  | .mk _ _ _ _ _ => rfl

theorem Message.walked_eq : ∀ (m : Message),
    m.walked = Message.walkedList m.Messages ++ [m]
  | .mk _ _ _ _ _ => rfl

mutual

/-- When no map entry has nested declarations, the walker visits exactly the
declared messages that are not map entries, each once. -/
theorem Message.walked_perm_declared :
    ∀ (m : Message), (∀ d ∈ m.declared, d.IsMapEntry = true → d.Messages = []) →
      m.IsMapEntry = false →
      List.Perm m.walked (m.declared.filter (fun d => !d.IsMapEntry))
  | .mk goIdent b fields oneofs messages, h, hroot => by
    have hrest := Message.walkedList_perm_declared messages
      (fun d hd => h d (by simp [Message.declared, hd]))
    simp only [Message.IsMapEntry] at hroot
    simp only [Message.walked, Message.declared, List.filter_cons, Message.IsMapEntry, hroot,
      Bool.not_false, if_true]
    exact (List.perm_append_singleton _ _).trans (List.Perm.cons _ hrest)
theorem Message.walkedList_perm_declared :
    ∀ (ms : List Message),
      (∀ d ∈ Message.declaredList ms, d.IsMapEntry = true → d.Messages = []) →
      List.Perm (Message.walkedList ms)
        ((Message.declaredList ms).filter (fun d => !d.IsMapEntry))
  | [], _ => by simp [Message.walkedList, Message.declaredList]
  | v :: rest, h => by
    have hrest := Message.walkedList_perm_declared rest
      (fun d hd => h d (by simp [Message.declaredList, hd]))
    simp only [Message.walkedList, Message.declaredList, List.filter_append]
    refine List.Perm.append ?_ hrest
    cases hme : v.IsMapEntry with
    | true =>
      have hnil : v.Messages = [] :=
        h v (by simp [Message.declaredList, v.mem_declared_self]) hme
      rw [v.declared_eq, hnil]
      simp [Message.declaredList, hme]
    | false =>
      simp only [Bool.false_eq_true, if_false]
      exact Message.walked_perm_declared v
        (fun d hd => h d (by simp [Message.declaredList, hd])) hme

end

theorem flatMap_walked_perm_declared (ms : List Message)
    (h : ∀ m ∈ ms, m.IsMapEntry = false ∧
      ∀ d ∈ m.declared, d.IsMapEntry = true → d.Messages = []) :
    List.Perm (ms.flatMap Message.walked)
      ((ms.flatMap Message.declared).filter (fun d => !d.IsMapEntry)) := by
  induction ms with
  | nil => simp
  | cons m rest ih =>
    simp only [List.flatMap_cons, List.filter_append]
    exact List.Perm.append
      (m.walked_perm_declared (h m (List.mem_cons_self m rest)).2
        (h m (List.mem_cons_self m rest)).1)
      (ih (fun x hx => h x (List.mem_cons_of_mem m hx)))

/-! ## Claims on `main` and on the visited messages -/

/-- C13: for every file that is generated and whose messages are well formed,
the run returns and the unit of the file holds the header and then the setters
of the messages a list `visited` names, one block each, where `visited` holds
exactly the message definitions declared in the file (top-level or nested) that
are not map entries, each once; what fields refer to plays no part. -/
theorem main_each_message_once (env : Env) (fuel : Nat) (gen : Plugin)
    (hwf : ∀ file ∈ gen.Files, file.eligible = true → file.WellFormed env) :
    ∃ outs, main env (fuel + 2) gen = .ok outs ∧
      ∀ file ∈ gen.Files, file.eligible = true →
        ∃ unit visited, (file.outputName, unit) ∈ outs ∧
          unit.buf = file.header ++ visited.flatMap
            (ownItems env
              (resolvedType env (gen.NewGeneratedFile file.outputName) (fuel + 2))) ∧
          List.Perm visited
            ((file.Messages.flatMap Message.declared).filter (fun d => !d.IsMapEntry)) := by
  have hok := forRange_fileBody_ok env fuel gen gen.Files
    (fun file hf hel m hm => (hwf file hf hel m hm).1) []
  refine ⟨_, hok, ?_⟩
  intro file hf hel
  refine ⟨fileOutput env (fuel + 2) gen file, file.Messages.flatMap Message.walked, ?_, ?_, ?_⟩
  · simp only [List.nil_append, List.mem_map, List.mem_filter]
    exact ⟨file, ⟨hf, hel⟩, rfl⟩
  · simp only [fileOutput, GeneratedFile.emit, Plugin.NewGeneratedFile, List.nil_append,
      List.flatMap_assoc]
    congr 1
    apply List.flatMap_congr
    intro m _
    exact messageItems_eq_walked env _ m
  · exact flatMap_walked_perm_declared file.Messages
      (fun m hm => ⟨(hwf file hf hel m hm).2.1, (hwf file hf hel m hm).2.2⟩)
theorem Field.wellFormed_of_not_map (env : Env) (field : Field) (htyped : field.Typed)
    (hmap : field.Desc.IsMap = false) : field.WellFormed env :=
  ⟨htyped, fun h => by rw [hmap] at h; cases h⟩

/-- The file of the library schema is well formed. -/
theorem Library.file_wellFormed : Library.file.WellFormed Library.env := by
  have hfields : ∀ f ∈ [Library.title, Library.sequel, Library.shelf, Library.books,
      Library.book], f.WellFormed Library.env := by
    intro f hf
    have h : f.Typed ∧ f.Desc.IsMap = false := by
      revert f
      decide
    exact Field.wellFormed_of_not_map _ f h.1 h.2
  intro message hm
  simp only [Library.file, List.mem_cons, List.mem_singleton, List.not_mem_nil, or_false] at hm
  rcases hm with rfl | rfl
  · refine ⟨?_, rfl, ?_⟩
    · simp only [Library.shelfMessage, Library.bookMessage, Message.WellFormed,
        Message.WellFormedList]
      refine ⟨fun f hf => hfields f (by
        simp only [List.mem_cons, List.mem_singleton, List.not_mem_nil, or_false] at hf ⊢
        tauto), by decide, ?_, trivial⟩
      intro _
      exact ⟨fun f hf => hfields f (by
        simp only [List.mem_cons, List.mem_singleton, List.not_mem_nil, or_false] at hf ⊢
        tauto), by decide, trivial⟩
    · intro d hd hme
      simp only [Library.shelfMessage, Library.bookMessage, Message.declared,
        Message.declaredList, List.append_nil, List.mem_cons, List.mem_singleton,
        List.not_mem_nil, or_false] at hd
      rcases hd with rfl | rfl <;> simp [Message.IsMapEntry] at hme
  · refine ⟨?_, rfl, ?_⟩
    · simp only [Library.loanMessage, Message.WellFormed, Message.WellFormedList]
      exact ⟨fun f hf => hfields f (by
        simp only [List.mem_cons, List.mem_singleton, List.not_mem_nil, or_false] at hf ⊢
        tauto), by decide, trivial⟩
    · intro d hd hme
      simp only [Library.loanMessage, Message.declared, Message.declaredList,
        List.mem_cons, List.not_mem_nil, or_false] at hd
      subst hd
      simp [Message.IsMapEntry] at hme

theorem Library.gen_wellFormed :
    ∀ file ∈ Library.gen.Files, file.eligible = true → file.WellFormed Library.env := by
  intro file hf hel
  simp only [Library.gen, List.mem_cons, List.mem_singleton, List.not_mem_nil, or_false] at hf
  rcases hf with rfl | rfl | rfl
  · simp [File.eligible, Library.imported] at hel
  · exact Library.file_wellFormed
  · simp [File.eligible, Library.empty] at hel

/-- Witness of C13 on the library schema: `Shelf.Book` is nested in `Shelf` and
named by a field of `Loan`, and its setter `SetTitle` is printed once. -/
theorem main_each_message_once_witness :
    (∃ outs, main Library.env 2 Library.gen = .ok outs ∧
      ∀ file ∈ Library.gen.Files, file.eligible = true →
        ∃ unit visited, (file.outputName, unit) ∈ outs ∧
          unit.buf = file.header ++ visited.flatMap
            (ownItems Library.env
              (resolvedType Library.env (Library.gen.NewGeneratedFile file.outputName) 2)) ∧
          List.Perm visited
            ((file.Messages.flatMap Message.declared).filter (fun d => !d.IsMapEntry))) ∧
    (main Library.env 2 Library.gen).map
      (fun outs => outs.map (fun unit => unit.2.buf.count
        "\n\nfunc (x *Shelf_Book ) SetTitle(in string )\x7b\n\tx.Title = in\n\x7d\n\n")) =
      .ok [1] :=
  ⟨main_each_message_once Library.env 0 Library.gen Library.gen_wellFormed, rfl⟩

/-! ## Lemmas on termination -/

theorem baseGoType_error (env : Env) (g : GeneratedFile) (field : Field) (e : Failure)
    (h : baseGoType env g field = .error e) : e = Failure.nilDereference := by
  unfold baseGoType at h
  cases hk : field.Desc.Kind <;> simp only [hk] at h <;> try cases h
  case EnumKind =>
    cases he : field.Enum with
    | none => simp [he, deref] at h; exact h.symm
    | some en =>
      simp only [he, deref] at h
      split at h <;> cases h
  case MessageKind =>
    cases hm : field.Message with
    | none => simp [hm, deref] at h; exact h.symm
    | some m =>
      simp only [hm, deref] at h
      split at h <;> cases h
  case GroupKind =>
    cases hm : field.Message with
    | none => simp [hm, deref] at h; exact h.symm
    | some m =>
      simp only [hm, deref] at h
      split at h <;> cases h

theorem index_ok_mem {α : Type} (xs : List α) (i : Nat) (a : α) (h : index xs i = .ok a) :
    a ∈ xs := by
  unfold index at h
  cases hg : xs.get? i with
  | none => simp only [hg] at h; cases h
  | some b =>
    simp only [hg] at h
    cases h
    exact List.get?_mem hg

theorem index_error {α : Type} (xs : List α) (i : Nat) (e : Failure)
    (h : index xs i = .error e) : e = Failure.indexOutOfRange := by
  unfold index at h
  cases hg : xs.get? i with
  | none => simp only [hg] at h; cases h; rfl
  | some b => simp only [hg] at h; cases h

theorem deref_error {α : Type} (p : Option α) (e : Failure) (h : deref p = .error e) :
    e = Failure.nilDereference := by
  cases p with
  | none => cases h; rfl
  | some a => cases h

/-- A single call resolves a field that is not a map or panics. -/
theorem fieldGoType_not_map_ne_fuelExhausted (env : Env) (g : GeneratedFile) (fuel : Nat)
    (field : Field) (hmap : field.Desc.IsMap = false) :
    fieldGoType env g (fuel + 1) field ≠ .error Failure.fuelExhausted := by
  intro h
  rw [fieldGoType] at h
  split at h
  · cases h
  · cases hb : baseGoType env g field with
    | error e =>
      simp only [hb] at h
      have := baseGoType_error env g field e hb
      cases h
      cases this
    | ok r =>
      obtain ⟨goType, pointer⟩ := r
      simp only [hb, hmap] at h
      split at h <;> cases h

/-! ## Claims on order -/

theorem flatMap_skip {α β : Type} (p : α → Bool) (f : α → List β) (xs : List α) :
    xs.flatMap (fun x => if p x = true then [] else f x) =
      (xs.filter (fun x => !p x)).flatMap f := by
  induction xs with
  | nil => rfl
  | cons x rest ih =>
    cases hp : p x <;> simp [List.flatMap_cons, List.filter_cons, hp, ih]

theorem nestedItems_eq_filter (env : Env) (ty : Field → String × Bool) (ms : List Message) :
    nestedItems env ty ms =
      (ms.filter (fun v => !v.IsMapEntry)).flatMap (messageItems env ty) := by
  induction ms with
  | nil => rfl
  | cons v rest ih =>
    cases hme : v.IsMapEntry <;> simp [nestedItems, List.filter_cons, hme, ih]

theorem oneofItems_eq_filter (env : Env) (ty : Field → String × Bool) (fs : List Field) :
    fs.flatMap (oneofItems env ty) =
      (fs.filter (fun f => !f.Desc.HasOptionalKeyword)).map
        (fun f => oneofSetter env (ty f).1 f) := by
  induction fs with
  | nil => rfl
  | cons f rest ih =>
    cases hopt : f.Desc.HasOptionalKeyword <;>
      simp [List.flatMap_cons, oneofItems, List.filter_cons, hopt, ih]

theorem fieldItems_eq_filter (env : Env) (messageName : String) (ty : Field → String × Bool)
    (fs : List Field) :
    fs.flatMap (fieldItems env messageName ty) =
      (fs.filter (fun f => !f.isOneofCase)).flatMap
        (fun f => plainSetter messageName (ty f) f :: fieldExtras env messageName ty f) := by
  unfold fieldItems
  exact flatMap_skip Field.isOneofCase _ fs

theorem Message.wellFormed_of_mem (env : Env) (ms : List Message)
    (h : Message.WellFormedList env ms) :
    ∀ v ∈ ms, v.IsMapEntry = false → v.WellFormed env := by
  induction ms with
  | nil => intro v hv; cases hv
  | cons x rest ih =>
    intro v hv hme
    simp only [Message.WellFormedList] at h
    rcases List.mem_cons.mp hv with rfl | hr
    · exact h.1 hme
    · exact ih h.2 v hr hme

/-- The extras of a well-formed field, by label. -/
theorem fieldExtras_wellFormed (env : Env) (messageName : String) (ty : Field → String × Bool)
    (field : Field) (hwf : field.WellFormed env) :
    (field.Desc.label = Label.singular → fieldExtras env messageName ty field = []) ∧
    (field.Desc.label = Label.list → fieldExtras env messageName ty field =
      [ExecuteTemplate appendArrayTpl
        { MessageName := messageName, FieldName := field.GoName,
          FieldType := stringsReplace1 (paramType (ty field)) "[]" "..." }]) ∧
    (field.Desc.label = Label.map →
      ∃ m keyField valField, field.Message = some m ∧
        (env m).Fields = [keyField, valField] ∧
        fieldExtras env messageName ty field =
          [ExecuteTemplate mapSetTpl
            { MessageName := messageName, FieldName := field.GoName,
              KeyType := (ty keyField).1, ValueType := (ty valField).1 }]) := by
  refine ⟨?_, ?_, ?_⟩
  · intro h
    simp [fieldExtras, FieldDescriptor.IsList, FieldDescriptor.IsMap, h]
  · intro h
    simp [fieldExtras, FieldDescriptor.IsList, FieldDescriptor.IsMap, h]
  · intro h
    obtain ⟨m, k, v, hm, hfields, _⟩ := hwf.2 (by simp [FieldDescriptor.IsMap, h])
    exact ⟨m, k, v, hm, hfields, by
      simp [fieldExtras, FieldDescriptor.IsList, FieldDescriptor.IsMap, h, hm, hfields]⟩

/-- C15: on a well-formed message the walker prints, in this order, what it
prints for each nested message that is not a map entry (in declaration order,
each complete), the oneof-case setters oneof by oneof and member by member,
and for each field that is not a oneof case its plain setter followed at once
by its append mutator if it is a list or its map-entry setter if it is a map. -/
theorem generateMessageSetters_order (env : Env) (g : GeneratedFile) (fuel : Nat)
    (message : Message) (hwf : message.WellFormed env) :
    generateMessageSetters env (fuel + 2) g message =
      .ok (g.emit
        ((message.Messages.filter (fun v => !v.IsMapEntry)).flatMap
            (messageItems env (resolvedType env g (fuel + 2))) ++
          (message.Oneofs.flatMap (fun o =>
              (o.Fields.filter (fun f => !f.Desc.HasOptionalKeyword)).map
                (fun f => oneofSetter env (resolvedType env g (fuel + 2) f).1 f)) ++
            (message.Fields.filter (fun f => !f.isOneofCase)).flatMap (fun f =>
              plainSetter message.GoIdent.GoName (resolvedType env g (fuel + 2) f) f ::
                fieldExtras env message.GoIdent.GoName (resolvedType env g (fuel + 2)) f)))) ∧
    (∀ v ∈ message.Messages, v.IsMapEntry = false → ∀ g1,
      g1.QualifiedGoIdent = g.QualifiedGoIdent →
      generateMessageSetters env (fuel + 2) g1 v =
        .ok (g1.emit (messageItems env (resolvedType env g (fuel + 2)) v))) ∧
    (∀ f ∈ message.Fields,
      (f.Desc.label = Label.singular →
        fieldExtras env message.GoIdent.GoName (resolvedType env g (fuel + 2)) f = []) ∧
      (f.Desc.label = Label.list →
        fieldExtras env message.GoIdent.GoName (resolvedType env g (fuel + 2)) f =
          [ExecuteTemplate appendArrayTpl
            { MessageName := message.GoIdent.GoName, FieldName := f.GoName,
              FieldType :=
                stringsReplace1 (paramType (resolvedType env g (fuel + 2) f)) "[]" "..." }]) ∧
      (f.Desc.label = Label.map →
        ∃ m keyField valField, f.Message = some m ∧
          (env m).Fields = [keyField, valField] ∧
          fieldExtras env message.GoIdent.GoName (resolvedType env g (fuel + 2)) f =
            [ExecuteTemplate mapSetTpl
              { MessageName := message.GoIdent.GoName, FieldName := f.GoName,
                KeyType := (resolvedType env g (fuel + 2) keyField).1,
                ValueType := (resolvedType env g (fuel + 2) valField).1 }])) := by
  obtain ⟨goIdent, isMapEntry, fields, oneofs, messages⟩ := message
  have hgen := generateMessageSetters_emit env g fuel _ hwf g rfl
  simp only [Message.WellFormed] at hwf
  obtain ⟨hfields, hperm, hnested⟩ := hwf
  simp only [Message.Fields, Message.Messages, Message.GoIdent, Message.Oneofs]
  refine ⟨?_, ?_, ?_⟩
  · rw [hgen, messageItems, nestedItems_eq_filter, fieldItems_eq_filter]
    simp only [oneofItems_eq_filter]
  · intro v hv hme g1 hg1
    exact generateMessageSetters_emit env g fuel v
      (Message.wellFormed_of_mem env messages hnested v hv hme) g1 hg1
  · intro f hf
    exact fieldExtras_wellFormed env goIdent.GoName _ f (hfields f hf)

/-- Witness of C15 on the example message. -/
theorem generateMessageSetters_order_witness :
    Message.WellFormed Sample.env Sample.sample ∧
    (generateMessageSetters Sample.env 2 Sample.newFile Sample.sample).map (fun g => g.buf) =
      .ok ["\n\nfunc (x *Sample ) SetA(in int32 ) \x7b\n\tx.Choice = &Sample_A\x7b A:in \x7d\n\x7d\n\n",
        "\n\nfunc (x *Sample ) SetB(in string ) \x7b\n\tx.Choice = &Sample_B\x7b B:in \x7d\n\x7d\n\n",
        "\n\nfunc (x *Sample ) SetName(in string )\x7b\n\tx.Name = in\n\x7d\n\n",
        "\n\nfunc (x *Sample ) SetCount(in *int64 )\x7b\n\tx.Count = in\n\x7d\n\n",
        "\n\nfunc (x *Sample ) SetTags(in [][]byte )\x7b\n\tx.Tags = in\n\x7d\n\n",
        "\n\nfunc (x *Sample ) AppendTags(in ...[]byte ) \x7b\n\tx.Tags = append(x.Tags, in...)\n\x7d\n\n",
        "\n\nfunc (x *Sample ) SetAttrs(in map[string]int32 )\x7b\n\tx.Attrs = in\n\x7d\n\n",
        "\n\nfunc (x *Sample ) SetAttrsKey(key string, val int32 )\x7b\n\tx.Attrs[key] = val\n\x7d\n\n"] :=
  ⟨Sample.sample_wellFormed,
    (congrArg (fun r => r.map (fun g => g.buf))
      (generateMessageSetters_order Sample.env Sample.newFile 0 Sample.sample
        Sample.sample_wellFormed).1).trans rfl⟩

/-! ## Lemmas on receivers and method names -/

mutual

theorem Message.walked_not_entry :
    ∀ (m : Message), ∀ w ∈ m.walked, w = m ∨ w.IsMapEntry = false
  | .mk goIdent b fields oneofs messages, w, hw => by
    simp only [Message.walked, List.mem_append, List.mem_singleton] at hw
    rcases hw with h | h
    · exact Or.inr (Message.walkedList_not_entry messages w h)
    · exact Or.inl h
theorem Message.walkedList_not_entry :
    ∀ (ms : List Message), ∀ w ∈ Message.walkedList ms, w.IsMapEntry = false
  | [], w, hw => by simp [Message.walkedList] at hw
  | v :: rest, w, hw => by
    simp only [Message.walkedList, List.mem_append] at hw
    rcases hw with h | h
    · cases hme : v.IsMapEntry with
      | true => simp [hme] at h
      | false =>
        simp only [hme, Bool.false_eq_true, if_false] at h
        rcases Message.walked_not_entry v w h with rfl | h2
        · exact hme
        · exact h2
    · exact Message.walkedList_not_entry rest w h

end

mutual

theorem Message.walked_wellFormed (env : Env) :
    ∀ (m : Message), m.WellFormed env → ∀ w ∈ m.walked, w.WellFormed env
  | .mk goIdent b fields oneofs messages, hwf, w, hw => by
    simp only [Message.walked, List.mem_append, List.mem_singleton] at hw
    rcases hw with h | h
    · have hwf2 := hwf
      simp only [Message.WellFormed] at hwf2
      exact Message.walkedList_wellFormed env messages hwf2.2.2 w h
    · rw [h]
      exact hwf
theorem Message.walkedList_wellFormed (env : Env) :
    ∀ (ms : List Message), Message.WellFormedList env ms →
      ∀ w ∈ Message.walkedList ms, w.WellFormed env
  | [], _, w, hw => by simp [Message.walkedList] at hw
  | v :: rest, hwf, w, hw => by
    simp only [Message.WellFormedList] at hwf
    simp only [Message.walkedList, List.mem_append] at hw
    rcases hw with h | h
    · cases hme : v.IsMapEntry with
      | true => simp [hme] at h
      | false =>
        simp only [hme, Bool.false_eq_true, if_false] at h
        exact Message.walked_wellFormed env v (hwf.1 hme) w h
    · exact Message.walkedList_wellFormed env rest hwf.2 w h

end

theorem Message.wellFormed_fields (env : Env) :
    ∀ (m : Message), m.WellFormed env →
      (∀ f ∈ m.Fields, f.WellFormed env) ∧
      ∀ o ∈ m.Oneofs, ∀ f ∈ o.Fields, f ∈ m.Fields ∧ f.Oneof.isSome = true
  | .mk goIdent b fields oneofs messages, hwf => by
    simp only [Message.WellFormed] at hwf
    refine ⟨hwf.1, ?_⟩
    intro o ho f hf
    have h1 : f ∈ oneofs.flatMap Oneof.Fields := List.mem_flatMap.mpr ⟨o, ho, hf⟩
    simpa using hwf.2.1.subset h1

theorem tpl_declares (d : SetterTemplate) :
    declaresMethod d.MessageName ("Set" ++ d.FieldName) (ExecuteTemplate tpl d) :=
  ⟨"in " ++ d.FieldType ++ " )\x7b\n\tx." ++ d.FieldName ++ " = in\n\x7d\n\n", by
    simp only [ExecuteTemplate, tpl, String.append_assoc]
    rfl⟩

theorem appendArrayTpl_declares (d : SetterTemplate) :
    declaresMethod d.MessageName ("Append" ++ d.FieldName)
      (ExecuteTemplate appendArrayTpl d) :=
  ⟨"in " ++ d.FieldType ++ " ) \x7b\n\tx." ++ d.FieldName ++ " = append(x." ++ d.FieldName ++
      ", in...)\n\x7d\n\n", by
    simp only [ExecuteTemplate, appendArrayTpl, String.append_assoc]
    rfl⟩

theorem oneofTpl_declares (d : OneOfSetterTemplate) :
    declaresMethod d.MessageName ("Set" ++ d.FieldName) (ExecuteTemplate oneofTpl d) :=
  ⟨"in " ++ d.FieldType ++ " ) \x7b\n\tx." ++ d.StructFieldName ++ " = " ++ d.InputWrapperName ++
      "\x7b " ++ d.FieldName ++ ":in \x7d\n\x7d\n\n", by
    simp only [ExecuteTemplate, oneofTpl, String.append_assoc]
    rfl⟩

theorem mapSetTpl_declares (d : MapSetterTemplate) :
    declaresMethod d.MessageName ("Set" ++ d.FieldName ++ "Key") (ExecuteTemplate mapSetTpl d) :=
  ⟨"key " ++ d.KeyType ++ ", val " ++ d.ValueType ++ " )\x7b\n\tx." ++ d.FieldName ++
      "[key] = val\n\x7d\n\n", by
    simp only [ExecuteTemplate, mapSetTpl, String.append_assoc]
    rfl⟩
theorem forall2_flatMap {α β γ : Type} (R : β → γ → Prop) (f : α → List β) (h : α → List γ)
    (xs : List α) (hx : ∀ x ∈ xs, List.Forall₂ R (f x) (h x)) :
    List.Forall₂ R (xs.flatMap f) (xs.flatMap h) := by
  induction xs with
  | nil => exact List.Forall₂.nil
  | cons x rest ih =>
    simp only [List.flatMap_cons]
    exact List.rel_append (hx x (List.mem_cons_self x rest))
      (ih (fun y hy => hx y (List.mem_cons_of_mem x hy)))

theorem forall2_mem_left {β γ : Type} (R : β → γ → Prop) (l1 : List β) (l2 : List γ)
    (h : List.Forall₂ R l1 l2) : ∀ a ∈ l1, ∃ b ∈ l2, R a b := by
  induction h with
  | nil => intro a ha; cases ha
  | cons hab _ ih =>
    intro a ha
    rcases List.mem_cons.mp ha with rfl | hr
    · exact ⟨_, List.mem_cons_self _ _, hab⟩
    · obtain ⟨b, hb, hR⟩ := ih a hr
      exact ⟨b, List.mem_cons_of_mem _ hb, hR⟩

/-- Item by item, what the two loops print for a well-formed message declares
the methods `ownMethodNames` lists, on the message itself when the parent of
every field is the message that holds it. -/
theorem ownItems_declare (env : Env) (ty : Field → String × Bool) (w : Message)
    (hwf : w.WellFormed env)
    (hparent : ∀ f ∈ w.Fields, (env f.Parent).GoIdent.GoName = w.GoIdent.GoName) :
    List.Forall₂ (fun e n => declaresMethod w.GoIdent.GoName n e)
      (ownItems env ty w) (ownMethodNames w) := by
  obtain ⟨hfields, hmem⟩ := w.wellFormed_fields env hwf
  unfold ownItems ownMethodNames
  refine List.rel_append ?_ ?_
  · apply forall2_flatMap
    intro o ho
    apply forall2_flatMap
    intro f hf
    unfold oneofItems
    cases hopt : f.Desc.HasOptionalKeyword with
    | true => exact List.Forall₂.nil
    | false =>
      simp only [Bool.false_eq_true, if_false]
      refine List.Forall₂.cons ?_ List.Forall₂.nil
      have h1 := oneofTpl_declares (oneofInfo env (ty f).1 f)
      have h2 : (oneofInfo env (ty f).1 f).MessageName = w.GoIdent.GoName :=
        hparent f (hmem o ho f hf).1
      have h3 : (oneofInfo env (ty f).1 f).FieldName = f.GoName := rfl
      rw [h2, h3] at h1
      unfold oneofSetter
      exact h1
  · apply forall2_flatMap
    intro f hf
    unfold fieldItems
    cases hcase : f.isOneofCase with
    | true => exact List.Forall₂.nil
    | false =>
      simp only [Bool.false_eq_true, if_false, fieldMethodNames, hcase]
      refine List.Forall₂.cons ?_ ?_
      · unfold plainSetter
        exact tpl_declares
          { MessageName := w.GoIdent.GoName, FieldName := f.GoName,
            FieldType := paramType (ty f) }
      obtain ⟨hsing, hlist, hmap⟩ :=
        fieldExtras_wellFormed env w.GoIdent.GoName ty f (hfields f hf)
      cases hlab : f.Desc.label with
      | singular =>
        rw [hsing hlab]
        simp [FieldDescriptor.IsList, FieldDescriptor.IsMap, hlab]
      | list =>
        rw [hlist hlab]
        simp only [FieldDescriptor.IsList, FieldDescriptor.IsMap, hlab, beq_self_eq_true,
          if_true]
        exact List.Forall₂.cons
          (appendArrayTpl_declares
            { MessageName := w.GoIdent.GoName, FieldName := f.GoName,
              FieldType := stringsReplace1 (paramType (ty f)) "[]" "..." })
          List.Forall₂.nil
      | map =>
        obtain ⟨m, k, v, _, _, hex⟩ := hmap hlab
        rw [hex]
        simp only [FieldDescriptor.IsList, FieldDescriptor.IsMap, hlab, beq_self_eq_true,
          if_true]
        exact List.Forall₂.cons
          (mapSetTpl_declares
            { MessageName := w.GoIdent.GoName, FieldName := f.GoName,
              KeyType := (ty k).1, ValueType := (ty v).1 })
          List.Forall₂.nil

/-! ## Claims on receivers -/

/-- C16: on a well-formed message that is not a map entry and in which the
parent of every field is the message that holds it, every method the walker
prints has as receiver a visited message that is not a map entry; a nested
message that is a map entry is skipped by the first loop. -/
theorem generateMessageSetters_receivers (env : Env) (g : GeneratedFile) (fuel : Nat)
    (message : Message) (hwf : message.WellFormed env) (hroot : message.IsMapEntry = false)
    (hparent : ∀ w ∈ message.walked, ∀ f ∈ w.Fields,
      (env f.Parent).GoIdent.GoName = w.GoIdent.GoName) :
    (∃ items, generateMessageSetters env (fuel + 2) g message = .ok (g.emit items) ∧
      ∀ e ∈ items, ∃ w ∈ message.walked, w.IsMapEntry = false ∧
        ∃ name, declaresMethod w.GoIdent.GoName name e) ∧
    (∀ v ∈ message.walked, v.IsMapEntry = false) ∧
    (∀ (v : Message) (rest : List Message) (g1 : GeneratedFile), v.IsMapEntry = true →
      generateNested env (fuel + 2) g1 (v :: rest) = generateNested env (fuel + 2) g1 rest) := by
  have hne : ∀ w ∈ message.walked, w.IsMapEntry = false := by
    intro w hw
    rcases message.walked_not_entry w hw with rfl | h
    · exact hroot
    · exact h
  refine ⟨⟨_, generateMessageSetters_emit env g fuel message hwf g rfl, ?_⟩, hne, ?_⟩
  · intro e he
    rw [messageItems_eq_walked] at he
    obtain ⟨w, hw, hew⟩ := List.mem_flatMap.mp he
    obtain ⟨n, _, hn⟩ := forall2_mem_left _ _ _
      (ownItems_declare env _ w (message.walked_wellFormed env hwf w hw) (hparent w hw)) e hew
    exact ⟨w, hw, hne w hw, n, hn⟩
  · intro v rest g1 hme
    simp [generateNested, hme]
/-- In the example every field of the visited message has it as parent. -/
theorem Sample.sample_parents :
    ∀ w ∈ Sample.sample.walked, ∀ f ∈ w.Fields,
      (Sample.env f.Parent).GoIdent.GoName = w.GoIdent.GoName := by
  intro w hw
  have hw2 : w = Sample.sample := by
    simpa [Sample.sample, Message.walked, Message.walkedList, Sample.attrsEntry,
      Message.IsMapEntry] using hw
  subst hw2
  decide

/-- Witness of C16 on the example message, whose nested map entry is skipped. -/
theorem generateMessageSetters_receivers_witness :
    Sample.attrsEntry ∈ Sample.sample.Messages ∧ Sample.attrsEntry.IsMapEntry = true ∧
    ∃ items, generateMessageSetters Sample.env 2 Sample.newFile Sample.sample =
        .ok (Sample.newFile.emit items) ∧
      ∀ e ∈ items, ∃ w ∈ Sample.sample.walked, w.IsMapEntry = false ∧
        ∃ name, declaresMethod w.GoIdent.GoName name e :=
  ⟨by simp [Sample.sample, Message.Messages], rfl,
    (generateMessageSetters_receivers Sample.env Sample.newFile 0 Sample.sample
      Sample.sample_wellFormed rfl Sample.sample_parents).1⟩

/-! ## Claims on the output units -/

/-- C17: the output units of a run are, in order, one per file that is flagged
for generation and has a top-level message, named by the generated-filename
prefix of the file followed by `.pb.setters.go`; the other files have none.
The names hold for every run that returns, and on well-formed messages the run
returns. -/
theorem main_output_units (env : Env) (fuel : Nat) (gen : Plugin) :
    (∀ outs, main env fuel gen = .ok outs →
      outs.map Prod.fst =
        (gen.Files.filter File.eligible).map
          (fun f => f.GeneratedFilenamePrefix ++ ".pb.setters.go")) ∧
    ((∀ file ∈ gen.Files, file.eligible = true →
        ∀ message ∈ file.Messages, message.WellFormed env) →
      main env (fuel + 2) gen =
        .ok ((gen.Files.filter File.eligible).map
          (fun f => (f.GeneratedFilenamePrefix ++ ".pb.setters.go",
            fileOutput env (fuel + 2) gen f)))) ∧
    (∀ file : File, file.eligible = true ↔ (file.Generate = true ∧ file.Messages ≠ [])) := by
  refine ⟨?_, ?_, ?_⟩
  · intro outs h
    have := forRange_fileBody_names env fuel gen gen.Files [] outs h
    simpa [File.outputName] using this
  · intro hwf
    have := forRange_fileBody_ok env fuel gen gen.Files hwf []
    simpa [main, File.outputName] using this
  · intro file
    unfold File.eligible
    cases hg : file.Generate <;> cases hm : file.Messages <;> simp

/-- Witness of C17 on the library run: of an unflagged file, a flagged file with
messages and a flagged file without messages, only the second has a unit. -/
theorem main_output_units_witness :
    Library.gen.Files.map File.eligible = [false, true, false] ∧
    (main Library.env 2 Library.gen).map (fun outs => outs.map Prod.fst) =
      .ok ["library.pb.setters.go"] :=
  ⟨rfl,
    (congrArg (fun r => r.map (fun outs => outs.map Prod.fst))
      ((main_output_units Library.env 0 Library.gen).2.1
        (fun file hf hel message hm => (Library.gen_wellFormed file hf hel message hm).1))).trans
      rfl⟩

/-! ## Claims on parameter types -/

/-- Only the leading `[]` of a slice type is replaced. -/
theorem stringsReplace1_slice (T : String) :
    stringsReplace1 ("[]" ++ T) "[]" "..." = "..." ++ T := by
  apply String.ext
  simp only [stringsReplace1, String.data_append]
  simp [replaceFirst, List.isPrefixOf]

/-- C18: for a non-weak list field that gets a plain setter, whose resolved
type is `"[]" ++ B`, the field loop prints the plain setter with that type and
the append mutator with the parameter type `"..." ++ B`: for a list of bytes
`...[]byte`, for a list of messages `M` of the same package `...*M`. -/
theorem appendArrayTpl_param_type (env : Env) (g : GeneratedFile) (fuel : Nat)
    (messageName : String) (field : Field)
    (hweak : field.Desc.IsWeak = false) (hlist : field.Desc.IsList = true)
    (htyped : field.Typed) (hcase : field.isOneofCase = false) :
    ∃ B p, baseGoType env g field = .ok (B, p) ∧
      fieldGoType env g (fuel + 1) field = .ok ("[]" ++ B, false) ∧
      fieldBody env (fuel + 1) messageName g field =
        .ok (g.emit
          [ExecuteTemplate tpl
            { MessageName := messageName, FieldName := field.GoName,
              FieldType := "[]" ++ B },
           ExecuteTemplate appendArrayTpl
            { MessageName := messageName, FieldName := field.GoName,
              FieldType := "..." ++ B }]) ∧
      (field.Desc.Kind = Kind.BytesKind → "..." ++ B = "...[]byte") ∧
      (∀ m, field.Desc.Kind = Kind.MessageKind → field.Message = some m →
        (env m).GoIdent.GoImportPath = (env field.Parent).GoIdent.GoImportPath →
        "..." ++ B = "...*" ++ (env m).GoIdent.GoName) := by
  obtain ⟨B, p, hB⟩ := baseGoType_ok_of_typed env g field htyped
  have hty : fieldGoType env g (fuel + 1) field = .ok ("[]" ++ B, false) := by
    simp [fieldGoType, hweak, hB, hlist]
  have hcase2 : (field.Oneof.isSome && !field.Desc.HasOptionalKeyword) = false := hcase
  have hmap : field.Desc.IsMap = false := by
    simp only [FieldDescriptor.IsMap, FieldDescriptor.IsList] at hlist ⊢
    cases hlab : field.Desc.label <;> simp_all
  refine ⟨B, p, hB, hty, ?_, ?_, ?_⟩
  · unfold fieldBody
    rw [hcase2, hty]
    simp [hlist, hmap, P_eq_emit, emit_emit, stringsReplace1_slice]
  · intro hk
    have hB2 : baseGoType env g field = .ok ("[]byte", false) := by simp [baseGoType, hk]
    rw [hB] at hB2
    cases hB2
    rfl
  · intro m hk hm hpath
    have hB2 : baseGoType env g field = .ok ("*" ++ (env m).GoIdent.GoName, false) := by
      simp [baseGoType, hk, hm, deref, hpath]
    rw [hB] at hB2
    cases hB2
    rw [← String.append_assoc]
    rfl

/-- Witness of C18 on the field `repeated bytes tags`. -/
theorem appendArrayTpl_param_type_witness :
    fieldBody Sample.env 1 "Sample" Sample.newFile Sample.tags =
      .ok (Sample.newFile.emit
        ["\n\nfunc (x *Sample ) SetTags(in [][]byte )\x7b\n\tx.Tags = in\n\x7d\n\n",
         "\n\nfunc (x *Sample ) AppendTags(in ...[]byte ) \x7b\n\tx.Tags = append(x.Tags, in...)\n\x7d\n\n"]) :=
  by
    obtain ⟨B, p, hB, _, hbody, _, _⟩ := appendArrayTpl_param_type Sample.env Sample.newFile 0
      "Sample" Sample.tags (by decide) (by decide) (by decide) (by decide)
    have hB2 : baseGoType Sample.env Sample.newFile Sample.tags = .ok ("[]byte", false) := rfl
    rw [hB] at hB2
    cases hB2
    exact hbody

/-- C19: for a well-formed oneof member without the `optional` keyword the
oneof loop prints the oneof-case setter whose parameter type is the type name
`fieldGoType` returns, the pointer flag being dropped (a member of kind int32
gives `int32`, of kind string `string`, also with presence), and whose receiver
is the parent of the field, the message being walked. -/
theorem oneofTpl_param_type (env : Env) (g : GeneratedFile) (fuel : Nat) (field : Field)
    (o : OneofRef) (message : Message)
    (hone : field.Oneof = some o) (hopt : field.Desc.HasOptionalKeyword = false)
    (hwf : field.WellFormed env)
    (hparent : (env field.Parent).GoIdent = message.GoIdent) :
    ∃ goType p, fieldGoType env g (fuel + 2) field = .ok (goType, p) ∧
      oneofFieldBody env (fuel + 2) g field =
        .ok (g.P (ExecuteTemplate oneofTpl
          { MessageName := message.GoIdent.GoName, StructFieldName := o.GoName,
            InputWrapperName := "&" ++ field.GoIdent.GoName, FieldName := field.GoName,
            FieldType := goType })) ∧
      declaresMethod message.GoIdent.GoName ("Set" ++ field.GoName)
        (ExecuteTemplate oneofTpl
          { MessageName := message.GoIdent.GoName, StructFieldName := o.GoName,
            InputWrapperName := "&" ++ field.GoIdent.GoName, FieldName := field.GoName,
            FieldType := goType }) ∧
      (field.Desc.IsWeak = false → field.Desc.label = Label.singular →
        field.Desc.Kind = Kind.Int32Kind → goType = "int32") ∧
      (field.Desc.IsWeak = false → field.Desc.label = Label.singular →
        field.Desc.Kind = Kind.StringKind → goType = "string") := by
  obtain ⟨⟨goType, p⟩, hty⟩ := fieldGoType_ok_of_wellFormed env g fuel field hwf
  refine ⟨goType, p, hty, ?_, ?_, ?_, ?_⟩
  · simp [oneofFieldBody, hopt, hty, deref, hone, hparent]
  · exact oneofTpl_declares
      { MessageName := message.GoIdent.GoName, StructFieldName := o.GoName,
        InputWrapperName := "&" ++ field.GoIdent.GoName, FieldName := field.GoName,
        FieldType := goType }
  · intro hweak hsing hk
    have h2 : fieldGoType env g (fuel + 2) field = .ok ("int32", field.Desc.HasPresence) := by
      simp [fieldGoType, hweak, baseGoType, hk, FieldDescriptor.IsList, FieldDescriptor.IsMap,
        hsing]
    rw [hty] at h2
    cases h2
    rfl
  · intro hweak hsing hk
    have h2 : fieldGoType env g (fuel + 2) field = .ok ("string", field.Desc.HasPresence) := by
      simp [fieldGoType, hweak, baseGoType, hk, FieldDescriptor.IsList, FieldDescriptor.IsMap,
        hsing]
    rw [hty] at h2
    cases h2
    rfl

/-- Witness of C19 on the member `int32 a` of the oneof `choice`, which has
presence. -/
theorem oneofTpl_param_type_witness :
    Sample.a.Desc.HasPresence = true ∧
    oneofFieldBody Sample.env 2 Sample.newFile Sample.a =
      .ok (Sample.newFile.P
        "\n\nfunc (x *Sample ) SetA(in int32 ) \x7b\n\tx.Choice = &Sample_A\x7b A:in \x7d\n\x7d\n\n") :=
  ⟨rfl, by
    obtain ⟨goType, p, _, hbody, _, hint, _⟩ := oneofTpl_param_type Sample.env Sample.newFile 0
      Sample.a ⟨"Choice"⟩ Sample.sample rfl rfl
      (Field.wellFormed_of_not_map _ _ (by decide) rfl) rfl
    have hg := hint rfl rfl rfl
    subst hg
    exact hbody⟩

/-! ## Lemmas on method names -/

theorem string_append_right_cancel (a b s : String) (h : a ++ s = b ++ s) : a = b := by
  have h2 : (a ++ s).data = (b ++ s).data := by rw [h]
  simp only [String.data_append] at h2
  exact String.ext (List.append_cancel_right h2)

theorem append_ne_set (a b : String) : "Append" ++ a ≠ "Set" ++ b := by
  intro h
  have h2 : ("Append" ++ a).data = ("Set" ++ b).data := by rw [h]
  simp [String.data_append] at h2

theorem set_inj (a b : String) (h : "Set" ++ a = "Set" ++ b) : a = b :=
  string_append_left_cancel _ _ _ h

/-- Up to order, the method names of the two loops are those of the fields. -/
theorem own_names_perm (fields : List Field) :
    List.Perm
      ((fields.filter (fun f => f.Oneof.isSome)).flatMap
          (fun f => if f.Desc.HasOptionalKeyword then [] else ["Set" ++ f.GoName]) ++
        fields.flatMap (fun f => if f.isOneofCase then [] else fieldMethodNames f))
      (fields.flatMap fieldMethodNames) := by
  induction fields with
  | nil => simp
  | cons f fs ih =>
    cases hsome : f.Oneof.isSome with
    | true =>
      cases hopt : f.Desc.HasOptionalKeyword with
      | false =>
        have hcase : f.isOneofCase = true := by simp [Field.isOneofCase, hsome, hopt]
        simp only [List.filter_cons, hsome, if_true, List.flatMap_cons, hopt, hcase,
          fieldMethodNames, Bool.false_eq_true, if_false, List.nil_append, List.cons_append,
          List.singleton_append]
        exact List.Perm.cons _ ih
      | true =>
        have hcase : f.isOneofCase = false := by simp [Field.isOneofCase, hsome, hopt]
        simp only [List.filter_cons, hsome, if_true, List.flatMap_cons, hopt, hcase,
          Bool.false_eq_true, if_false, List.nil_append]
        refine (List.perm_append_comm_assoc _ _ _).trans ?_
        exact List.Perm.append_left _ ih
    | false =>
      have hcase : f.isOneofCase = false := by simp [Field.isOneofCase, hsome]
      simp only [List.filter_cons, hsome, List.flatMap_cons, hcase, Bool.false_eq_true,
        if_false]
      refine (List.perm_append_comm_assoc _ _ _).trans ?_
      exact List.Perm.append_left _ ih

/-- The names a field contributes, spelled out. -/
theorem mem_fieldMethodNames (f : Field) (n : String) (h : n ∈ fieldMethodNames f) :
    n = "Set" ++ f.GoName ∨
    (n = "Append" ++ f.GoName ∧ f.Desc.IsList = true ∧ f.isOneofCase = false) ∨
    (n = "Set" ++ f.GoName ++ "Key" ∧ f.Desc.IsMap = true ∧ f.isOneofCase = false) := by
  unfold fieldMethodNames at h
  rcases List.mem_cons.mp h with h | h
  · exact Or.inl h
  · cases hcase : f.isOneofCase with
    | true => simp [hcase] at h
    | false =>
      simp only [hcase, Bool.false_eq_true, if_false, List.mem_append] at h
      rcases h with h | h
      · cases hl : f.Desc.IsList with
        | false => simp [hl] at h
        | true =>
          simp only [hl, if_true, List.mem_singleton] at h
          exact Or.inr (Or.inl ⟨h, rfl, rfl⟩)
      · cases hm : f.Desc.IsMap with
        | false => simp [hm] at h
        | true =>
          simp only [hm, if_true, List.mem_singleton] at h
          exact Or.inr (Or.inr ⟨h, rfl, rfl⟩)
theorem setKey_eq_set (a b : String) (h : "Set" ++ a ++ "Key" = "Set" ++ b) :
    b = a ++ "Key" := by
  rw [String.append_assoc] at h
  exact (set_inj _ _ h).symm

theorem append_ne_setKey (a b : String) : "Append" ++ a ≠ "Set" ++ b ++ "Key" := by
  rw [String.append_assoc]
  exact append_ne_set _ _

/-- The method names of the fields of a message are pairwise distinct when the
Go names of the fields are and no field is called like a map field with `Key`
added. -/
theorem fieldMethodNames_nodup (fields : List Field)
    (hnames : (fields.map Field.GoName).Nodup)
    (hclash : ∀ f ∈ fields, ∀ h ∈ fields, h.Desc.IsMap = true → h.isOneofCase = false →
      f.GoName ≠ h.GoName ++ "Key") :
    (fields.flatMap fieldMethodNames).Nodup := by
  rw [List.nodup_flatMap]
  constructor
  · intro f hf
    unfold fieldMethodNames
    cases hcase : f.isOneofCase with
    | true => simp
    | false =>
      cases hlab : f.Desc.label with
      | singular => simp [FieldDescriptor.IsList, FieldDescriptor.IsMap, hlab]
      | list =>
        have hl : f.Desc.IsList = true := by simp [FieldDescriptor.IsList, hlab]
        have hm : f.Desc.IsMap = false := by simp [FieldDescriptor.IsMap, hlab]
        simp only [hl, hm, if_true, Bool.false_eq_true, if_false, List.append_nil,
          List.nodup_cons, List.mem_singleton, List.not_mem_nil, not_false_eq_true,
          List.nodup_nil, and_true]
        exact fun h => append_ne_set _ _ h.symm
      | map =>
        have hl : f.Desc.IsList = false := by simp [FieldDescriptor.IsList, hlab]
        have hm : f.Desc.IsMap = true := by simp [FieldDescriptor.IsMap, hlab]
        simp only [hl, hm, if_true, Bool.false_eq_true, if_false, List.nil_append,
          List.nodup_cons, List.mem_singleton, List.not_mem_nil, not_false_eq_true,
          List.nodup_nil, and_true]
        intro h
        exact hclash f hf f hf hm hcase (setKey_eq_set _ _ h.symm)
  · have hp : List.Pairwise (fun a b : Field => a.GoName ≠ b.GoName) fields :=
      List.pairwise_map.mp hnames
    refine List.Pairwise.imp_of_mem ?_ hp
    intro a b ha hb hab n hna hnb
    rcases mem_fieldMethodNames a n hna with h1 | ⟨h1, _, _⟩ | ⟨h1, hma, hca⟩ <;>
      rcases mem_fieldMethodNames b n hnb with h2 | ⟨h2, _, _⟩ | ⟨h2, hmb, hcb⟩
    · exact hab (set_inj _ _ (h1.symm.trans h2))
    · exact append_ne_set _ _ (h2.symm.trans h1)
    · exact hclash a ha b hb hmb hcb (setKey_eq_set _ _ (h2.symm.trans h1))
    · exact append_ne_set _ _ (h1.symm.trans h2)
    · exact hab (string_append_left_cancel _ _ _ (h1.symm.trans h2))
    · exact append_ne_setKey _ _ (h1.symm.trans h2)
    · exact hclash b hb a ha hma hca (setKey_eq_set _ _ (h1.symm.trans h2))
    · exact append_ne_setKey _ _ (h2.symm.trans h1)
    · have h3 : "Set" ++ a.GoName ++ "Key" = "Set" ++ b.GoName ++ "Key" := h1.symm.trans h2
      exact hab (set_inj _ _ (string_append_right_cancel _ _ _ h3))

/-- The method names of the two loops are pairwise distinct under the same
conditions. -/
theorem ownMethodNames_nodup (env : Env) (message : Message) (hwf : message.WellFormed env)
    (hnames : (message.Fields.map Field.GoName).Nodup)
    (hclash : ∀ f ∈ message.Fields, ∀ h ∈ message.Fields, h.Desc.IsMap = true →
      h.isOneofCase = false → f.GoName ≠ h.GoName ++ "Key") :
    (ownMethodNames message).Nodup := by
  obtain ⟨goIdent, isMapEntry, fields, oneofs, messages⟩ := message
  simp only [Message.WellFormed] at hwf
  simp only [Message.Fields] at hnames hclash
  have hperm : List.Perm (ownMethodNames (Message.mk goIdent isMapEntry fields oneofs messages))
      (fields.flatMap fieldMethodNames) := by
    simp only [ownMethodNames, Message.Oneofs, Message.Fields]
    rw [← List.flatMap_assoc]
    exact (List.Perm.append_right _ (List.Perm.flatMap_right _ hwf.2.1)).trans
      (own_names_perm fields)
  exact hperm.nodup_iff.mpr (fieldMethodNames_nodup fields hnames hclash)
/-! ## Claims on method names -/

/-- C20, the claim as stated fails: the fields `foo` (a map) and `foo_key` have
the distinct Go names `Foo` and `FooKey`, and the walker prints two different
methods called `SetFooKey` on the receiver `Clash`: the map-entry setter of
`foo` and the plain setter of `foo_key`. -/
theorem clash_same_method_name :
    (Clash.clash.Fields.map Field.GoName).Nodup ∧
    (generateMessageSetters Clash.env 2 Sample.newFile Clash.clash).map (fun g => g.buf) =
      .ok ["\n\nfunc (x *Clash ) SetFoo(in map[string]int32 )\x7b\n\tx.Foo = in\n\x7d\n\n",
        "\n\nfunc (x *Clash ) SetFooKey(key string, val int32 )\x7b\n\tx.Foo[key] = val\n\x7d\n\n",
        "\n\nfunc (x *Clash ) SetFooKey(in string )\x7b\n\tx.FooKey = in\n\x7d\n\n"] ∧
    declaresMethod "Clash" "SetFooKey"
      "\n\nfunc (x *Clash ) SetFooKey(key string, val int32 )\x7b\n\tx.Foo[key] = val\n\x7d\n\n" ∧
    declaresMethod "Clash" "SetFooKey"
      "\n\nfunc (x *Clash ) SetFooKey(in string )\x7b\n\tx.FooKey = in\n\x7d\n\n" ∧
    ¬ (ownMethodNames Clash.clash).Nodup :=
  ⟨by decide, rfl, ⟨"key string, val int32 )\x7b\n\tx.Foo[key] = val\n\x7d\n\n", rfl⟩,
    ⟨"in string )\x7b\n\tx.FooKey = in\n\x7d\n\n", rfl⟩, by decide⟩

/-- C20, amended: for a well-formed message whose fields have it as parent, have
pairwise distinct Go names and of which none is called like a map field of the
message with `Key` added, the methods the walker prints for the message itself
have pairwise distinct names. -/
theorem generateMessageSetters_distinct_names (env : Env) (g : GeneratedFile) (fuel : Nat)
    (message : Message) (hwf : message.WellFormed env)
    (hparent : ∀ f ∈ message.Fields, (env f.Parent).GoIdent.GoName = message.GoIdent.GoName)
    (hnames : (message.Fields.map Field.GoName).Nodup)
    (hclash : ∀ f ∈ message.Fields, ∀ h ∈ message.Fields, h.Desc.IsMap = true →
      h.isOneofCase = false → f.GoName ≠ h.GoName ++ "Key") :
    ∃ nested,
      generateMessageSetters env (fuel + 2) g message =
        .ok (g.emit (nested ++ ownItems env (resolvedType env g (fuel + 2)) message)) ∧
      List.Forall₂ (fun e n => declaresMethod message.GoIdent.GoName n e)
        (ownItems env (resolvedType env g (fuel + 2)) message) (ownMethodNames message) ∧
      (ownMethodNames message).Nodup := by
  refine ⟨(Message.walkedList message.Messages).flatMap
      (ownItems env (resolvedType env g (fuel + 2))), ?_,
    ownItems_declare env _ message hwf hparent,
    ownMethodNames_nodup env message hwf hnames hclash⟩
  rw [generateMessageSetters_emit env g fuel message hwf g rfl, messageItems_eq_walked,
    message.walked_eq]
  simp

/-- Witness of C20 on the example message. -/
theorem generateMessageSetters_distinct_names_witness :
    ownMethodNames Sample.sample =
      ["SetA", "SetB", "SetName", "SetCount", "SetTags", "AppendTags", "SetAttrs",
        "SetAttrsKey"] ∧
    (ownMethodNames Sample.sample).Nodup :=
  ⟨rfl,
    match generateMessageSetters_distinct_names Sample.env Sample.newFile 0 Sample.sample
      Sample.sample_wellFormed (Sample.sample_parents Sample.sample Sample.sample.mem_walked_self)
      (by decide) (by decide) with
    | ⟨_, _, _, h⟩ => h⟩

/-! ## Lemmas on termination with nested map entries -/

/-- One more call resolves a field, or panics, when the budget that is left
does so for the fields of its map entry. -/
theorem fieldGoType_step_ne_fuelExhausted (env : Env) (g : GeneratedFile) (fuel : Nat)
    (field : Field)
    (hentry : field.Desc.IsMap = true → ∀ m, field.Message = some m →
      ∀ k ∈ (env m).Fields, fieldGoType env g fuel k ≠ .error Failure.fuelExhausted) :
    fieldGoType env g (fuel + 1) field ≠ .error Failure.fuelExhausted := by
  cases hmap : field.Desc.IsMap with
  | false => exact fieldGoType_not_map_ne_fuelExhausted env g fuel field hmap
  | true =>
    intro h
    rw [fieldGoType] at h
    split at h
    · cases h
    · cases hb : baseGoType env g field with
      | error e =>
        simp only [hb] at h
        have := baseGoType_error env g field e hb
        cases h
        cases this
      | ok r =>
        obtain ⟨goType, pointer⟩ := r
        simp only [hb, hmap, if_true] at h
        split at h
        · cases h
        · cases hd : deref field.Message with
          | error e =>
            simp only [hd] at h
            have := deref_error _ e hd
            cases h
            cases this
          | ok m =>
            have hm : field.Message = some m := by
              cases hfm : field.Message with
              | none => simp [hfm, deref] at hd
              | some m2 => simp only [hfm, deref] at hd; cases hd; rfl
            simp only [hd] at h
            cases hi0 : index (env m).Fields 0 with
            | error e =>
              simp only [hi0] at h
              have := index_error _ _ e hi0
              cases h
              cases this
            | ok k =>
              simp only [hi0] at h
              have hkne := hentry hmap m hm k (index_ok_mem _ _ _ hi0)
              cases hk : fieldGoType env g fuel k with
              | error e =>
                simp only [hk] at h
                cases h
                exact hkne hk
              | ok kr =>
                obtain ⟨keyType, kp⟩ := kr
                simp only [hk] at h
                cases hi1 : index (env m).Fields 1 with
                | error e =>
                  simp only [hi1] at h
                  have := index_error _ _ e hi1
                  cases h
                  cases this
                | ok v =>
                  simp only [hi1] at h
                  have hvne := hentry hmap m hm v (index_ok_mem _ _ _ hi1)
                  cases hv : fieldGoType env g fuel v with
                  | error e =>
                    simp only [hv] at h
                    cases h
                    exact hvne hv
                  | ok vr =>
                    obtain ⟨valType, vp⟩ := vr
                    simp only [hv] at h
                    cases h

/-- A field of map depth at most `n` is resolved, or panics, within `n + 1`
nested calls. -/
theorem fieldGoType_depth_ne_fuelExhausted (env : Env) (g : GeneratedFile) :
    ∀ (n fuel : Nat) (field : Field), field.mapDepthLe env n →
      fieldGoType env g (fuel + n + 1) field ≠ .error Failure.fuelExhausted := by
  intro n
  induction n with
  | zero =>
    intro fuel field h
    exact fieldGoType_not_map_ne_fuelExhausted env g fuel field h
  | succ n ih =>
    intro fuel field h
    apply fieldGoType_step_ne_fuelExhausted env g (fuel + (n + 1)) field
    intro hmap m hm k hk
    exact ih fuel k (h hmap m hm k hk)

theorem Field.mapDepthLe_succ (env : Env) :
    ∀ (n : Nat) (field : Field), field.mapDepthLe env n → field.mapDepthLe env (n + 1) := by
  intro n
  induction n with
  | zero =>
    intro field h hmap
    have h0 : field.Desc.IsMap = false := h
    rw [h0] at hmap
    cases hmap
  | succ n ih =>
    intro field h hmap m hm k hk
    exact ih k (h hmap m hm k hk)

/-- The fields of the map entry of a field of depth at most `n` are resolved,
or panic, at the budget `n + 1`. -/
theorem entry_depth_ne_fuelExhausted (env : Env) (g : GeneratedFile) (n fuel : Nat)
    (field : Field) (h : field.mapDepthLe env n) (hmap : field.Desc.IsMap = true) (m : MsgId)
    (hm : field.Message = some m) (k : Field) (hk : k ∈ (env m).Fields) :
    fieldGoType env g (fuel + n + 1) k ≠ .error Failure.fuelExhausted := by
  cases n with
  | zero =>
    have h0 : field.Desc.IsMap = false := h
    rw [h0] at hmap
    cases hmap
  | succ n =>
    exact fieldGoType_depth_ne_fuelExhausted env g (n + 1) fuel k
      (Field.mapDepthLe_succ env n k (h hmap m hm k hk))

theorem oneofFieldBody_depth_ne_fuelExhausted (env : Env) (g : GeneratedFile) (n fuel : Nat)
    (field : Field) (hdepth : field.mapDepthLe env n) :
    oneofFieldBody env (fuel + n + 1) g field ≠ .error Failure.fuelExhausted := by
  intro h
  unfold oneofFieldBody at h
  split at h
  · cases h
  · cases hty : fieldGoType env g (fuel + n + 1) field with
    | error e =>
      simp only [hty] at h
      cases h
      exact fieldGoType_depth_ne_fuelExhausted env g n fuel field hdepth hty
    | ok r =>
      obtain ⟨goType, p⟩ := r
      simp only [hty] at h
      cases hd : deref field.Oneof with
      | error e =>
        simp only [hd] at h
        have := deref_error _ e hd
        cases h
        cases this
      | ok o =>
        simp only [hd] at h
        cases h

theorem fieldBody_depth_ne_fuelExhausted (env : Env) (g : GeneratedFile) (n fuel : Nat)
    (messageName : String) (field : Field) (hdepth : field.mapDepthLe env n) :
    fieldBody env (fuel + n + 1) messageName g field ≠ .error Failure.fuelExhausted := by
  intro h
  unfold fieldBody at h
  split at h
  · cases h
  · cases hty : fieldGoType env g (fuel + n + 1) field with
    | error e =>
      simp only [hty] at h
      cases h
      exact fieldGoType_depth_ne_fuelExhausted env g n fuel field hdepth hty
    | ok r =>
      obtain ⟨goType, p⟩ := r
      simp only [hty] at h
      cases hmap : field.Desc.IsMap with
      | false =>
        simp only [hmap, Bool.false_eq_true, if_false] at h
        cases h
      | true =>
        have hl : field.Desc.IsList = false := by
          simp only [FieldDescriptor.IsMap, FieldDescriptor.IsList] at hmap ⊢
          cases hlab : field.Desc.label <;> simp_all
        simp only [hmap, hl, Bool.false_eq_true, if_false, if_true] at h
        cases hd : deref field.Message with
        | error e =>
          simp only [hd] at h
          have := deref_error _ e hd
          cases h
          cases this
        | ok m =>
          have hm : field.Message = some m := by
            cases hfm : field.Message with
            | none => simp [hfm, deref] at hd
            | some m2 => simp only [hfm, deref] at hd; cases hd; rfl
          simp only [hd] at h
          cases hi0 : index (env m).Fields 0 with
          | error e =>
            simp only [hi0] at h
            have := index_error _ _ e hi0
            cases h
            cases this
          | ok k =>
            simp only [hi0] at h
            split at h
            · rename_i e hk
              cases h
              exact entry_depth_ne_fuelExhausted env _ n fuel field hdepth hmap m hm k
                (index_ok_mem _ _ _ hi0) hk
            · cases hi1 : index (env m).Fields 1 with
              | error e =>
                simp only [hi1] at h
                have := index_error _ _ e hi1
                cases h
                cases this
              | ok v =>
                simp only [hi1] at h
                split at h
                · rename_i e hv
                  cases h
                  exact entry_depth_ne_fuelExhausted env _ n fuel field hdepth hmap m hm v
                    (index_ok_mem _ _ _ hi1) hv
                · cases h

/-- The walker returns or panics within the budget `n + 1` on every message
whose fields have map depth at most `n`. -/
theorem generateMessageSetters_depth_ne_fuelExhausted (env : Env) (g : GeneratedFile)
    (n fuel : Nat) (message : Message)
    (hdepth : ∀ w ∈ message.walked, ∀ f,
      (f ∈ w.Fields ∨ ∃ o ∈ w.Oneofs, f ∈ o.Fields) → f.mapDepthLe env n) :
    generateMessageSetters env (fuel + n + 1) g message ≠ .error Failure.fuelExhausted := by
  rw [generateMessageSetters_eq_forRange]
  apply forRange_ne_fuelExhausted
  intro g1 w hw
  unfold ownSetters
  cases hone : forRange (oneofBody env (fuel + n + 1)) g1 w.Oneofs with
  | error e =>
    intro he
    cases he
    refine forRange_ne_fuelExhausted (oneofBody env (fuel + n + 1)) w.Oneofs ?_ g1 hone
    intro g2 o ho
    unfold oneofBody
    apply forRange_ne_fuelExhausted
    intro g3 f hf
    exact oneofFieldBody_depth_ne_fuelExhausted env g3 n fuel f
      (hdepth w hw f (Or.inr ⟨o, ho, hf⟩))
  | ok g2 =>
    apply forRange_ne_fuelExhausted
    intro g3 f hf
    exact fieldBody_depth_ne_fuelExhausted env g3 n fuel _ f (hdepth w hw f (Or.inl hf))

/-- On the map field that is the value of its own map entry no budget suffices. -/
theorem Loop.fieldGoType_loop (g : GeneratedFile) :
    ∀ fuel, fieldGoType Loop.env g fuel Loop.loop = .error Failure.fuelExhausted := by
  intro fuel
  induction fuel with
  | zero => rfl
  | succ n ih =>
    have hw : Loop.loop.Desc.IsWeak = false := rfl
    have hb : baseGoType Loop.env g Loop.loop = .ok ("*Knot_LoopEntry", false) := rfl
    have hl : Loop.loop.Desc.IsList = false := rfl
    have hmap : Loop.loop.Desc.IsMap = true := rfl
    have hd : deref Loop.loop.Message = .ok 1 := rfl
    have hi0 : index (Loop.env 1).Fields 0 = .ok Sample.attrsKey := rfl
    have hi1 : index (Loop.env 1).Fields 1 = .ok Loop.loop := rfl
    rw [fieldGoType]
    simp only [hw, hb, hl, hmap, hd, hi0, hi1, ih, Bool.false_eq_true, if_false, if_true]
    cases n with
    | zero => rfl
    | succ k =>
      have hk : fieldGoType Loop.env g (k + 1) Sample.attrsKey = .ok ("string", false) := by
        simp [fieldGoType, baseGoType, Sample.attrsKey, FieldDescriptor.IsList,
          FieldDescriptor.IsMap]
      rw [hk]

/-- The walker never returns on the message that holds this field. -/
theorem Loop.generate_knot (g : GeneratedFile) (fuel : Nat) :
    generateMessageSetters Loop.env fuel g Loop.knot = .error Failure.fuelExhausted := by
  have h := Loop.fieldGoType_loop g fuel
  have hcase : (Loop.loop.Oneof.isSome && !Loop.loop.Desc.HasOptionalKeyword) = false := rfl
  have hfb : fieldBody Loop.env fuel "Knot" g Loop.loop = .error Failure.fuelExhausted := by
    unfold fieldBody
    rw [hcase, h]
    rfl
  simp only [generateMessageSetters, Loop.knot, generateNested, Loop.loopEntry,
    Message.IsMapEntry, if_true, forRange, hfb]
theorem Field.mapDepthLe_of_not_map (env : Env) (field : Field)
    (h : field.Desc.IsMap = false) : ∀ n, field.mapDepthLe env n
  | 0 => h
  | n + 1 => fun hmap => by rw [h] at hmap; cases hmap

/-- The fields of `Grid` have map depth at most two. -/
theorem Grid.grid_depth :
    ∀ w ∈ Grid.grid.walked, ∀ f,
      (f ∈ w.Fields ∨ ∃ o ∈ w.Oneofs, f ∈ o.Fields) → f.mapDepthLe Grid.env 2 := by
  intro w hw f hf
  have hw2 : w = Grid.grid := by
    simpa [Grid.grid, Message.walked, Message.walkedList, Grid.cellsEntry,
      Message.IsMapEntry] using hw
  subst hw2
  simp only [Grid.grid, Message.Fields, Message.Oneofs, List.mem_cons, List.mem_singleton,
    List.not_mem_nil, or_false, false_and, exists_false] at hf
  rcases hf with rfl | rfl
  · intro _ m hm k hk
    have hm1 : m = 1 := by
      have : Grid.cells.Message = some 1 := rfl
      rw [this] at hm
      exact (Option.some.inj hm).symm
    subst hm1
    have hk2 : k = Sample.attrsKey ∨ k = Grid.row := by
      simpa [Grid.env, Grid.cellsEntry, Message.Fields] using hk
    rcases hk2 with rfl | rfl
    · exact Field.mapDepthLe_of_not_map Grid.env Sample.attrsKey rfl 1
    · intro _ m2 hm2 k2 hk2
      have hm3 : m2 = 2 := by
        have : Grid.row.Message = some 2 := rfl
        rw [this] at hm2
        exact (Option.some.inj hm2).symm
      subst hm3
      have hk3 : k2 = Sample.attrsKey ∨ k2 = Sample.attrsValue := by
        simpa [Grid.env, Grid.rowEntry, Message.Fields] using hk2
      rcases hk3 with rfl | rfl
      · exact Field.mapDepthLe_of_not_map Grid.env Sample.attrsKey rfl 0
      · exact Field.mapDepthLe_of_not_map Grid.env Sample.attrsValue rfl 0
  · exact Field.mapDepthLe_of_not_map Grid.env Grid.parent rfl 2

/-- The fields of `Shelf` and `Shelf.Book` are not maps. -/
theorem Library.shelf_depth :
    ∀ w ∈ Library.shelfMessage.walked, ∀ f,
      (f ∈ w.Fields ∨ ∃ o ∈ w.Oneofs, f ∈ o.Fields) → f.mapDepthLe Library.env 0 := by
  intro w hw f hf
  simp only [Library.shelfMessage, Library.bookMessage, Message.walked, Message.walkedList,
    Message.IsMapEntry, Bool.false_eq_true, if_false, List.append_nil, List.nil_append,
    List.cons_append, List.mem_cons, List.mem_singleton, List.not_mem_nil, or_false] at hw
  rcases hw with rfl | rfl
  · simp only [Message.Fields, Message.Oneofs, List.mem_cons, List.mem_singleton,
      List.not_mem_nil, or_false, false_and, exists_false] at hf
    rcases hf with rfl | rfl | rfl <;> rfl
  · simp only [Message.Fields, Message.Oneofs, List.mem_cons, List.mem_singleton,
      List.not_mem_nil, or_false, false_and, exists_false] at hf
    subst hf
    rfl

/-! ## Claims on termination -/

/-- C14, the claim as stated fails: the value field of the map entry of the map
field `loop` is `loop` itself, and on it `fieldGoType` exhausts every budget, as
does the walker on the message `Knot` that holds the field: the recursion on
the fields of the map entry never ends. -/
theorem knot_never_returns :
    Loop.loop.Desc.IsMap = true ∧ Loop.loop.Message = some 1 ∧
    (Loop.env 1).Fields = [Sample.attrsKey, Loop.loop] ∧
    (¬ ∃ fuel, fieldGoType Loop.env Sample.newFile fuel Loop.loop ≠
      .error Failure.fuelExhausted) ∧
    (¬ ∃ fuel, generateMessageSetters Loop.env fuel Sample.newFile Loop.knot ≠
      .error Failure.fuelExhausted) :=
  ⟨rfl, rfl, rfl, fun ⟨fuel, h⟩ => h (Loop.fieldGoType_loop Sample.newFile fuel),
    fun ⟨fuel, h⟩ => h (Loop.generate_knot Sample.newFile fuel)⟩

/-- C14, amended: on every message whose fields have finite map depth (the
chain from a map field through the fields of its map entry is at most `n` map
fields long; `1` for a schema, `2` for a map of maps), whatever messages the
fields refer to, `generateMessageSetters` and the `fieldGoType` calls it makes
do not exhaust a budget of `n + 1` nested calls: they return or panic; on a
well-formed message the walker returns. -/
theorem generateMessageSetters_terminates (env : Env) (g : GeneratedFile) (n fuel : Nat)
    (message : Message)
    (hdepth : ∀ w ∈ message.walked, ∀ f,
      (f ∈ w.Fields ∨ ∃ o ∈ w.Oneofs, f ∈ o.Fields) → f.mapDepthLe env n) :
    generateMessageSetters env (fuel + n + 1) g message ≠ .error Failure.fuelExhausted ∧
    (∀ w ∈ message.walked, ∀ f, (f ∈ w.Fields ∨ ∃ o ∈ w.Oneofs, f ∈ o.Fields) →
      fieldGoType env g (fuel + n + 1) f ≠ .error Failure.fuelExhausted) ∧
    (message.WellFormed env →
      ∃ items, generateMessageSetters env (fuel + 2) g message = .ok (g.emit items)) :=
  ⟨generateMessageSetters_depth_ne_fuelExhausted env g n fuel message hdepth,
    fun w hw f hf => fieldGoType_depth_ne_fuelExhausted env g n fuel f (hdepth w hw f hf),
    fun hwf => ⟨_, generateMessageSetters_emit env g fuel message hwf g rfl⟩⟩

/-- Witness of C14 on the message `Grid`, which has a map of maps and a field of
its own type, and on `Shelf` and `Shelf.Book`, which name each other. -/
theorem generateMessageSetters_terminates_witness :
    Grid.parent.Message = some 0 ∧ Grid.cells.Desc.IsMap = true ∧ Grid.row.Desc.IsMap = true ∧
    generateMessageSetters Grid.env 3 Sample.newFile Grid.grid ≠
      .error Failure.fuelExhausted ∧
    (generateMessageSetters Grid.env 3 Sample.newFile Grid.grid).map (fun g => g.buf) =
      .ok ["\n\nfunc (x *Grid ) SetCells(in map[string]map[string]int32 )\x7b\n\tx.Cells = in\n\x7d\n\n",
        "\n\nfunc (x *Grid ) SetCellsKey(key string, val map[string]int32 )\x7b\n\tx.Cells[key] = val\n\x7d\n\n",
        "\n\nfunc (x *Grid ) SetParent(in *Grid )\x7b\n\tx.Parent = in\n\x7d\n\n"] ∧
    Library.shelf.Message = some 0 ∧ Library.books.Message = some 1 ∧
    generateMessageSetters Library.env 1 Sample.newFile Library.shelfMessage ≠
      .error Failure.fuelExhausted :=
  ⟨rfl, rfl, rfl,
    (generateMessageSetters_terminates Grid.env Sample.newFile 2 0 Grid.grid Grid.grid_depth).1,
    rfl, rfl, rfl,
    (generateMessageSetters_terminates Library.env Sample.newFile 0 0 Library.shelfMessage
      Library.shelf_depth).1⟩

/-! ## Lemmas on the printed methods and their names -/

/-- The items of the extras of a field. -/
theorem fieldExtraPairs_fst (env : Env) (messageName : String) (ty : Field → String × Bool)
    (field : Field) :
    (fieldExtraPairs env messageName ty field).map Prod.fst =
      fieldExtras env messageName ty field := by
  unfold fieldExtraPairs fieldExtras
  rw [List.map_append]
  congr 1
  · split <;> rfl
  · split
    · split
      · rfl
      · split <;> rfl
    · rfl

/-- The items of `ownPairs` are what the two loops print. -/
theorem ownPairs_fst (env : Env) (ty : Field → String × Bool) (message : Message) :
    (ownPairs env ty message).map Prod.fst = ownItems env ty message := by
  unfold ownPairs ownItems
  rw [List.map_append, List.map_flatMap, List.map_flatMap]
  congr 1
  · apply List.flatMap_congr
    intro o _
    rw [List.map_flatMap]
    apply List.flatMap_congr
    intro f _
    unfold oneofItems
    split <;> rfl
  · apply List.flatMap_congr
    intro f _
    unfold fieldItems
    split
    · rfl
    · rw [List.map_cons, fieldExtraPairs_fst]

/-- The names of the extras of a well-formed field. -/
theorem fieldExtraPairs_snd (env : Env) (messageName : String) (ty : Field → String × Bool)
    (field : Field) (hwf : field.WellFormed env) :
    (fieldExtraPairs env messageName ty field).map Prod.snd =
      (if field.Desc.IsList then ["Append" ++ field.GoName] else []) ++
        (if field.Desc.IsMap then ["Set" ++ field.GoName ++ "Key"] else []) := by
  unfold fieldExtraPairs
  rw [List.map_append]
  congr 1
  · split <;> rfl
  · cases hmap : field.Desc.IsMap with
    | false => simp
    | true =>
      obtain ⟨m, k, v, hm, hfields, _⟩ := hwf.2 hmap
      simp [hm, hfields]

/-- The names of `ownPairs` are the method names of the two loops. -/
theorem ownPairs_snd (env : Env) (ty : Field → String × Bool) (message : Message)
    (hwf : message.WellFormed env) :
    (ownPairs env ty message).map Prod.snd = ownMethodNames message := by
  obtain ⟨hfields, _⟩ := message.wellFormed_fields env hwf
  unfold ownPairs ownMethodNames
  rw [List.map_append, List.map_flatMap, List.map_flatMap]
  congr 1
  · apply List.flatMap_congr
    intro o _
    rw [List.map_flatMap]
    apply List.flatMap_congr
    intro f _
    split <;> rfl
  · apply List.flatMap_congr
    intro f hf
    unfold fieldMethodNames
    cases hcase : f.isOneofCase with
    | true => simp
    | false =>
      simp only [Bool.false_eq_true, if_false, List.map_cons]
      rw [fieldExtraPairs_snd env _ ty f (hfields f hf)]

/-- Every printed item declares the method whose name it is paired with. -/
theorem ownPairs_declare (env : Env) (ty : Field → String × Bool) (message : Message) :
    ∀ p ∈ ownPairs env ty message, ∃ r, declaresMethod r p.2 p.1 := by
  intro p hp
  unfold ownPairs at hp
  rcases List.mem_append.mp hp with h | h
  · obtain ⟨o, _, h⟩ := List.mem_flatMap.mp h
    obtain ⟨f, _, h⟩ := List.mem_flatMap.mp h
    split at h
    · simp at h
    · rw [List.mem_singleton.mp h]
      exact ⟨_, oneofTpl_declares (oneofInfo env (ty f).1 f)⟩
  · obtain ⟨f, _, h⟩ := List.mem_flatMap.mp h
    split at h
    · simp at h
    · rcases List.mem_cons.mp h with h | h
      · rw [h]
        exact ⟨_, tpl_declares
          { MessageName := message.GoIdent.GoName, FieldName := f.GoName,
            FieldType := paramType (ty f) }⟩
      · unfold fieldExtraPairs at h
        rcases List.mem_append.mp h with h | h
        · split at h
          · rw [List.mem_singleton.mp h]
            exact ⟨_, appendArrayTpl_declares
              { MessageName := message.GoIdent.GoName, FieldName := f.GoName,
                FieldType := stringsReplace1 (paramType (ty f)) "[]" "..." }⟩
          · simp at h
        · split at h
          · split at h
            · simp at h
            · split at h
              · rename_i k v _ _
                rw [List.mem_singleton.mp h]
                exact ⟨_, mapSetTpl_declares
                  { MessageName := message.GoIdent.GoName, FieldName := f.GoName,
                    KeyType := (ty k).1, ValueType := (ty v).1 }⟩
              · simp at h
          · simp at h

/-- The setter owed to a field of a well-formed message is printed, under the
name `Set<FieldName>`. -/
theorem ownPairs_mem (env : Env) (ty : Field → String × Bool) (message : Message)
    (hwf : message.WellFormed env) :
    ∀ f ∈ message.Fields,
      (expectedSetter env message.GoIdent.GoName ty f, "Set" ++ f.GoName) ∈
        ownPairs env ty message := by
  obtain ⟨goIdent, isMapEntry, fields, oneofs, messages⟩ := message
  simp only [Message.WellFormed] at hwf
  intro f hf
  simp only [Message.Fields] at hf
  unfold ownPairs expectedSetter
  simp only [Message.Fields, Message.Oneofs, Message.GoIdent]
  cases hcase : f.isOneofCase with
  | true =>
    simp only [Field.isOneofCase, Bool.and_eq_true, Bool.not_eq_true'] at hcase
    have h1 : f ∈ fields.filter (fun f => f.Oneof.isSome) :=
      List.mem_filter.mpr ⟨hf, hcase.1⟩
    obtain ⟨o, ho, hfo⟩ := List.mem_flatMap.mp (hwf.2.1.symm.subset h1)
    refine List.mem_append_left _ (List.mem_flatMap.mpr ⟨o, ho, List.mem_flatMap.mpr ⟨f, hfo, ?_⟩⟩)
    simp [hcase.2]
  | false =>
    refine List.mem_append_right _ (List.mem_flatMap.mpr ⟨f, hf, ?_⟩)
    simp [hcase]

/-- In a list of named items with pairwise distinct names, the items of a given
name are the one item that has it. -/
theorem filter_name_eq_singleton {α : Type} (l : List (α × String)) (a : α) (n : String)
    (hnodup : (l.map Prod.snd).Nodup) (hmem : (a, n) ∈ l) :
    l.filter (fun p => decide (p.2 = n)) = [(a, n)] := by
  induction l with
  | nil => cases hmem
  | cons p rest ih =>
    simp only [List.map_cons, List.nodup_cons] at hnodup
    rcases List.mem_cons.mp hmem with h | h
    · subst h
      have hrest : rest.filter (fun p => decide (p.2 = n)) = [] := by
        rw [List.filter_eq_nil_iff]
        intro q hq hqn
        exact hnodup.1 (List.mem_map.mpr ⟨q, hq, by simpa using hqn⟩)
      simp [List.filter_cons, hrest]
    · have hp : p.2 ≠ n := by
        intro hpn
        exact hnodup.1 (List.mem_map.mpr ⟨(a, n), h, hpn.symm⟩)
      simp [List.filter_cons, hp, ih hnodup.2 h]

/-- The message of the clash example is well formed. -/
theorem Clash.clash_wellFormed : Message.WellFormed Clash.env Clash.clash := by
  simp only [Clash.clash, Message.WellFormed, Message.WellFormedList]
  refine ⟨?_, by decide, ?_⟩
  · intro f hf
    have htyped : f.Typed := by
      revert f
      decide
    refine ⟨htyped, ?_⟩
    intro hmap
    have hf2 : f = Clash.foo := by
      revert f
      decide
    subst hf2
    exact ⟨1, Sample.attrsKey, Sample.attrsValue, rfl, rfl, by decide, by decide, rfl, rfl⟩
  · exact ⟨fun h => by simp [Clash.fooEntry, Message.IsMapEntry] at h, trivial⟩

/-- The message with two fields of the same Go name is well formed. -/
theorem Twin.twin_wellFormed : Message.WellFormed Twin.env Twin.twin := by
  simp only [Twin.twin, Message.WellFormed, Message.WellFormedList]
  refine ⟨?_, by decide, trivial⟩
  intro f hf
  have h : f.Typed ∧ f.Desc.IsMap = false := by
    revert f
    decide
  exact Field.wellFormed_of_not_map Twin.env f h.1 h.2
/-! ## Claims on the setter of each field -/

/-- C1, the claim as stated fails: the message `Clash` is well formed and has
no oneof, its field `foo_key` has the Go name `FooKey`, and the walker prints
two different functions named `SetFooKey`, the map-entry setter of the map
field `foo` and the plain setter of `foo_key`. The message `Twin`, well formed
and without oneof too, has two fields of the Go name `Id`, and the walker
prints two different functions named `SetId`. -/
theorem clash_two_functions_for_one_field :
    Message.WellFormed Clash.env Clash.clash ∧ Clash.clash.Oneofs = [] ∧
    Clash.fooKey ∈ Clash.clash.Fields ∧ "Set" ++ Clash.fooKey.GoName = "SetFooKey" ∧
    (generateMessageSetters Clash.env 2 Sample.newFile Clash.clash).map (fun g => g.buf) =
      .ok ["\n\nfunc (x *Clash ) SetFoo(in map[string]int32 )\x7b\n\tx.Foo = in\n\x7d\n\n",
        "\n\nfunc (x *Clash ) SetFooKey(key string, val int32 )\x7b\n\tx.Foo[key] = val\n\x7d\n\n",
        "\n\nfunc (x *Clash ) SetFooKey(in string )\x7b\n\tx.FooKey = in\n\x7d\n\n"] ∧
    declaresMethod "Clash" ("Set" ++ Clash.fooKey.GoName)
      "\n\nfunc (x *Clash ) SetFooKey(key string, val int32 )\x7b\n\tx.Foo[key] = val\n\x7d\n\n" ∧
    declaresMethod "Clash" ("Set" ++ Clash.fooKey.GoName)
      "\n\nfunc (x *Clash ) SetFooKey(in string )\x7b\n\tx.FooKey = in\n\x7d\n\n" ∧
    "\n\nfunc (x *Clash ) SetFooKey(key string, val int32 )\x7b\n\tx.Foo[key] = val\n\x7d\n\n" ≠
      "\n\nfunc (x *Clash ) SetFooKey(in string )\x7b\n\tx.FooKey = in\n\x7d\n\n" ∧
    (ownPairs Clash.env (resolvedType Clash.env Sample.newFile 2) Clash.clash).filter
        (fun p => decide (p.2 = "Set" ++ Clash.fooKey.GoName)) =
      [("\n\nfunc (x *Clash ) SetFooKey(key string, val int32 )\x7b\n\tx.Foo[key] = val\n\x7d\n\n",
          "SetFooKey"),
        ("\n\nfunc (x *Clash ) SetFooKey(in string )\x7b\n\tx.FooKey = in\n\x7d\n\n",
          "SetFooKey")] ∧
    Message.WellFormed Twin.env Twin.twin ∧ Twin.twin.Oneofs = [] ∧
    Twin.second ∈ Twin.twin.Fields ∧ "Set" ++ Twin.second.GoName = "SetId" ∧
    (generateMessageSetters Twin.env 2 Sample.newFile Twin.twin).map (fun g => g.buf) =
      .ok ["\n\nfunc (x *Twin ) SetId(in string )\x7b\n\tx.Id = in\n\x7d\n\n",
        "\n\nfunc (x *Twin ) SetId(in int32 )\x7b\n\tx.Id = in\n\x7d\n\n"] ∧
    declaresMethod "Twin" ("Set" ++ Twin.second.GoName)
      "\n\nfunc (x *Twin ) SetId(in string )\x7b\n\tx.Id = in\n\x7d\n\n" ∧
    declaresMethod "Twin" ("Set" ++ Twin.second.GoName)
      "\n\nfunc (x *Twin ) SetId(in int32 )\x7b\n\tx.Id = in\n\x7d\n\n" ∧
    (ownPairs Twin.env (resolvedType Twin.env Sample.newFile 2) Twin.twin).filter
        (fun p => decide (p.2 = "Set" ++ Twin.second.GoName)) =
      [("\n\nfunc (x *Twin ) SetId(in string )\x7b\n\tx.Id = in\n\x7d\n\n", "SetId"),
        ("\n\nfunc (x *Twin ) SetId(in int32 )\x7b\n\tx.Id = in\n\x7d\n\n", "SetId")] :=
  ⟨Clash.clash_wellFormed, rfl, by decide, by decide, rfl,
    ⟨"key string, val int32 )\x7b\n\tx.Foo[key] = val\n\x7d\n\n", rfl⟩,
    ⟨"in string )\x7b\n\tx.FooKey = in\n\x7d\n\n", rfl⟩, by decide, by decide,
    Twin.twin_wellFormed, rfl, by decide, by decide, rfl,
    ⟨"in string )\x7b\n\tx.Id = in\n\x7d\n\n", rfl⟩,
    ⟨"in int32 )\x7b\n\tx.Id = in\n\x7d\n\n", rfl⟩, by decide⟩

/-- C1, amended: for a well-formed message (the member lists of its oneofs hold
exactly the fields that have an enclosing oneof) whose fields have pairwise
distinct Go names and of which none is called like a map field of the message
with `Key` added, `generateMessageSetters` returns and prints, after the output
of the nested messages, the items of `ownPairs`, each declaring the method it
is paired with; of these, for every field exactly one is named
`Set<FieldName>`: the oneof-case setter for a oneof member without the
`optional` keyword, the plain setter otherwise. Everything else it prints is
the append mutator of a list field or the map-entry setter of a map field. -/
theorem generateMessageSetters_one_setter_per_field (env : Env) (g : GeneratedFile)
    (fuel : Nat) (message : Message) (hwf : message.WellFormed env)
    (hnames : (message.Fields.map Field.GoName).Nodup)
    (hclash : ∀ f ∈ message.Fields, ∀ h ∈ message.Fields, h.Desc.IsMap = true →
      h.isOneofCase = false → f.GoName ≠ h.GoName ++ "Key") :
    ∃ nested extras,
      generateNested env (fuel + 2) g message.Messages = .ok (g.emit nested) ∧
      generateMessageSetters env (fuel + 2) g message =
        .ok (g.emit (nested ++
          (ownPairs env (resolvedType env g (fuel + 2)) message).map Prod.fst)) ∧
      (∀ p ∈ ownPairs env (resolvedType env g (fuel + 2)) message,
        ∃ r, declaresMethod r p.2 p.1) ∧
      (∀ f ∈ message.Fields,
        fieldGoType env g (fuel + 2) f = .ok (resolvedType env g (fuel + 2) f)) ∧
      (∀ f ∈ message.Fields,
        (ownPairs env (resolvedType env g (fuel + 2)) message).filter
            (fun p => decide (p.2 = "Set" ++ f.GoName)) =
          [(expectedSetter env message.GoIdent.GoName (resolvedType env g (fuel + 2)) f,
            "Set" ++ f.GoName)]) ∧
      List.Perm ((ownPairs env (resolvedType env g (fuel + 2)) message).map Prod.fst)
        (message.Fields.map
          (expectedSetter env message.GoIdent.GoName (resolvedType env g (fuel + 2))) ++
          extras) ∧
      ∀ e ∈ extras, ∃ f ∈ message.Fields, f.isOneofCase = false ∧
        ((f.Desc.IsList = true ∧ ∃ t, e = ExecuteTemplate appendArrayTpl
            { MessageName := message.GoIdent.GoName, FieldName := f.GoName, FieldType := t }) ∨
          (f.Desc.IsMap = true ∧ ∃ k v, e = ExecuteTemplate mapSetTpl
            { MessageName := message.GoIdent.GoName, FieldName := f.GoName, KeyType := k,
              ValueType := v })) := by
  have hgen := generateMessageSetters_emit env g fuel message hwf g rfl
  have hnodup : ((ownPairs env (resolvedType env g (fuel + 2)) message).map Prod.snd).Nodup := by
    rw [ownPairs_snd env _ message hwf]
    exact ownMethodNames_nodup env message hwf hnames hclash
  have hmem := ownPairs_mem env (resolvedType env g (fuel + 2)) message hwf
  have hdecl := ownPairs_declare env (resolvedType env g (fuel + 2)) message
  rw [ownPairs_fst]
  obtain ⟨goIdent, isMapEntry, fields, oneofs, messages⟩ := message
  simp only [Message.WellFormed] at hwf
  obtain ⟨hfields, hperm, hnested⟩ := hwf
  simp only [Message.Fields, Message.Messages, Message.GoIdent] at hmem ⊢
  refine ⟨nestedItems env (resolvedType env g (fuel + 2)) messages,
    fields.flatMap (extraItems env goIdent.GoName (resolvedType env g (fuel + 2))),
    generateNested_emit env g fuel messages hnested g rfl, ?_, hdecl, ?_, ?_, ?_, ?_⟩
  · rw [hgen, messageItems]
    rfl
  · intro f hf
    exact resolvedType_eq env g (fuel + 2) f
      (fieldGoType_ok_of_wellFormed env g fuel f (hfields f hf))
  · intro f hf
    exact filter_name_eq_singleton _ _ _ hnodup (hmem f hf)
  · simp only [ownItems, Message.Oneofs, Message.Fields, Message.GoIdent]
    rw [← List.flatMap_assoc]
    exact (List.Perm.append_right _ (List.Perm.flatMap_right _ hperm)).trans
      (own_items_perm env goIdent.GoName _ fields)
  · exact extraItems_shape env goIdent.GoName _ fields

/-- Witness of C1 on the example message, whose fields `a` and `b` are the
members of a oneof and whose field `attrs` is a map. -/
theorem generateMessageSetters_one_setter_per_field_witness :
    Message.WellFormed Sample.env Sample.sample ∧
    (Sample.sample.Fields.map Field.GoName).Nodup ∧
    Sample.a ∈ Sample.sample.Fields ∧ Sample.a.isOneofCase = true ∧
    Sample.attrs ∈ Sample.sample.Fields ∧ Sample.attrs.Desc.IsMap = true ∧
    ∃ nested extras,
      generateNested Sample.env 2 Sample.newFile Sample.sample.Messages =
        .ok (Sample.newFile.emit nested) ∧
      generateMessageSetters Sample.env 2 Sample.newFile Sample.sample =
        .ok (Sample.newFile.emit (nested ++
          (ownPairs Sample.env (resolvedType Sample.env Sample.newFile 2) Sample.sample).map
            Prod.fst)) ∧
      (∀ p ∈ ownPairs Sample.env (resolvedType Sample.env Sample.newFile 2) Sample.sample,
        ∃ r, declaresMethod r p.2 p.1) ∧
      (∀ f ∈ Sample.sample.Fields,
        fieldGoType Sample.env Sample.newFile 2 f =
          .ok (resolvedType Sample.env Sample.newFile 2 f)) ∧
      (∀ f ∈ Sample.sample.Fields,
        (ownPairs Sample.env (resolvedType Sample.env Sample.newFile 2) Sample.sample).filter
            (fun p => decide (p.2 = "Set" ++ f.GoName)) =
          [(expectedSetter Sample.env Sample.sample.GoIdent.GoName
              (resolvedType Sample.env Sample.newFile 2) f, "Set" ++ f.GoName)]) ∧
      List.Perm
        ((ownPairs Sample.env (resolvedType Sample.env Sample.newFile 2) Sample.sample).map
          Prod.fst)
        (Sample.sample.Fields.map
          (expectedSetter Sample.env Sample.sample.GoIdent.GoName
            (resolvedType Sample.env Sample.newFile 2)) ++ extras) ∧
      ∀ e ∈ extras, ∃ f ∈ Sample.sample.Fields, f.isOneofCase = false ∧
        ((f.Desc.IsList = true ∧ ∃ t, e = ExecuteTemplate appendArrayTpl
            { MessageName := Sample.sample.GoIdent.GoName, FieldName := f.GoName,
              FieldType := t }) ∨
          (f.Desc.IsMap = true ∧ ∃ k v, e = ExecuteTemplate mapSetTpl
            { MessageName := Sample.sample.GoIdent.GoName, FieldName := f.GoName, KeyType := k,
              ValueType := v })) :=
  ⟨Sample.sample_wellFormed, by decide, by decide, rfl, by decide, rfl,
    generateMessageSetters_one_setter_per_field Sample.env Sample.newFile 0 Sample.sample
      Sample.sample_wellFormed (by decide) (by decide)⟩

end GoSetters
